import Mathlib

/-!
Verification development for the woof translation compiler.

Strings from the Rust source are embedded as `List Char`; byte offsets are
computed from UTF-8 character sizes (`Char.utf8Size`), matching Rust's
`str::char_indices`.  miette `SourceSpan`s are embedded as `(offset, length)`
pairs of byte offsets, matching `SourceSpan::from(Range)` /
`SourceSpan::from((usize, usize))`.
-/

namespace Woof

/-- Byte length of a character sequence under UTF-8 (Rust `str::len`). -/
def byteLen (s : List Char) : Nat := (s.map Char.utf8Size).sum

/-- Rust `str::char_indices` starting from byte offset `i`: each character
paired with the byte offset at which it starts. -/
def charIndices (i : Nat) : List Char → List (Nat × Char)
  | [] => []
  | c :: cs => (i, c) :: charIndices (i + c.utf8Size) cs

/-- Split a character sequence at byte offset `b`; `some (pre, post)` when `b`
is a character boundary within the sequence (Rust `str::is_char_boundary`
together with slicing), `none` otherwise. -/
def splitAtByte : List Char → Nat → Option (List Char × List Char)
  | l, 0 => some ([], l)
  | [], _ + 1 => none
  | c :: rest, b + 1 =>
    if _h : b + 1 < c.utf8Size then none
    else (splitAtByte rest (b + 1 - c.utf8Size)).map (fun p => (c :: p.1, p.2))

/-- The character starting at byte offset `b`, when `b` is a character
boundary pointing at a character. -/
def charAtByte (s : List Char) (b : Nat) : Option Char :=
  match splitAtByte s b with
  | some (_, c :: _) => some c
  | _ => none

/-- `src/interpolations.rs` / `src/parse.rs`: the interpolation type tag. -/
inductive InterpolationType
  | none
  | string
  | number
deriving DecidableEq, Repr

/-- `src/interpolations.rs`: a single parsed interpolation occurrence, with
its name and the inclusive byte-offset span of the `{...}` token.  Rust field
`end` is written `end_`. -/
structure ParsedInterpolation where
  type_ : InterpolationType
  name : List Char
  start : Nat
  end_ : Nat
deriving DecidableEq, Repr

/-- `src/interpolations.rs`: `InterpolationParseError`.  Each span is the
miette `SourceSpan` as an `(offset, length)` byte pair. -/
inductive InterpolationParseError
  | Empty (span : Nat × Nat)
  | InvalidIdentifier (span : Nat × Nat)
  | Unclosed (span : Nat × Nat)
  | InvalidType (at_ : Nat × Nat) (type_ : List Char)
deriving DecidableEq, Repr

/-- Rust `char::is_ascii_alphabetic`. -/
def isAsciiAlphabetic (c : Char) : Bool :=
  ('A' ≤ c && c ≤ 'Z') || ('a' ≤ c && c ≤ 'z')

/-- Rust `char::is_ascii_alphanumeric`. -/
def isAsciiAlphanumeric (c : Char) : Bool :=
  isAsciiAlphabetic c || ('0' ≤ c && c ≤ '9')

/-- `src/sanitize.rs`: `is_valid_identifier` — first character an ASCII
letter, the rest ASCII alphanumeric or underscore. -/
def is_valid_identifier (s : List Char) : Bool :=
  match s with
  | [] => false
  | c :: cs => isAsciiAlphabetic c && cs.all (fun d => isAsciiAlphanumeric d || d == '_')

/-- `src/interpolations.rs`: `validate_interpolation_name`.  Returns the
error, if any.  The Rust `Empty` span is `start.into()` (offset `start`,
length 0); the `InvalidIdentifier` span is `(start + 1, name.len())`. -/
def validate_interpolation_name (start : Nat) (name : List Char) :
    Option InterpolationParseError :=
  if name = [] then some (.Empty (start, 0))
  else if ¬ is_valid_identifier name then
    some (.InvalidIdentifier (start + 1, byteLen name))
  else none

/-- `src/interpolations.rs`: `InterpolationType::try_from(&str)`. -/
def interpTypeOf (t : List Char) : Option InterpolationType :=
  if t = "string".data then some .string
  else if t = "number".data then some .number
  else Option.none

/-- Scanner control state.  `closed`/`opened` mirror the Rust
`parsing_interpolation` flag.  `afterBrace i wasOpen` is the state right
after reading a `{` at byte offset `i`, before the `chars.peek()` escape
check has been resolved against the following character.  The two `skip`
modes are the Rust inner
`while chars.peek().is_some_and(|&(_, c)| c != '}')` resynchronization
loops, flattened into the outer loop: `skipNest` carries the byte index of
the offending second `{` and the running character count `offset`,
`skipColon` carries the already-computed validation error. -/
inductive ScanMode
  | closed
  | opened
  | afterBrace (brace : Nat) (wasOpen : Bool)
  | skipNest (brace2 off : Nat)
  | skipColon (err : InterpolationParseError)
deriving DecidableEq, Repr

/-- The scanner's mutable locals in `parse_interpolations`. -/
structure ScanSt where
  mode : ScanMode
  start : Nat
  ptype : Bool
  name : List Char
  typ : List Char
  occs : List ParsedInterpolation
  errs : List InterpolationParseError
deriving DecidableEq, Repr

/-- The `opened`-mode handling of a character other than `{`, shared between
the `opened` state proper and the resolution of an `afterBrace` state that
turned out to open an interpolation: the `:`, `}` and accumulation arms of
the Rust loop body. -/
def openedStep (st : ScanSt) (i : Nat) (c : Char) : ScanSt :=
  if c = ':' then
    match validate_interpolation_name st.start st.name with
    | some err => { st with mode := .skipColon err, name := [] }
    | Option.none => { st with ptype := true }
  else if c = '}' then
    if st.typ ≠ [] then
      match interpTypeOf st.typ with
      | some t =>
        { st with
            mode := .closed, ptype := false, name := [], typ := []
            occs := st.occs ++ [⟨t, st.name, st.start, i⟩] }
      | Option.none =>
        { st with
            mode := .closed, ptype := false, name := [], typ := []
            errs := st.errs ++ [.InvalidType
              (st.start + byteLen st.name + 2, i - (st.start + byteLen st.name + 2)) st.typ] }
    else
      match validate_interpolation_name st.start st.name with
      | Option.none =>
        { st with
            mode := .closed, ptype := false, name := []
            occs := st.occs ++ [⟨.none, st.name, st.start, i⟩] }
      | some err =>
        { st with
            mode := .closed, ptype := false, name := []
            errs := st.errs ++ [err] }
  else if st.ptype then { st with typ := st.typ ++ [c] }
  else { st with name := st.name ++ [c] }

/-- One iteration of the `while let Some((byte_index, c)) = chars.next()`
loop of `src/interpolations.rs::parse_interpolations`, consuming exactly one
character.  The Rust `chars.peek()` escape check after a `{` is deferred to
the next character via the `afterBrace` mode: on `{` the escape is consumed
with no state change; on anything else the brace is first resolved — a
nesting error entering the resynchronization skip, or an opening of the
interpolation — and the character is then processed by the resulting state,
exactly as the next Rust loop iteration would. -/
def step (st : ScanSt) (ic : Nat × Char) : ScanSt :=
  let i := ic.1
  let c := ic.2
  match st.mode with
  | .afterBrace b wasOpen =>
    if c = '{' then
      { st with mode := if wasOpen then .opened else .closed }
    else if wasOpen then
      if c = '}' then
        { st with
            mode := .closed, ptype := false, name := []
            errs := st.errs ++ [.InvalidIdentifier (st.start + 1, b - (st.start + 1))] }
      else
        { st with mode := .skipNest b 1, ptype := false, name := [] }
    else
      openedStep { st with mode := .opened, start := b } i c
  | .skipNest b2 off =>
    if c = '}' then
      { st with
          mode := .closed
          errs := st.errs ++ [.InvalidIdentifier (st.start + 1, b2 + off - (st.start + 1))] }
    else
      { st with mode := .skipNest b2 (off + 1) }
  | .skipColon err =>
    if c = '}' then { st with mode := .closed, errs := st.errs ++ [err] }
    else st
  | .closed =>
    if c = '{' then { st with mode := .afterBrace i false } else st
  | .opened =>
    if c = '{' then { st with mode := .afterBrace i true } else openedStep st i c

/-- End-of-input resolution: a pending `afterBrace` is resolved with
`chars.peek()` returning `None` (so not an escape), and a pending
resynchronization skip pushes its error, exactly as the Rust inner loops do
when the iterator is exhausted. -/
def scanEnd (st : ScanSt) : ScanSt :=
  match st.mode with
  | .afterBrace b wasOpen =>
    if wasOpen then
      { st with
          mode := .closed, ptype := false, name := []
          errs := st.errs ++ [.InvalidIdentifier (st.start + 1, b - (st.start + 1))] }
    else
      { st with mode := .opened, start := b }
  | .skipNest b2 off =>
    { st with
        mode := .closed
        errs := st.errs ++ [.InvalidIdentifier (st.start + 1, b2 + off - (st.start + 1))] }
  | .skipColon err => { st with mode := .closed, errs := st.errs ++ [err] }
  | _ => st

/-- The full scanner loop over a `char_indices` sequence. -/
def scan (l : List (Nat × Char)) (st : ScanSt) : ScanSt :=
  scanEnd (l.foldl step st)

/-- `src/interpolations.rs`: result of `parse_interpolations`. -/
structure ParsedInterpolations where
  interpolations : List ParsedInterpolation
  errors : List InterpolationParseError
deriving DecidableEq, Repr

/-- Scanner state at loop entry: all locals at their `Default` values. -/
def initSt : ScanSt := ⟨.closed, 0, false, [], [], [], []⟩

/-- `src/interpolations.rs`: `parse_interpolations`.  Fast path when the
string holds no `{`; otherwise run the scanner and append the `Unclosed`
error (span `start_byte_index + 1 .. s.len()`) when the scanner ends inside
an open interpolation. -/
def parse_interpolations (s : List Char) : ParsedInterpolations :=
  if ¬ s.contains '{' then ⟨[], []⟩
  else
    let st := scan (charIndices 0 s) initSt
    ⟨st.occs,
      if st.mode = .opened then
        st.errs ++ [.Unclosed (st.start + 1, byteLen s - (st.start + 1))]
      else st.errs⟩

/-!
## `src/sanitize.rs`

`sanitize_key` uses Rust's Unicode-aware `char::is_alphanumeric` and
`char::is_numeric`.  Every theorem below applies `sanitize_key` to ASCII
keys only, on which those predicates coincide with their ASCII counterparts;
the embedding uses the ASCII fragment and the theorems carry an explicit
ASCII hypothesis wherever Unicode behaviour could differ.
-/

/-- ASCII fragment of Rust `char::is_alphanumeric` (see section note). -/
def rustAlnum (c : Char) : Bool := isAsciiAlphanumeric c

/-- ASCII fragment of Rust `char::is_numeric` (see section note). -/
def rustNumeric (c : Char) : Bool := '0' ≤ c && c ≤ '9'

/-- `src/sanitize.rs`: the `KEYWORDS` table of `is_reserved_keyword`,
verbatim. -/
def KEYWORDS : List (List Char) :=
  ["abstract".data, "arguments".data, "await".data, "boolean".data,
   "break".data, "byte".data, "case".data, "catch".data, "char".data,
   "class".data, "const".data, "continue".data, "debugger".data,
   "default".data, "delete".data, "do".data, "double".data, "else".data,
   "enum".data, "eval".data, "export".data, "extends".data, "false".data,
   "final".data, "finally".data, "float".data, "for".data, "function".data,
   "goto".data, "if".data, "implements".data, "import".data, "in".data,
   "instanceof".data, "int".data, "interface".data, "let".data, "long".data,
   "native".data, "new".data, "null".data, "package".data, "private".data,
   "protected".data, "public".data, "return".data, "short".data,
   "static".data, "super".data, "switch".data, "synchronized".data,
   "this".data, "throw".data, "throws".data, "transient".data, "true".data,
   "try".data, "typeof".data, "var".data, "void".data, "volatile".data,
   "while".data, "with".data, "yield".data,
   "any".data, "as".data, "async".data, "asserts".data, "bigint".data,
   "constructor".data, "declare".data, "from".data, "get".data,
   "infer".data, "is".data, "keyof".data, "module".data, "namespace".data,
   "never".data, "readonly".data, "require".data, "set".data,
   "string".data, "symbol".data, "type".data, "undefined".data,
   "unique".data, "unknown".data, "using".data,
   "Array".data, "Boolean".data, "Date".data, "Error".data,
   "Function".data, "JSON".data, "Math".data, "Number".data, "Object".data,
   "Promise".data, "RegExp".data, "String".data, "Symbol".data, "Map".data,
   "Set".data, "WeakMap".data, "WeakSet".data,
   "console".data, "window".data, "document".data, "process".data,
   "global".data, "Buffer".data, "module".data, "exports".data,
   "require".data, "__dirname".data, "__filename".data]

/-- `src/sanitize.rs`: `is_reserved_keyword` (membership in the keyword
set). -/
def is_reserved_keyword (w : List Char) : Bool := KEYWORDS.contains w

/-- `src/sanitize.rs`: `sanitize_key` — keep alphanumerics and underscores,
prepend `_` when the result starts with a digit, append `_` when the result
is a reserved keyword. -/
def sanitize_key (key : List Char) : List Char :=
  let s := key.filter (fun c => rustAlnum c || c == '_')
  let s := match s with
    | c :: _ => if rustNumeric c then '_' :: s else s
    | [] => s
  if is_reserved_keyword s then s ++ ['_'] else s

/-- `src/sanitize.rs`: `escape_translation` — escape backticks and
backslashes, and a `$` immediately followed by `{`. -/
def escape_translation : List Char → List Char
  | [] => []
  | c :: rest =>
    if c = Char.ofNat 96 then '\\' :: Char.ofNat 96 :: escape_translation rest
    else if c = '\\' then '\\' :: '\\' :: escape_translation rest
    else if c = '$' ∧ rest.head? = some '{' then '\\' :: '$' :: escape_translation rest
    else c :: escape_translation rest

/-!
## `src/parse.rs` — data model

Rust `String` map keys are compared byte-lexicographically; UTF-8 byte order
agrees with code-point order, so `lexLt` compares code points.  `BTreeMap`s
are embedded as association lists kept sorted by key (the map's canonical
iteration order); `HashMap`s are embedded the same way, the sorted list
serving as a canonical representative of the unordered map.
-/

/-- Rust `String` ordering: lexicographic on code points (equivalently, on
UTF-8 bytes). -/
def lexLt : List Char → List Char → Bool
  | [], [] => false
  | [], _ :: _ => true
  | _ :: _, [] => false
  | a :: as, b :: bs =>
    if a.toNat < b.toNat then true
    else if b.toNat < a.toNat then false
    else lexLt as bs

/-- Insert into an association list kept sorted by the strict order `lt`,
replacing the value (and keeping the stored key) when the key is already
present — `BTreeMap::insert` / the write-back of `BTreeMap::entry`. -/
def insertSorted (lt : κ → κ → Bool) (k : κ) (v : α) : List (κ × α) → List (κ × α)
  | [] => [(k, v)]
  | (k', v') :: rest =>
    if lt k k' then (k, v) :: (k', v') :: rest
    else if lt k' k then (k', v') :: insertSorted lt k v rest
    else (k', v) :: rest

/-- Map lookup: the first entry whose key is `lt`-equivalent to `k`
(`BTreeMap::get` on the sorted representation). -/
def lookupAssoc (lt : κ → κ → Bool) (k : κ) : List (κ × α) → Option α
  | [] => Option.none
  | (k', v') :: rest =>
    if ¬ lt k k' ∧ ¬ lt k' k then some v' else lookupAssoc lt k rest

/-- `src/parse.rs`: `Key` — the literal key text together with its sanitized
form.  `Hash`/`Eq`/`Ord` on the Rust side use the literal only. -/
structure Key where
  literal : List Char
  sanitized : List Char
deriving DecidableEq, Repr

/-- `src/parse.rs`: `Key::new`. -/
def Key.new (literal : List Char) : Key :=
  ⟨literal, sanitize_key literal⟩

/-- The Rust `Ord for Key`: by literal. -/
def keyLt (a b : Key) : Bool := lexLt a.literal b.literal

/-- `src/parse.rs`: `Translation` — a translation string stored in escaped
form (`Translation::new` applies `escape_translation`).  The Rust struct is
a one-field tuple; the field is named `escaped` here. -/
structure Translation where
  escaped : List Char
deriving DecidableEq, Repr

/-- `src/parse.rs`: `Translation::new`. -/
def Translation.new (literal : List Char) : Translation :=
  ⟨escape_translation literal⟩

mutual
/-- `toml::Value`: the generic deserialized TOML value tree.  Tables are a
separate type so that the builder can recurse structurally; `toml`'s map has
unique keys, iterated in sorted order, which `TomlTable` lists represent
directly. -/
inductive TomlValue where
  | vstr (s : List Char)
  | vint (n : Int)
  | vfloat
  | vbool (b : Bool)
  | vdatetime
  | varray (elems : TomlArray)
  | vtable (t : TomlTable)

/-- Payload of `toml::Value::Array`: a list of values (spelled out so the
mutual block needs no nested `List`). -/
inductive TomlArray where
  | nil
  | cons (v : TomlValue) (rest : TomlArray)

/-- A TOML table as its (unique-keyed) key/value sequence. -/
inductive TomlTable where
  | nil
  | cons (key : List Char) (value : TomlValue) (rest : TomlTable)
end

/-- `toml::Value::type_str`. -/
def TomlValue.type_str : TomlValue → List Char
  | .vstr _ => "string".data
  | .vint _ => "integer".data
  | .vfloat => "float".data
  | .vbool _ => "boolean".data
  | .vdatetime => "datetime".data
  | .varray _ => "array".data
  | .vtable _ => "table".data

/-- `src/parse.rs`: `ParseInterpolationError`. -/
inductive ParseInterpolationError where
  | UnknownType (t : List Char)
deriving DecidableEq, Repr

/-- `src/parse.rs`: `WoofError`, restricted to the variants the embedded
core can produce.  The omitted variants (`Io`, `Toml`, `InvalidInputDirectory`,
`OutputFileExists`, `MixedFileModes`, `InvalidNamespacedFileName`) carry
foreign payloads and arise only in the file-loading and output stages, which
are outside the embedded core. -/
inductive WoofError where
  | RootNotTable
  | UnsupportedValueType (typename path : List Char)
  | InvalidInterpolation (s : List Char)
  | InvalidInterpolationIdentifier (name : List Char)
  | InterpolationTypeMismatch
  | InterpolationError (e : ParseInterpolationError)
deriving DecidableEq, Repr

/-- `src/parse.rs`: the top-level `validate_interpolation_name` used by
`Translation::parse_interpolations` — same identifier rule as
`is_valid_identifier`, reported as a hard `WoofError`. -/
def validate_name_strict (name : List Char) : Except WoofError Unit :=
  match name with
  | [] => .error (.InvalidInterpolationIdentifier name)
  | c :: rest =>
    if ¬ isAsciiAlphabetic c then .error (.InvalidInterpolationIdentifier name)
    else if ¬ rest.all (fun d => isAsciiAlphanumeric d || d == '_') then
      .error (.InvalidInterpolationIdentifier name)
    else .ok ()

/-- `src/parse.rs`: `InterpolationType::try_from(&str)` — same vocabulary as
the `interpolations.rs` copy, but failing with the carried type name. -/
def interpTypeOfStrict (t : List Char) : Except WoofError InterpolationType :=
  if t = "string".data then .ok .string
  else if t = "number".data then .ok .number
  else .error (.InterpolationError (.UnknownType t))

/-- Scanner state of `Translation::parse_interpolations` (the hard-error
parser in `src/parse.rs`): like `ScanSt` but with no recovery modes — the
paths that `interpolations.rs` turns into recoverable diagnostics return
`Err` here. -/
structure StrictSt where
  mode : ScanMode
  start : Nat
  ptype : Bool
  name : List Char
  typ : List Char
  occs : List ParsedInterpolation
deriving DecidableEq, Repr

/-- The `:` / `}` / accumulation arms of the `src/parse.rs` strict parser in
the open state, for a character other than `{`. -/
def strictOpenedStep (st : StrictSt) (i : Nat) (c : Char) :
    Except WoofError StrictSt :=
  if c = ':' then
    match validate_name_strict st.name with
    | .error e => .error e
    | .ok _ => .ok { st with ptype := true }
  else if c = '}' then
    if st.typ ≠ [] then
      match interpTypeOfStrict st.typ with
      | .error e => .error e
      | .ok t =>
        .ok { st with
                mode := .closed, ptype := false, name := [], typ := []
                occs := st.occs ++ [⟨t, st.name, st.start, i⟩] }
    else
      match validate_name_strict st.name with
      | .error e => .error e
      | .ok _ =>
        .ok { st with
                mode := .closed, ptype := false, name := []
                occs := st.occs ++ [⟨.none, st.name, st.start, i⟩] }
  else if st.ptype then .ok { st with typ := st.typ ++ [c] }
  else .ok { st with name := st.name ++ [c] }

/-- One loop iteration of `Translation::parse_interpolations` in
`src/parse.rs`; `s` is the whole (escaped) string, carried for the
`InvalidInterpolation(s.to_string())` payloads.  The `afterBrace` mode
defers the `chars.peek()` escape check exactly as in `step`. -/
def strictStep (s : List Char) (st : StrictSt) (ic : Nat × Char) :
    Except WoofError StrictSt :=
  let i := ic.1
  let c := ic.2
  match st.mode with
  | .afterBrace b wasOpen =>
    if c = '{' then
      .ok { st with mode := if wasOpen then .opened else .closed }
    else if wasOpen then
      .error (.InvalidInterpolation s)
    else
      strictOpenedStep { st with mode := .opened, start := b } i c
  | .opened =>
    if c = '{' then .ok { st with mode := .afterBrace i true }
    else strictOpenedStep st i c
  | _ =>
    if c = '{' then .ok { st with mode := .afterBrace i false }
    else .ok st

/-- `src/parse.rs`: `Translation::parse_interpolations` — the hard-error
parser: scan the escaped string, failing on the first nesting error, invalid
identifier, unknown type, or unclosed interpolation. -/
def Translation.parse_interpolations (t : Translation) :
    Except WoofError (List ParsedInterpolation) := do
  let s := t.escaped
  let st ← (charIndices 0 s).foldlM (strictStep s) ⟨.closed, 0, false, [], [], []⟩
  match st.mode with
  | .closed => .ok st.occs
  | _ => .error (.InvalidInterpolation s)

/-- `src/parse.rs`: `Interpolation` — the merged per-message view of one
placeholder: a type tag and the per-locale byte spans.  The Rust ranges map
is a `HashMap<Locale, (usize, usize)>`, represented here sorted by locale as
the canonical form of the unordered map. -/
structure Interpolation where
  type_ : InterpolationType
  ranges : List (List Char × (Nat × Nat))
deriving DecidableEq, Repr

/-- `src/parse.rs`: `Message` — per-locale translations and the merged
interpolation map, both `BTreeMap`s (sorted by locale / by key literal). -/
structure Message where
  translation : List (List Char × Translation)
  interpolations : List (Key × Interpolation)
deriving DecidableEq, Repr

/-- `src/parse.rs`: `Module` — key-sorted maps of messages and nested
modules. -/
inductive Module where
  | mk (messages : List (Key × Message)) (modules : List (Key × Module))

/-- Projection: the messages map of a module. -/
def Module.messages : Module → List (Key × Message)
  | .mk ms _ => ms

/-- Projection: the submodules map of a module. -/
def Module.modules : Module → List (Key × Module)
  | .mk _ md => md

/-- The `for interpolation in interpolations` merge loop of `build_module`
(`src/parse.rs`): entry-or-insert the placeholder under its name (seeding
the type with the first-seen occurrence's type), record this locale's
`(start, end)` span, then fail hard when the parsed type differs from the
stored one. -/
def mergeOccs (locale : List Char) :
    Message → List ParsedInterpolation → Except WoofError Message
  | msg, [] => .ok msg
  | msg, occ :: rest =>
    let entry := (lookupAssoc keyLt (Key.new occ.name) msg.interpolations).getD
      ⟨occ.type_, []⟩
    let entry2 :=
      { entry with ranges := insertSorted lexLt locale (occ.start, occ.end_) entry.ranges }
    let msg2 :=
      { msg with interpolations := insertSorted keyLt (Key.new occ.name) entry2 msg.interpolations }
    if occ.type_ ≠ entry.type_ then .error .InterpolationTypeMismatch
    else mergeOccs locale msg2 rest

/-- `src/parse.rs`: `build_module` — walk one locale's table, merging each
key into the message/submodule maps: strings are parsed with the hard-error
parser and merged; tables recurse into the child module's own maps; any
other value shape aborts with `UnsupportedValueType` carrying the value's
type name and the key. -/
def build_module (locale : List Char) :
    TomlTable → List (Key × Message) → List (Key × Module) →
    Except WoofError (List (Key × Message) × List (Key × Module))
  | .nil, messages, modules => .ok (messages, modules)
  | .cons k v rest, messages, modules =>
    match v with
    | .vstr s =>
      let key := Key.new k
      let message := (lookupAssoc keyLt key messages).getD ⟨[], []⟩
      match (Translation.new s).parse_interpolations with
      | .error e => .error e
      | .ok interpolations =>
        let message2 := { message with
          translation := insertSorted lexLt locale (Translation.new s) message.translation }
        match mergeOccs locale message2 interpolations with
        | .error e => .error e
        | .ok message3 =>
          build_module locale rest (insertSorted keyLt key message3 messages) modules
    | .vtable t =>
      let key := Key.new k
      let child := (lookupAssoc keyLt key modules).getD (.mk [] [])
      match build_module locale t child.messages child.modules with
      | .error e => .error e
      | .ok (ms, md) =>
        build_module locale rest messages (insertSorted keyLt key (.mk ms md) modules)
    | other =>
      .error (.UnsupportedValueType other.type_str k)

/-- The per-locale fold of `build_flat_module`: each locale's top-level
value must be a table (`RootNotTable` otherwise) and is walked by
`build_module` into the shared maps. -/
def buildLocales :
    List (List Char × TomlValue) → List (Key × Message) → List (Key × Module) →
    Except WoofError (List (Key × Message) × List (Key × Module))
  | [], ms, md => .ok (ms, md)
  | (locale, v) :: rest, ms, md =>
    match v with
    | .vtable root =>
      match build_module locale root ms md with
      | .error e => .error e
      | .ok (ms2, md2) => buildLocales rest ms2 md2
    | _ => .error .RootNotTable

/-- `src/parse.rs`: `build_flat_module`.  The Rust input is a
`HashMap<Locale, Value>`; its (arbitrary) iteration order is the list
order, which the determinism claim quantifies over. -/
def build_flat_module (locales : List (List Char × TomlValue)) :
    Except WoofError Module :=
  (buildLocales locales [] []).map (fun p => Module.mk p.1 p.2)

/-- Rust `str::replace("\x7b\x7b", "\x7b")`: collapse each leftmost
non-overlapping `{{` to `{`. -/
def collapseEsc : List Char → List Char
  | [] => []
  | [c] => [c]
  | c :: d :: rest =>
    if c = '{' ∧ d = '{' then '{' :: collapseEsc rest
    else c :: collapseEsc (d :: rest)

/-- Rust `String::replace_range(start..=end, r)` at byte offsets: `none`
when the call would panic (inverted range, endpoint out of bounds, or an
endpoint off a character boundary), otherwise the spliced string. -/
def replaceRangeIncl (s : List Char) (a b : Nat) (r : List Char) :
    Option (List Char) :=
  if a ≤ b + 1 then
    match splitAtByte s a, splitAtByte s (b + 1) with
    | some (pre, _), some (_, post) => some (pre ++ r ++ post)
    | _, _ => Option.none
  else Option.none

/-- Stable insertion (strict comparison) for sorting spans by start;
`sort_by_key` in Rust is a stable sort. -/
def insertByStart (x : Key × (Nat × Nat)) :
    List (Key × (Nat × Nat)) → List (Key × (Nat × Nat))
  | [] => [x]
  | y :: rest => if y.2.1 < x.2.1 then y :: insertByStart x rest else x :: y :: rest

/-- Stable sort of collected spans by ascending start. -/
def sortByStart (l : List (Key × (Nat × Nat))) : List (Key × (Nat × Nat)) :=
  l.foldr insertByStart []

/-- The Rust `format!("$\x7b\x7bargs.\x7b\x7d\x7d\x7d", key.sanitized)`
replacement token. -/
def template_var (k : Key) : List Char :=
  "$\x7bargs.".data ++ k.sanitized ++ "\x7d".data

/-- The back-to-front `replace_range` loop of `template_for_locale`, over an
already reversed (descending-start) span list; `none` when any single
replacement would panic. -/
def substRanges : List (Key × (Nat × Nat)) → List Char → Option (List Char)
  | [], s => some s
  | (k, r) :: rest, s =>
    match replaceRangeIncl s r.1 r.2 (template_var k) with
    | some s2 => substRanges rest s2
    | Option.none => Option.none

/-- The span collection of `template_for_locale`: every interpolation with a
span recorded for this locale, in interpolation-map (key) order. -/
def collectedRanges (m : Message) (locale : List Char) : List (Key × (Nat × Nat)) :=
  m.interpolations.filterMap
    (fun p => (lookupAssoc lexLt locale p.2.ranges).map (fun r => (p.1, r)))

/-- `src/parse.rs`: `Message::template_for_locale`.  The outer `Option` is
the panic model: `Option.none` when a `replace_range` call panics; otherwise
`some` of the Rust result, which is `Option.none` exactly when the locale
has no translation.  Interpolations with a span for this locale are
collected in key order, sorted by start, reversed, substituted, and the
`{{` escapes collapsed afterwards. -/
def Message.template_for_locale (m : Message) (locale : List Char) :
    Option (Option (List Char)) :=
  match lookupAssoc lexLt locale m.translation with
  | Option.none => some Option.none
  | some t =>
    match substRanges (sortByStart (collectedRanges m locale)).reverse t.escaped with
    | some result => some (some (collapseEsc result))
    | Option.none => Option.none

/-- The type-suffix text of claim C3: nothing for `None`, `:string`, or
`:number`. -/
def typeSuffix : InterpolationType → List Char
  | .none => []
  | .string => ':' :: "string".data
  | .number => ':' :: "number".data

/-- Keys of an association list strictly ascending in `lt`: the canonical
`BTreeMap` iteration shape. -/
def KeysOrdered (lt : κ → κ → Bool) (l : List (κ × α)) : Prop :=
  List.Chain' (fun a b => lt a.1 b.1 = true) l

/-- Every map inside a message is key-sorted: translations and interpolation
ranges by locale, interpolations by key literal. -/
def MessageSorted (m : Message) : Prop :=
  KeysOrdered lexLt m.translation ∧ KeysOrdered keyLt m.interpolations ∧
  ∀ p ∈ m.interpolations, KeysOrdered lexLt p.2.ranges

/-- Every map in the module tree is key-sorted: messages and submodules by
literal key, recursively, and each message's own maps. -/
inductive ModuleSorted : Module → Prop
  | mk (ms : List (Key × Message)) (md : List (Key × Module)) :
      KeysOrdered keyLt ms → KeysOrdered keyLt md →
      (∀ p ∈ ms, MessageSorted p.2) →
      (∀ p ∈ md, ModuleSorted p.2) →
      ModuleSorted (.mk ms md)

/-- The build_module loop invariant: both accumulator maps are key-sorted and
every stored message/submodule is recursively sorted. -/
def SortedMaps (ms : List (Key × Message)) (md : List (Key × Module)) : Prop :=
  KeysOrdered keyLt ms ∧ KeysOrdered keyLt md ∧
  (∀ p ∈ ms, MessageSorted p.2) ∧ (∀ p ∈ md, ModuleSorted p.2)

/-- Span well-formedness of one occurrence against the input `s` (claim
C9): a nonempty span whose start is a character boundary holding `\x7b` and
whose end is a character boundary holding `\x7d`. -/
def OccSpanOk (s : List Char) (occ : ParsedInterpolation) : Prop :=
  occ.start < occ.end_ ∧ charAtByte s occ.start = some '{' ∧
    charAtByte s occ.end_ = some '}'

/-- The scanner loop invariant, at byte position `i` of input `s`: the
accumulated occurrences are span-well-formed, ordered and disjoint, their
names validated (unless an error was already recorded — the stale
type-suffix leak), and the control state remembers a genuine opening brace.
-/
structure ScanInv (s : List Char) (i : Nat) (st : ScanSt) : Prop where
  occs_span : ∀ occ ∈ st.occs, OccSpanOk s occ
  occs_none_names : ∀ occ ∈ st.occs, occ.type_ = .none →
    is_valid_identifier occ.name = true
  occs_names : ∀ occ ∈ st.occs, is_valid_identifier occ.name = true ∨ st.errs ≠ []
  occs_chain : List.Chain' (fun a b => a.end_ < b.start) st.occs
  occs_bound : ∀ occ ∈ st.occs, occ.end_ < i
  opened_start : st.mode = .opened →
    st.start < i ∧ charAtByte s st.start = some '{' ∧
      ∀ occ ∈ st.occs, occ.end_ < st.start
  ptype_name : st.mode = .opened → st.ptype = true →
    is_valid_identifier st.name = true
  ab_inv : ∀ b w, st.mode = .afterBrace b w →
    b + 1 = i ∧ charAtByte s b = some '{' ∧ (∀ occ ∈ st.occs, occ.end_ < b) ∧
      (w = true → st.start ≤ b ∧ charAtByte s st.start = some '{' ∧
        (∀ occ ∈ st.occs, occ.end_ < st.start) ∧
        (st.ptype = true → is_valid_identifier st.name = true))
  ptype_mode : st.ptype = true →
    st.mode = .opened ∨ ∃ b, st.mode = .afterBrace b true
  stale : st.ptype = false → st.typ ≠ [] →
    st.errs ≠ [] ∨ (∃ b o, st.mode = .skipNest b o) ∨ ∃ e, st.mode = .skipColon e

/-- Success-commutation of two state-transforming fallible actions: whenever
`f` then `g` both succeed, `g` then `f` succeeds with the same final state
(claim C7's locale-order independence, stated per action pair). -/
def ExceptCommute {σ ε : Type _} (f g : σ → Except ε σ) : Prop :=
  ∀ s s1 s2, f s = .ok s1 → g s1 = .ok s2 → ∃ u, g s = .ok u ∧ f u = .ok s2

/-- The entry `mergeOccs` reads for one occurrence: the stored interpolation
under the placeholder's key, or a fresh one seeded with this occurrence's
type (`entry.or_insert_with` in `build_module`). -/
def occEntry (m : Message) (occ : ParsedInterpolation) : Interpolation :=
  (lookupAssoc keyLt (Key.new occ.name) m.interpolations).getD ⟨occ.type_, []⟩

/-- The successful-path state update of one `mergeOccs` iteration: record
this locale's span in the entry and write the entry back. -/
def mergeStep (locale : List Char) (m : Message) (occ : ParsedInterpolation) :
    Message :=
  { m with
      interpolations := insertSorted keyLt (Key.new occ.name)
        { occEntry m occ with
            ranges := insertSorted lexLt locale (occ.start, occ.end_)
              (occEntry m occ).ranges }
        m.interpolations }

/-- The entry-local shape of one `build_module` key update: read the entry
(or a default), transform it, write it back. -/
def liftAt {κ α ε : Type _} (lt : κ → κ → Bool) (K : κ) (d : α)
    (f : α → Except ε α) (mp : List (κ × α)) : Except ε (List (κ × α)) :=
  match f ((lookupAssoc lt K mp).getD d) with
  | .ok v => .ok (insertSorted lt K v mp)
  | .error e => .error e

/-- A fallible update of the first component of a pair state. -/
def liftFst {α β ε : Type _} (f : α → Except ε α) (p : α × β) :
    Except ε (α × β) :=
  match f p.1 with
  | .ok a => .ok (a, p.2)
  | .error e => .error e

/-- A fallible update of the second component of a pair state. -/
def liftSnd {α β ε : Type _} (g : β → Except ε β) (p : α × β) :
    Except ε (α × β) :=
  match g p.2 with
  | .ok b => .ok (p.1, b)
  | .error e => .error e

/-- Kleisli sequencing of two fallible state transformers (the shape of one
`build_module` entry followed by the rest of the walk). -/
def exceptSeq {σ ε : Type _} (f g : σ → Except ε σ) (s : σ) : Except ε σ :=
  match f s with
  | .ok t => g t
  | .error e => .error e

end Woof

/-!
# Theorems

Each claim `Cn` of the specification is settled by the theorem(s) named
after it below; shared helper lemmas precede them.
-/

namespace Woof

theorem byteLen_nil : byteLen [] = 0 := rfl

theorem byteLen_cons (c : Char) (s : List Char) :
    byteLen (c :: s) = c.utf8Size + byteLen s := by
  simp [byteLen]

theorem byteLen_append (u v : List Char) :
    byteLen (u ++ v) = byteLen u + byteLen v := by
  induction u with
  | nil => simp [byteLen]
  | cons c u ih => simp [byteLen_cons, ih]; omega

theorem utf8Size_eq_one {c : Char} (h : c.toNat < 128) : c.utf8Size = 1 := by
  unfold Char.utf8Size
  simp only
  rw [if_pos]
  rw [UInt32.le_def]
  refine BitVec.le_def.mpr ?_
  have h127 : (UInt32.ofNatCore 127 Char.utf8Size.proof_1).toBitVec.toNat = 127 := rfl
  rw [h127]
  show c.toNat ≤ 127
  omega

theorem charLe_toNat {a b : Char} : a ≤ b ↔ a.toNat ≤ b.toNat := by
  rw [Char.le_def, UInt32.le_def, BitVec.le_def]
  exact Iff.rfl

theorem char_eq_of_toNat {a b : Char} (h : a.toNat = b.toNat) : a = b := by
  apply Char.ext
  exact UInt32.ext h

/-- The ASCII ranges of `isAsciiAlphabetic`. -/
theorem asciiAlpha_toNat {c : Char} (h : isAsciiAlphabetic c = true) :
    (65 ≤ c.toNat ∧ c.toNat ≤ 90) ∨ (97 ≤ c.toNat ∧ c.toNat ≤ 122) := by
  simp only [isAsciiAlphabetic, Bool.or_eq_true, Bool.and_eq_true,
    decide_eq_true_eq, charLe_toNat] at h
  exact h

/-- The ASCII ranges of `isAsciiAlphanumeric`. -/
theorem asciiAlnum_toNat {c : Char} (h : isAsciiAlphanumeric c = true) :
    (48 ≤ c.toNat ∧ c.toNat ≤ 57) ∨ (65 ≤ c.toNat ∧ c.toNat ≤ 90) ∨
    (97 ≤ c.toNat ∧ c.toNat ≤ 122) := by
  simp only [isAsciiAlphanumeric, Bool.or_eq_true] at h
  rcases h with h | h
  · rcases asciiAlpha_toNat h with h | h
    · exact Or.inr (Or.inl h)
    · exact Or.inr (Or.inr h)
  · simp only [Bool.and_eq_true, decide_eq_true_eq, charLe_toNat] at h
    exact Or.inl h

/-- A character of a valid identifier is ASCII and is none of the scanner's
meta-characters. -/
theorem valid_ident_char {n : List Char} (h : is_valid_identifier n = true) :
    ∀ c ∈ n, c.toNat < 128 ∧ c ≠ '{' ∧ c ≠ ':' ∧ c ≠ '}' := by
  cases n with
  | nil => intro c hc; simp at hc
  | cons a m =>
    simp only [is_valid_identifier, Bool.and_eq_true, List.all_eq_true] at h
    intro c hc
    have hd : (48 ≤ c.toNat ∧ c.toNat ≤ 57) ∨ (65 ≤ c.toNat ∧ c.toNat ≤ 90) ∨
        (97 ≤ c.toNat ∧ c.toNat ≤ 122) ∨ c.toNat = 95 := by
      rcases List.mem_cons.mp hc with rfl | hc
      · rcases asciiAlpha_toNat h.1 with h' | h'
        · exact Or.inr (Or.inl h')
        · exact Or.inr (Or.inr (Or.inl h'))
      · have h2 := h.2 c hc
        rcases (Bool.or_eq_true _ _).mp h2 with h' | h'
        · rcases asciiAlnum_toNat h' with h' | h' | h'
          · exact Or.inl h'
          · exact Or.inr (Or.inl h')
          · exact Or.inr (Or.inr (Or.inl h'))
        · have hu : c = '_' := by simpa using h'
          subst hu
          exact Or.inr (Or.inr (Or.inr rfl))
    have e1 : ('{' : Char).toNat = 123 := rfl
    have e2 : (':' : Char).toNat = 58 := rfl
    have e3 : ('}' : Char).toNat = 125 := rfl
    refine ⟨by omega, ?_, ?_, ?_⟩
    · intro hx; rw [hx, e1] at hd; omega
    · intro hx; rw [hx, e2] at hd; omega
    · intro hx; rw [hx, e3] at hd; omega

theorem byteLen_ascii {n : List Char} (h : ∀ c ∈ n, c.toNat < 128) :
    byteLen n = n.length := by
  induction n with
  | nil => rfl
  | cons c m ih =>
    rw [byteLen_cons, utf8Size_eq_one (h c (by simp)), ih (fun d hd => h d (by simp [hd]))]
    simp [Nat.add_comm]

theorem charIndices_append (u v : List Char) (i : Nat) :
    charIndices i (u ++ v) = charIndices i u ++ charIndices (i + byteLen u) v := by
  induction u generalizing i with
  | nil => simp [charIndices, byteLen]
  | cons c u ih => simp [charIndices, ih, byteLen_cons]; ring_nf

/-- In the closed state, characters other than `\x7b` are skipped. -/
theorem foldl_step_closed {l : List (Nat × Char)} {st : ScanSt}
    (hm : st.mode = .closed) (h : ∀ p ∈ l, p.2 ≠ '{') :
    l.foldl step st = st := by
  induction l with
  | nil => rfl
  | cons p l ih =>
    have hp : p.2 ≠ '{' := h p (by simp)
    have hstep : step st p = st := by
      simp [step, hm, hp]
    rw [List.foldl_cons, hstep, ih (fun q hq => h q (by simp [hq]))]

/-- In the open state before any `:`, ordinary characters accumulate into
the pending name. -/
theorem foldl_step_name (l : List (Nat × Char)) :
    ∀ st : ScanSt, st.mode = .opened → st.ptype = false →
    (∀ p ∈ l, p.2 ≠ '{' ∧ p.2 ≠ ':' ∧ p.2 ≠ '}') →
    l.foldl step st = { st with name := st.name ++ l.map Prod.snd } := by
  induction l with
  | nil => intro st _ _ _; simp
  | cons p l ih =>
    intro st hm hp h
    obtain ⟨h1, h2, h3⟩ := h p (by simp)
    have hstep : step st p = { st with name := st.name ++ [p.2] } := by
      simp [step, openedStep, hm, hp, h1, h2, h3]
    rw [List.foldl_cons, hstep,
      ih { st with name := st.name ++ [p.2] } hm hp (fun q hq => h q (by simp [hq]))]
    simp

/-- In the open state after a validated `:`, ordinary characters accumulate
into the pending type suffix. -/
theorem foldl_step_typ (l : List (Nat × Char)) :
    ∀ st : ScanSt, st.mode = .opened → st.ptype = true →
    (∀ p ∈ l, p.2 ≠ '{' ∧ p.2 ≠ ':' ∧ p.2 ≠ '}') →
    l.foldl step st = { st with typ := st.typ ++ l.map Prod.snd } := by
  induction l with
  | nil => intro st _ _ _; simp
  | cons p l ih =>
    intro st hm hp h
    obtain ⟨h1, h2, h3⟩ := h p (by simp)
    have hstep : step st p = { st with typ := st.typ ++ [p.2] } := by
      simp [step, openedStep, hm, hp, h1, h2, h3]
    rw [List.foldl_cons, hstep,
      ih { st with typ := st.typ ++ [p.2] } hm hp (fun q hq => h q (by simp [hq]))]
    simp

theorem charIndices_map_snd (m : List Char) :
    ∀ i, (charIndices i m).map Prod.snd = m := by
  induction m with
  | nil => intro i; rfl
  | cons c m ih => intro i; simp [charIndices, ih]

theorem mem_charIndices_snd {p : Nat × Char} {m : List Char} {i : Nat}
    (hp : p ∈ charIndices i m) : p.2 ∈ m := by
  induction m generalizing i with
  | nil => simp [charIndices] at hp
  | cons c m ih =>
    simp only [charIndices, List.mem_cons] at hp
    rcases hp with rfl | hp
    · simp
    · exact List.mem_cons_of_mem _ (ih hp)

theorem validate_ok {n : List Char} (h : is_valid_identifier n = true) (b : Nat) :
    validate_interpolation_name b n = Option.none := by
  have hne : n ≠ [] := by
    intro hx; subst hx; simp [is_valid_identifier] at h
  simp [validate_interpolation_name, hne, h]

/-- Closing an open interpolation with no type suffix and a valid pending
name appends the untyped occurrence. -/
theorem step_close_no_type {st : ScanSt} {i : Nat}
    (hm : st.mode = .opened) (ht : st.typ = [])
    (hv : validate_interpolation_name st.start st.name = Option.none) :
    step st (i, '}') =
      { st with mode := .closed, ptype := false, name := []
                occs := st.occs ++ [⟨.none, st.name, st.start, i⟩] } := by
  simp [step, openedStep, hm, ht, hv]

/-- Closing an open interpolation with a recognized pending type suffix
appends the typed occurrence. -/
theorem step_close_typed {st : ScanSt} {i : Nat} {ty : InterpolationType}
    (hm : st.mode = .opened) (ht : st.typ ≠ [])
    (hv : interpTypeOf st.typ = some ty) :
    step st (i, '}') =
      { st with mode := .closed, ptype := false, name := [], typ := []
                occs := st.occs ++ [⟨ty, st.name, st.start, i⟩] } := by
  simp [step, openedStep, hm, ht, hv]

/-- **C3**: for every valid identifier `n` and every type suffix (absent,
`:string`, or `:number`), parsing `\x7b` + n + suffix + `\x7d` yields
exactly one occurrence and zero errors; the occurrence carries name `n`,
the matching type (`None` when the suffix is absent), and the inclusive
byte span from the opening brace (offset 0) through the closing brace
(the last byte of the input). -/
theorem C3_parse_single_valid_interpolation (n : List Char) (t : InterpolationType)
    (h : is_valid_identifier n = true) :
    parse_interpolations ('{' :: n ++ typeSuffix t ++ ['}']) =
      ⟨[⟨t, n, 0, byteLen ('{' :: n ++ typeSuffix t ++ ['}']) - 1⟩], []⟩ := by
  obtain ⟨c0, n', rfl⟩ : ∃ c0 n', n = c0 :: n' := by
    cases n with
    | nil => simp [is_valid_identifier] at h
    | cons a m => exact ⟨a, m, rfl⟩
  have hch := valid_ident_char h
  obtain ⟨-, hne1, hne2, hne3⟩ := hch c0 (by simp)
  have hsz : ('{' : Char).utf8Size = 1 := rfl
  -- the scan prefix shared by the three suffixes: consume the brace, then n
  have hpre : ∀ R : List Char,
      List.foldl step initSt (charIndices 0 ('{' :: (c0 :: n') ++ R)) =
        List.foldl step ⟨.opened, 0, false, c0 :: n', [], [], []⟩
          (charIndices (1 + byteLen (c0 :: n')) R) := by
    intro R
    have e1 : charIndices 0 ('{' :: (c0 :: n') ++ R) =
        (0, '{') :: charIndices 1 ((c0 :: n') ++ R) := by
      rw [show ('{' :: (c0 :: n') ++ R) = '{' :: ((c0 :: n') ++ R) from rfl,
        charIndices]
      rw [show (0 + '{'.utf8Size) = 1 from by rw [hsz]]
    have e2 : charIndices 1 ((c0 :: n') ++ R) =
        (1, c0) :: (charIndices (1 + c0.utf8Size) n' ++
          charIndices (1 + byteLen (c0 :: n')) R) := by
      rw [charIndices_append]
      show ((1, c0) :: charIndices (1 + c0.utf8Size) n') ++ _ = _
      rw [List.cons_append]
    have hstep1 : step initSt (0, '{') =
        ⟨.afterBrace 0 false, 0, false, [], [], [], []⟩ := rfl
    have hstep2 : step ⟨.afterBrace 0 false, 0, false, [], [], [], []⟩ (1, c0) =
        ⟨.opened, 0, false, [c0], [], [], []⟩ := by
      simp [step, openedStep, hne1, hne2, hne3]
    have hname : List.foldl step ⟨.opened, 0, false, [c0], [], [], []⟩
        (charIndices (1 + c0.utf8Size) n') =
        ⟨.opened, 0, false, c0 :: n', [], [], []⟩ := by
      rw [foldl_step_name _ _ rfl rfl
        (fun p hp => (hch p.2 (by simp [mem_charIndices_snd hp])).2)]
      simp [charIndices_map_snd]
    rw [e1, List.foldl_cons, hstep1, e2, List.foldl_cons, hstep2,
      List.foldl_append, hname]
  have hvalid : validate_interpolation_name 0 (c0 :: n') = Option.none := validate_ok h 0
  cases t with
  | none =>
    have harg : ('{' :: (c0 :: n') ++ typeSuffix .none ++ ['}']) =
        '{' :: (c0 :: n') ++ ['}'] := by simp [typeSuffix]
    rw [harg]
    have hcontains : ('{' :: c0 :: (n' ++ ['}'])).contains '{' = true := by
      simp [List.contains]
    have hclose := @step_close_no_type ⟨.opened, 0, false, c0 :: n', [], [], []⟩
      (1 + byteLen (c0 :: n')) rfl rfl hvalid
    have hscan : List.foldl step initSt (charIndices 0 ('{' :: c0 :: (n' ++ ['}']))) =
        ⟨.closed, 0, false, [], [],
          [⟨.none, c0 :: n', 0, 1 + byteLen (c0 :: n')⟩], []⟩ := by
      show List.foldl step initSt (charIndices 0 ('{' :: (c0 :: n') ++ ['}'])) = _
      rw [hpre ['}']]
      rw [show charIndices (1 + byteLen (c0 :: n')) ['}'] =
        [(1 + byteLen (c0 :: n'), '}')] from rfl]
      rw [List.foldl_cons, hclose]
      rfl
    have hlen : byteLen ('{' :: c0 :: (n' ++ ['}'])) - 1 = 1 + byteLen (c0 :: n') := by
      have hszr : ('}' : Char).utf8Size = 1 := rfl
      simp only [byteLen_cons, byteLen_append, byteLen_nil, hsz, hszr]
      omega
    simp [parse_interpolations, hcontains, scan, hscan, scanEnd, hlen]
  | string =>
    have harg : ('{' :: (c0 :: n') ++ typeSuffix .string ++ ['}']) =
        '{' :: (c0 :: n') ++ (':' :: ("string".data ++ ['}'])) := by
      simp [typeSuffix]
    rw [harg]
    have hcontains : ('{' :: c0 :: (n' ++ [':', 's', 't', 'r', 'i', 'n', 'g', '}'])).contains '{' =
        true := by simp [List.contains]
    have hsuf : ∀ c ∈ "string".data, c ≠ '{' ∧ c ≠ ':' ∧ c ≠ '}' := by decide
    have hcolon : step ⟨.opened, 0, false, c0 :: n', [], [], []⟩
        (1 + byteLen (c0 :: n'), ':') =
        ⟨.opened, 0, true, c0 :: n', [], [], []⟩ := by
      simp [step, openedStep, hvalid]
    have htyp : List.foldl step ⟨.opened, 0, true, c0 :: n', [], [], []⟩
        (charIndices (1 + byteLen (c0 :: n') + 1) "string".data) =
        ⟨.opened, 0, true, c0 :: n', "string".data, [], []⟩ := by
      rw [foldl_step_typ _ _ rfl rfl
        (fun p hp => hsuf p.2 (mem_charIndices_snd hp))]
      simp [charIndices_map_snd]
    have hclose := @step_close_typed
      ⟨.opened, 0, true, c0 :: n', "string".data, [], []⟩
      (1 + byteLen (c0 :: n') + 1 + 6) InterpolationType.string rfl
      (show "string".data ≠ [] by decide) rfl
    have hscan : List.foldl step initSt
        (charIndices 0 ('{' :: c0 :: (n' ++ [':', 's', 't', 'r', 'i', 'n', 'g', '}']))) =
        ⟨.closed, 0, false, [], [],
          [⟨.string, c0 :: n', 0, 1 + byteLen (c0 :: n') + 1 + 6⟩], []⟩ := by
      show List.foldl step initSt
        (charIndices 0 ('{' :: (c0 :: n') ++ (':' :: ("string".data ++ ['}'])))) = _
      rw [hpre (':' :: ("string".data ++ ['}']))]
      rw [show charIndices (1 + byteLen (c0 :: n')) (':' :: ("string".data ++ ['}'])) =
        (1 + byteLen (c0 :: n'), ':') ::
          (charIndices (1 + byteLen (c0 :: n') + 1) "string".data ++
            [(1 + byteLen (c0 :: n') + 1 + 6, '}')]) from by
        rw [charIndices]
        rw [show (1 + byteLen (c0 :: n') + (':' : Char).utf8Size) =
          1 + byteLen (c0 :: n') + 1 from rfl]
        rw [charIndices_append]
        rfl]
      rw [List.foldl_cons, hcolon, List.foldl_append, htyp, List.foldl_cons, hclose]
      rfl
    have hlen : byteLen ('{' :: c0 :: (n' ++ [':', 's', 't', 'r', 'i', 'n', 'g', '}'])) - 1 =
        1 + byteLen (c0 :: n') + 1 + 6 := by
      have h1 : byteLen ('{' :: c0 :: (n' ++ [':', 's', 't', 'r', 'i', 'n', 'g', '}'])) =
          byteLen ('{' :: c0 :: n') + 8 := by
        show byteLen (('{' :: c0 :: n') ++ [':', 's', 't', 'r', 'i', 'n', 'g', '}']) = _
        rw [byteLen_append]
        rfl
      have h2 : byteLen ('{' :: c0 :: n') = 1 + (c0.utf8Size + byteLen n') := by
        rw [byteLen_cons, byteLen_cons, hsz]
      have h3 : byteLen (c0 :: n') = c0.utf8Size + byteLen n' := byteLen_cons c0 n'
      omega
    simp [parse_interpolations, hcontains, scan, hscan, scanEnd, hlen]
  | number =>
    have harg : ('{' :: (c0 :: n') ++ typeSuffix .number ++ ['}']) =
        '{' :: (c0 :: n') ++ (':' :: ("number".data ++ ['}'])) := by
      simp [typeSuffix]
    rw [harg]
    have hcontains : ('{' :: c0 :: (n' ++ [':', 'n', 'u', 'm', 'b', 'e', 'r', '}'])).contains '{' =
        true := by simp [List.contains]
    have hsuf : ∀ c ∈ "number".data, c ≠ '{' ∧ c ≠ ':' ∧ c ≠ '}' := by decide
    have hcolon : step ⟨.opened, 0, false, c0 :: n', [], [], []⟩
        (1 + byteLen (c0 :: n'), ':') =
        ⟨.opened, 0, true, c0 :: n', [], [], []⟩ := by
      simp [step, openedStep, hvalid]
    have htyp : List.foldl step ⟨.opened, 0, true, c0 :: n', [], [], []⟩
        (charIndices (1 + byteLen (c0 :: n') + 1) "number".data) =
        ⟨.opened, 0, true, c0 :: n', "number".data, [], []⟩ := by
      rw [foldl_step_typ _ _ rfl rfl
        (fun p hp => hsuf p.2 (mem_charIndices_snd hp))]
      simp [charIndices_map_snd]
    have hclose := @step_close_typed
      ⟨.opened, 0, true, c0 :: n', "number".data, [], []⟩
      (1 + byteLen (c0 :: n') + 1 + 6) InterpolationType.number rfl
      (show "number".data ≠ [] by decide) rfl
    have hscan : List.foldl step initSt
        (charIndices 0 ('{' :: c0 :: (n' ++ [':', 'n', 'u', 'm', 'b', 'e', 'r', '}']))) =
        ⟨.closed, 0, false, [], [],
          [⟨.number, c0 :: n', 0, 1 + byteLen (c0 :: n') + 1 + 6⟩], []⟩ := by
      show List.foldl step initSt
        (charIndices 0 ('{' :: (c0 :: n') ++ (':' :: ("number".data ++ ['}'])))) = _
      rw [hpre (':' :: ("number".data ++ ['}']))]
      rw [show charIndices (1 + byteLen (c0 :: n')) (':' :: ("number".data ++ ['}'])) =
        (1 + byteLen (c0 :: n'), ':') ::
          (charIndices (1 + byteLen (c0 :: n') + 1) "number".data ++
            [(1 + byteLen (c0 :: n') + 1 + 6, '}')]) from by
        rw [charIndices]
        rw [show (1 + byteLen (c0 :: n') + (':' : Char).utf8Size) =
          1 + byteLen (c0 :: n') + 1 from rfl]
        rw [charIndices_append]
        rfl]
      rw [List.foldl_cons, hcolon, List.foldl_append, htyp, List.foldl_cons, hclose]
      rfl
    have hlen : byteLen ('{' :: c0 :: (n' ++ [':', 'n', 'u', 'm', 'b', 'e', 'r', '}'])) - 1 =
        1 + byteLen (c0 :: n') + 1 + 6 := by
      have h1 : byteLen ('{' :: c0 :: (n' ++ [':', 'n', 'u', 'm', 'b', 'e', 'r', '}'])) =
          byteLen ('{' :: c0 :: n') + 8 := by
        show byteLen (('{' :: c0 :: n') ++ [':', 'n', 'u', 'm', 'b', 'e', 'r', '}']) = _
        rw [byteLen_append]
        rfl
      have h2 : byteLen ('{' :: c0 :: n') = 1 + (c0.utf8Size + byteLen n') := by
        rw [byteLen_cons, byteLen_cons, hsz]
      have h3 : byteLen (c0 :: n') = c0.utf8Size + byteLen n' := byteLen_cons c0 n'
      omega
    simp [parse_interpolations, hcontains, scan, hscan, scanEnd, hlen]

/-- Witness for C3 at `n = "ab"`, suffix `:string`. -/
theorem C3_witness :
    parse_interpolations ('{' :: "ab".data ++ typeSuffix .string ++ ['}']) =
      ⟨[⟨.string, "ab".data, 0,
          byteLen ('{' :: "ab".data ++ typeSuffix .string ++ ['}']) - 1⟩], []⟩ :=
  C3_parse_single_valid_interpolation "ab".data .string (by decide)

/-- A resynchronization run: from the `skipNest` state the scanner drops
characters up to (but not including) the next `\x7d`, pushes exactly one
`InvalidIdentifier` error for the block, and resumes closed. -/
theorem scan_skipNest_run (l : List (Nat × Char)) :
    ∀ (st : ScanSt) (b off : Nat), st.mode = .skipNest b off →
    scan l st =
      scan (l.dropWhile (fun p => p.2 != '}'))
        { st with
            mode := .closed
            errs := st.errs ++ [.InvalidIdentifier (st.start + 1,
              b + (off + (l.takeWhile (fun p => p.2 != '}')).length) - (st.start + 1))] } := by
  induction l with
  | nil =>
    intro st b off hm
    simp [scan, scanEnd, hm]
  | cons p l ih =>
    intro st b off hm
    by_cases hp : p.2 = '}'
    · have hstep : step st p = { st with
          mode := .closed
          errs := st.errs ++ [.InvalidIdentifier (st.start + 1, b + off - (st.start + 1))] } := by
        simp [step, hm, hp]
      have hdrop : (p :: l).dropWhile (fun p => p.2 != '}') = p :: l := by
        simp [List.dropWhile, hp]
      have htake : (p :: l).takeWhile (fun p => p.2 != '}') = [] := by
        simp [List.takeWhile, hp]
      have hstep2 : step { st with
          mode := .closed
          errs := st.errs ++ [.InvalidIdentifier (st.start + 1, b + off - (st.start + 1))] } p =
          { st with
            mode := .closed
            errs := st.errs ++ [.InvalidIdentifier (st.start + 1, b + off - (st.start + 1))] } := by
        have : p.2 ≠ '{' := by rw [hp]; decide
        simp [step, this]
      rw [hdrop, htake]
      simp only [List.length_nil, Nat.add_zero]
      show scanEnd (List.foldl step st (p :: l)) = scanEnd (List.foldl step _ (p :: l))
      rw [List.foldl_cons, List.foldl_cons, hstep, hstep2]
    · have hpb : (p.2 != '}') = true := bne_iff_ne.mpr hp
      have hstep : step st p = { st with mode := .skipNest b (off + 1) } := by
        simp [step, hm, hp]
      have hdrop : (p :: l).dropWhile (fun p => p.2 != '}') =
          l.dropWhile (fun p => p.2 != '}') := by
        simp [List.dropWhile, hpb]
      have htake : (p :: l).takeWhile (fun p => p.2 != '}') =
          p :: l.takeWhile (fun p => p.2 != '}') := by
        simp [List.takeWhile, hpb]
      rw [hdrop, htake]
      show scanEnd (List.foldl step st (p :: l)) = _
      rw [List.foldl_cons, hstep]
      have hih := ih { st with mode := .skipNest b (off + 1) } b (off + 1) rfl
      rw [show scanEnd (List.foldl step { st with mode := .skipNest b (off + 1) } l) =
        scan l { st with mode := .skipNest b (off + 1) } from rfl, hih]
      rw [show b + (off + (p :: List.takeWhile (fun p => p.2 != '}') l).length) =
        b + (off + 1 + (List.takeWhile (fun p => p.2 != '}') l).length) from by
        simp only [List.length_cons]
        omega]

/-- **C4**: meeting a second, unescaped `\x7b` while an interpolation is
open, the scanner consumes characters up to but not including the next
`\x7d` (or end of string), emits exactly one `InvalidIdentifier` error for
the block, and resumes scanning in the closed state; in particular
`\x7bouter\x7binner\x7d\x7d` produces exactly one error and zero
occurrences, the trailing `\x7d` being treated as ordinary text. -/
theorem C4_nesting_error_recovery :
    (∀ (pre : List (Nat × Char)) (i : Nat) (st : ScanSt),
      st.mode = .opened →
      (∀ p ∈ pre.head?, p.2 ≠ '{') →
      scan ((i, '{') :: pre) st =
        scan (pre.dropWhile (fun p => p.2 != '}'))
          { st with
              mode := .closed, ptype := false, name := []
              errs := st.errs ++ [.InvalidIdentifier (st.start + 1,
                i + (pre.takeWhile (fun p => p.2 != '}')).length - (st.start + 1))] }) ∧
    parse_interpolations "\x7bouter\x7binner\x7d\x7d".data =
      ⟨[], [.InvalidIdentifier (1, 10)]⟩ := by
  constructor
  · intro pre i st hm hpeek
    have hopen : step st (i, '{') = { st with mode := .afterBrace i true } := by
      simp [step, hm]
    show scanEnd (List.foldl step st ((i, '{') :: pre)) = _
    rw [List.foldl_cons, hopen]
    cases pre with
    | nil =>
      show scanEnd _ = scanEnd _
      simp [scanEnd]
    | cons q pre' =>
      have hq : q.2 ≠ '{' := hpeek q (by simp)
      by_cases hq2 : q.2 = '}'
      · have hstep : step { st with mode := .afterBrace i true } q =
            { st with
              mode := .closed, ptype := false, name := []
              errs := st.errs ++ [.InvalidIdentifier (st.start + 1, i - (st.start + 1))] } := by
          obtain ⟨j, d⟩ := q
          simp at hq hq2
          simp [step, hq, hq2]
        have hdrop : (q :: pre').dropWhile (fun p => p.2 != '}') = q :: pre' := by
          simp [List.dropWhile, hq2]
        have htake : (q :: pre').takeWhile (fun p => p.2 != '}') = [] := by
          simp [List.takeWhile, hq2]
        rw [hdrop, htake]
        simp only [List.length_nil, Nat.add_zero]
        show scanEnd _ = scanEnd (List.foldl step _ (q :: pre'))
        rw [List.foldl_cons, List.foldl_cons, hstep]
        have hstep2 : step { st with
            mode := .closed, ptype := false, name := []
            errs := st.errs ++ [.InvalidIdentifier (st.start + 1, i - (st.start + 1))] } q =
            { st with
              mode := .closed, ptype := false, name := []
              errs := st.errs ++ [.InvalidIdentifier (st.start + 1, i - (st.start + 1))] } := by
          have : q.2 ≠ '{' := by rw [hq2]; decide
          simp [step, this]
        rw [hstep2]
      · have hq2b : (q.2 != '}') = true := bne_iff_ne.mpr hq2
        have hstep : step { st with mode := .afterBrace i true } q =
            { st with mode := .skipNest i 1, ptype := false, name := [] } := by
          obtain ⟨j, d⟩ := q
          simp at hq hq2
          simp [step, hq, hq2]
        have hdrop : (q :: pre').dropWhile (fun p => p.2 != '}') =
            pre'.dropWhile (fun p => p.2 != '}') := by
          simp [List.dropWhile, hq2b]
        have htake : (q :: pre').takeWhile (fun p => p.2 != '}') =
            q :: pre'.takeWhile (fun p => p.2 != '}') := by
          simp [List.takeWhile, hq2b]
        rw [hdrop, htake]
        show scanEnd (List.foldl step _ (q :: pre')) = _
        rw [List.foldl_cons, hstep]
        have hrun := scan_skipNest_run pre'
          { st with mode := .skipNest i 1, ptype := false, name := [] } i 1 rfl
        rw [show scanEnd (List.foldl step
            { st with mode := .skipNest i 1, ptype := false, name := [] } pre') =
          scan pre' { st with mode := .skipNest i 1, ptype := false, name := [] } from rfl,
          hrun]
        congr 2
        simp
        omega
  · decide

/-- Witness for the general part of C4 at concrete input. -/
theorem C4_witness :
    scan [(0, '{'), (1, 'a')] ⟨.opened, 0, false, [], [], [], []⟩ =
      scan ([(1, 'a')].dropWhile (fun p => p.2 != '}'))
        ⟨.closed, 0, false, [], [], [],
          [.InvalidIdentifier (1,
            0 + ([((1 : Nat), 'a')].takeWhile (fun p => p.2 != '}')).length - 1)]⟩ :=
  C4_nesting_error_recovery.1 [(1, 'a')] 0 ⟨.opened, 0, false, [], [], [], []⟩ rfl
    (by decide)

/-- `collapseEsc` leaves a string without `\x7b` unchanged. -/
theorem collapseEsc_no_brace {l : List Char} (h : '{' ∉ l) : collapseEsc l = l := by
  induction l with
  | nil => rfl
  | cons c l ih =>
    have hc : c ≠ '{' := by intro hx; exact h (hx ▸ List.mem_cons_self c l)
    have hl : '{' ∉ l := fun hx => h (List.mem_cons_of_mem c hx)
    cases l with
    | nil => rfl
    | cons d l' => simp [collapseEsc, hc, ih hl]

/-- **C6** (amended): for every brace-free `X`, parsing
`\x7b\x7b` + X + `\x7d\x7d` yields zero occurrences and zero errors, and
materializing a message whose stored translation is that text yields
`\x7b` + X + `\x7d\x7d`: only the leading double brace collapses. -/
theorem C6_escape_parse_and_materialize (X : List Char)
    (h1 : '{' ∉ X) (h2 : '}' ∉ X) :
    parse_interpolations ('{' :: '{' :: (X ++ ['}', '}'])) = ⟨[], []⟩ ∧
    Message.template_for_locale
      ⟨[("en".data, ⟨'{' :: '{' :: (X ++ ['}', '}'])⟩)], []⟩ "en".data =
      some (some ('{' :: (X ++ ['}', '}']))) := by
  have hnb : ∀ p ∈ charIndices 2 (X ++ ['}', '}']), p.2 ≠ '{' := by
    intro p hp
    have := mem_charIndices_snd hp
    rcases List.mem_append.mp this with hx | hx
    · intro he; exact h1 (he ▸ hx)
    · intro he
      rw [he] at hx
      simp at hx
  constructor
  · have hcontains : ('{' :: '{' :: (X ++ ['}', '}'])).contains '{' = true := by
      simp [List.contains]
    have hscan : List.foldl step (⟨.closed, 0, false, [], [], [], []⟩ : ScanSt)
        (charIndices 0 ('{' :: '{' :: (X ++ ['}', '}']))) =
        ⟨.closed, 0, false, [], [], [], []⟩ := by
      rw [show charIndices 0 ('{' :: '{' :: (X ++ ['}', '}'])) =
        (0, '{') :: (1, '{') :: charIndices 2 (X ++ ['}', '}']) from rfl]
      rw [List.foldl_cons, List.foldl_cons]
      rw [show step (⟨.closed, 0, false, [], [], [], []⟩ : ScanSt) (0, '{') =
        ⟨.afterBrace 0 false, 0, false, [], [], [], []⟩ from rfl]
      rw [show step (⟨.afterBrace 0 false, 0, false, [], [], [], []⟩ : ScanSt) (1, '{') =
        (⟨.closed, 0, false, [], [], [], []⟩ : ScanSt) from rfl]
      exact foldl_step_closed rfl hnb
    simp [parse_interpolations, hcontains, scan, hscan, scanEnd, initSt]
  · have hX : '{' ∉ ('{' :: (X ++ ['}', '}'])).tail := by
      simp only [List.tail_cons]
      intro hx
      rcases List.mem_append.mp hx with hx | hx
      · exact h1 hx
      · simp at hx
    simp only [Message.template_for_locale]
    rw [show lookupAssoc lexLt "en".data
        [("en".data, (⟨'{' :: '{' :: (X ++ ['}', '}'])⟩ : Translation))] =
      some ⟨'{' :: '{' :: (X ++ ['}', '}'])⟩ from by simp [lookupAssoc, lexLt]]
    rw [show collectedRanges
        ⟨[("en".data, (⟨'{' :: '{' :: (X ++ ['}', '}'])⟩ : Translation))], []⟩ "en".data = []
      from rfl]
    rw [show sortByStart [] = [] from rfl]
    simp only [List.reverse_nil, substRanges]
    rw [show collapseEsc ('{' :: '{' :: (X ++ ['}', '}'])) =
      '{' :: collapseEsc (X ++ ['}', '}']) from by simp [collapseEsc]]
    rw [collapseEsc_no_brace (by
      intro hx
      rcases List.mem_append.mp hx with hx | hx
      · exact h1 hx
      · simp at hx)]

/-- Witness for C6 at `X = "hello"`. -/
theorem C6_witness :
    parse_interpolations ('{' :: '{' :: ("hello".data ++ ['}', '}'])) = ⟨[], []⟩ ∧
    Message.template_for_locale
      ⟨[("en".data, ⟨'{' :: '{' :: ("hello".data ++ ['}', '}'])⟩)], []⟩ "en".data =
      some (some ('{' :: ("hello".data ++ ['}', '}']))) :=
  C6_escape_parse_and_materialize "hello".data (by decide) (by decide)

/-- **C1** (code bug evidence): content-level problems abort the whole
build instead of becoming diagnostics.  A non-string/table value aborts with
`UnsupportedValueType`, an interpolation parse error aborts with
`InvalidInterpolation`, and (as the claim does state) a non-table root
aborts with `RootNotTable`. -/
theorem C1_content_errors_abort_build :
    build_flat_module [("en".data, .vtable (.cons "x".data (.vint 42) .nil))] =
      .error (.UnsupportedValueType "integer".data "x".data) ∧
    build_flat_module [("en".data, .vtable (.cons "greet".data
        (.vstr "\x7bname without closing".data) .nil))] =
      .error (.InvalidInterpolation "\x7bname without closing".data) ∧
    build_flat_module [("en".data, .vint 1)] = .error .RootNotTable :=
  ⟨rfl, rfl, rfl⟩

/-- **C2** (code bug evidence): a cross-locale interpolation type mismatch
aborts the whole build with `InterpolationTypeMismatch` (in either locale
order) instead of keeping the first-seen type and recording a diagnostic. -/
theorem C2_type_mismatch_aborts_build :
    build_flat_module
      [("en".data, .vtable (.cons "count".data
          (.vstr "\x7bn:number\x7d items".data) .nil)),
       ("fr".data, .vtable (.cons "count".data
          (.vstr "\x7bn:string\x7d articles".data) .nil))] =
      .error .InterpolationTypeMismatch ∧
    build_flat_module
      [("fr".data, .vtable (.cons "count".data
          (.vstr "\x7bn:string\x7d articles".data) .nil)),
       ("en".data, .vtable (.cons "count".data
          (.vstr "\x7bn:number\x7d items".data) .nil))] =
      .error .InterpolationTypeMismatch :=
  ⟨rfl, rfl⟩

/-- **C5** (counterexample): for `"\x7ba"` the scanner ends inside an open
interpolation whose opening brace is at byte 0, but the recorded `Unclosed`
span is `(offset 1, length 1)` — it starts one byte past the opening brace,
not at the opening brace as the claim states (that would be offset 0,
reaching byte 2). -/
theorem C5_unclosed_span_counterexample :
    parse_interpolations "\x7ba".data = ⟨[], [.Unclosed (1, 1)]⟩ ∧
    charAtByte "\x7ba".data 0 = some '{' ∧
    (1 : Nat) ≠ 0 := by decide

/-- **C6** (counterexample): `parse("\x7b\x7bhello\x7d\x7d")` yields zero
occurrences and zero errors, but materialization collapses only the leading
`\x7b\x7b`, producing `\x7bhello\x7d\x7d` — not the literal `\x7bhello\x7d`
the claim states. -/
theorem C6_materialization_counterexample :
    parse_interpolations "\x7b\x7bhello\x7d\x7d".data = ⟨[], []⟩ ∧
    Message.template_for_locale
      ⟨[("en".data, Translation.new "\x7b\x7bhello\x7d\x7d".data)], []⟩ "en".data =
      some (some "\x7bhello\x7d\x7d".data) ∧
    "\x7bhello\x7d\x7d".data ≠ "\x7bhello\x7d".data := by decide

/-- **C8** (counterexample): the sanitized field of the key built from the
empty source key is empty, which is not a valid generated-code identifier
(the repository's own `is_valid_identifier` rejects it, as does any
JavaScript grammar). -/
theorem C8_sanitize_counterexample :
    (Key.new "".data).sanitized = [] ∧
    is_valid_identifier (Key.new "".data).sanitized = false := by decide

/-- **C9** (counterexample): the nesting-error recovery does not clear the
pending type suffix, so in `"\x7ba:string\x7bx\x7d \x7b1\x7d"` the stale
suffix `string` types the later `\x7b1\x7d` block and its name is accepted
without validation: the parse yields an occurrence named `1`, which violates
the claimed `[a-zA-Z][a-zA-Z0-9_]*` name invariant. -/
theorem C9_occurrence_name_counterexample :
    (parse_interpolations "\x7ba:string\x7bx\x7d \x7b1\x7d".data).interpolations =
      [⟨.string, "1".data, 13, 15⟩] ∧
    is_valid_identifier "1".data = false := by decide

/-- **C10** (counterexample): with translation `"aé"` and stored range
`(0, 1)`, the claim's precondition holds — `0 ≤ 1 < 3` and both offsets 0
and 1 are character boundaries — yet `replace_range(0..=1)` needs byte 2,
the middle of `é`, and panics (modelled as `Option.none`) instead of
returning. -/
theorem C10_template_panic_counterexample :
    Message.template_for_locale
      ⟨[("en".data, ⟨"aé".data⟩)],
       [(Key.new "x".data, ⟨.none, [("en".data, (0, 1))]⟩)]⟩ "en".data =
      Option.none ∧
    (0 : Nat) ≤ 1 ∧ 1 < byteLen "aé".data ∧
    (splitAtByte "aé".data 0).isSome ∧ (splitAtByte "aé".data 1).isSome := by
  decide

theorem splitAtByte_append (u v : List Char) :
    splitAtByte (u ++ v) (byteLen u) = some (u, v) := by
  induction u with
  | nil => simp only [List.nil_append, byteLen_nil, splitAtByte]
  | cons c u' ih =>
    have hsz : 0 < c.utf8Size := Char.utf8Size_pos c
    rw [byteLen_cons]
    rcases Nat.exists_eq_succ_of_ne_zero
      (show c.utf8Size + byteLen u' ≠ 0 by omega) with ⟨m, hm⟩
    rw [List.cons_append, hm]
    simp only [splitAtByte]
    rw [dif_neg (show ¬ m + 1 < c.utf8Size by omega),
      show m + 1 - c.utf8Size = byteLen u' by omega, ih]
    rfl

theorem charAtByte_append_cons (u : List Char) (c : Char) (v : List Char) :
    charAtByte (u ++ c :: v) (byteLen u) = some c := by
  unfold charAtByte
  rw [splitAtByte_append u (c :: v)]

theorem splitAtByte_parts {s pre post : List Char} {b : Nat}
    (h : splitAtByte s b = some (pre, post)) : s = pre ++ post ∧ byteLen pre = b := by
  induction s generalizing b pre post with
  | nil =>
    cases b with
    | zero =>
      simp only [splitAtByte, Option.some.injEq, Prod.mk.injEq] at h
      rcases h with ⟨rfl, rfl⟩
      exact ⟨rfl, rfl⟩
    | succ m => simp [splitAtByte] at h
  | cons c s' ih =>
    cases b with
    | zero =>
      simp only [splitAtByte, Option.some.injEq, Prod.mk.injEq] at h
      rcases h with ⟨rfl, rfl⟩
      exact ⟨rfl, rfl⟩
    | succ m =>
      simp only [splitAtByte] at h
      split at h
      · exact absurd h (by simp)
      · rcases hx : splitAtByte s' (m + 1 - c.utf8Size) with _ | ⟨p, q⟩
        · rw [hx] at h; exact absurd h (by simp)
        · rw [hx] at h
          simp only [Option.map, Option.some.injEq, Prod.mk.injEq] at h
          rcases h with ⟨rfl, rfl⟩
          rcases ih hx with ⟨hsq, hbl⟩
          have hnlt : ¬ m + 1 < c.utf8Size := by assumption
          constructor
          · rw [List.cons_append, hsq]
          · rw [byteLen_cons, hbl]; omega

theorem charAtByte_mem {s : List Char} {b : Nat} {c : Char}
    (h : charAtByte s b = some c) : c ∈ s := by
  unfold charAtByte at h
  rcases hx : splitAtByte s b with _ | ⟨pre, post⟩
  · rw [hx] at h; exact absurd h (by simp)
  · rw [hx] at h
    cases post with
    | nil => exact absurd h (by simp)
    | cons d post' =>
      simp only [Option.some.injEq] at h
      subst h
      rcases splitAtByte_parts hx with ⟨hs, _⟩
      rw [hs]
      exact List.mem_append_right _ (List.mem_cons_self _ _)

theorem validate_none {b : Nat} {n : List Char}
    (h : validate_interpolation_name b n = Option.none) :
    is_valid_identifier n = true := by
  by_cases h1 : n = []
  · subst h1; simp [validate_interpolation_name] at h
  · by_cases h2 : is_valid_identifier n = true
    · exact h2
    · simp [validate_interpolation_name, h1, h2] at h

theorem interpTypeOf_ne_none {t : List Char} {ty : InterpolationType}
    (h : interpTypeOf t = some ty) : ty ≠ .none := by
  unfold interpTypeOf at h
  split at h
  · cases h; intro hx; cases hx
  · split at h
    · cases h; intro hx; cases hx
    · exact absurd h (by simp)

theorem scanEnd_occs (st : ScanSt) : (scanEnd st).occs = st.occs := by
  unfold scanEnd
  split
  · split <;> rfl
  · rfl
  · rfl
  · rfl

theorem scanEnd_errs (st : ScanSt) : ∃ l, (scanEnd st).errs = st.errs ++ l := by
  unfold scanEnd
  split
  · split
    · exact ⟨_, rfl⟩
    · exact ⟨[], (List.append_nil _).symm⟩
  · exact ⟨_, rfl⟩
  · exact ⟨_, rfl⟩
  · exact ⟨[], (List.append_nil _).symm⟩

theorem scanInv_init (s : List Char) : ScanInv s 0 initSt where
  occs_span := by intro occ h; cases h
  occs_none_names := by intro occ h; cases h
  occs_names := by intro occ h; cases h
  occs_chain := List.chain'_nil
  occs_bound := by intro occ h; cases h
  opened_start := by intro h; cases h
  ptype_name := by intro h; cases h
  ab_inv := by intro b w h; cases h
  ptype_mode := by intro h; cases h
  stale := by intro _ ht; exact absurd rfl ht

theorem chain_push {occs : List ParsedInterpolation} {o : ParsedInterpolation}
    (hc : List.Chain' (fun a b => a.end_ < b.start) occs)
    (hb : ∀ occ ∈ occs, occ.end_ < o.start) :
    List.Chain' (fun a b => a.end_ < b.start) (occs ++ [o]) := by
  rw [List.chain'_append]
  refine ⟨hc, List.chain'_singleton _, ?_⟩
  intro x hx y hy
  simp only [List.head?_cons, Option.mem_def, Option.some.injEq] at hy
  subst hy
  refine hb x ?_
  rcases List.mem_getLast?_eq_getLast hx with ⟨hne, rfl⟩
  exact List.getLast_mem hne

theorem scanInv_openedStep {s : List Char} {i : Nat} {c : Char} {st : ScanSt}
    (inv : ScanInv s i st) (hm : st.mode = .opened) (hc : c ≠ '{')
    (hci : charAtByte s i = some c) (hsz : 0 < c.utf8Size) :
    ScanInv s (i + c.utf8Size) (openedStep st i c) := by
  obtain ⟨hlt, hat, hbnd⟩ := inv.opened_start hm
  have hgrow : ∀ occ ∈ st.occs, occ.end_ < i + c.utf8Size :=
    fun occ h => Nat.lt_of_lt_of_le (inv.occs_bound occ h) (Nat.le_add_right i c.utf8Size)
  have hname_or_err : st.ptype = true → is_valid_identifier st.name = true :=
    inv.ptype_name hm
  unfold openedStep
  by_cases h1 : c = ':'
  · rw [if_pos h1]
    cases hv : validate_interpolation_name st.start st.name with
    | some err =>
      exact {
        occs_span := inv.occs_span
        occs_none_names := inv.occs_none_names
        occs_names := inv.occs_names
        occs_chain := inv.occs_chain
        occs_bound := hgrow
        opened_start := fun h => nomatch h
        ptype_name := fun h => nomatch h
        ab_inv := fun _ _ h => nomatch h
        ptype_mode := fun hp => absurd (validate_ok (hname_or_err hp) st.start)
          (by rw [hv]; exact fun hx => Option.noConfusion hx)
        stale := fun _ _ => Or.inr (Or.inr ⟨err, rfl⟩) }
    | none =>
      exact {
        occs_span := inv.occs_span
        occs_none_names := inv.occs_none_names
        occs_names := inv.occs_names
        occs_chain := inv.occs_chain
        occs_bound := hgrow
        opened_start := fun _ =>
          ⟨Nat.lt_of_lt_of_le hlt (Nat.le_add_right i c.utf8Size), hat, hbnd⟩
        ptype_name := fun _ _ => validate_none hv
        ab_inv := fun _ _ h => nomatch hm.symm.trans h
        ptype_mode := fun _ => Or.inl hm
        stale := fun hpf _ => nomatch hpf }
  · rw [if_neg h1]
    by_cases h2 : c = '}'
    · rw [if_pos h2]
      subst h2
      by_cases ht : st.typ ≠ []
      · rw [if_pos ht]
        cases hty : interpTypeOf st.typ with
        | some t =>
          refine {
            occs_span := ?_
            occs_none_names := ?_
            occs_names := ?_
            occs_chain := chain_push inv.occs_chain hbnd
            occs_bound := ?_
            opened_start := fun h => nomatch h
            ptype_name := fun h => nomatch h
            ab_inv := fun _ _ h => nomatch h
            ptype_mode := fun hp => nomatch hp
            stale := fun _ htx => absurd rfl htx }
          · intro occ hocc
            rcases List.mem_append.mp hocc with hocc | hocc
            · exact inv.occs_span occ hocc
            · rcases List.mem_singleton.mp hocc with rfl
              exact ⟨hlt, hat, hci⟩
          · intro occ hocc hnone
            rcases List.mem_append.mp hocc with hocc | hocc
            · exact inv.occs_none_names occ hocc hnone
            · rcases List.mem_singleton.mp hocc with rfl
              exact absurd hnone (interpTypeOf_ne_none hty)
          · intro occ hocc
            rcases List.mem_append.mp hocc with hocc | hocc
            · exact inv.occs_names occ hocc
            · rcases List.mem_singleton.mp hocc with rfl
              cases hpe : st.ptype with
              | true => exact Or.inl (hname_or_err hpe)
              | false =>
                rcases inv.stale hpe ht with he | ⟨b, o, hsk⟩ | ⟨e, hsk⟩
                · exact Or.inr he
                · exact nomatch hm.symm.trans hsk
                · exact nomatch hm.symm.trans hsk
          · intro occ hocc
            rcases List.mem_append.mp hocc with hocc | hocc
            · exact hgrow occ hocc
            · rcases List.mem_singleton.mp hocc with rfl
              exact Nat.lt_add_of_pos_right hsz
        | none =>
          exact {
            occs_span := inv.occs_span
            occs_none_names := inv.occs_none_names
            occs_names := fun occ _ => Or.inr (by simp)
            occs_chain := inv.occs_chain
            occs_bound := hgrow
            opened_start := fun h => nomatch h
            ptype_name := fun h => nomatch h
            ab_inv := fun _ _ h => nomatch h
            ptype_mode := fun hp => nomatch hp
            stale := fun _ htx => absurd rfl htx }
      · rw [if_neg ht]
        cases hv : validate_interpolation_name st.start st.name with
        | none =>
          refine {
            occs_span := ?_
            occs_none_names := ?_
            occs_names := ?_
            occs_chain := chain_push inv.occs_chain hbnd
            occs_bound := ?_
            opened_start := fun h => nomatch h
            ptype_name := fun h => nomatch h
            ab_inv := fun _ _ h => nomatch h
            ptype_mode := fun hp => nomatch hp
            stale := fun _ htx => absurd (not_not.mp ht) htx }
          · intro occ hocc
            rcases List.mem_append.mp hocc with hocc | hocc
            · exact inv.occs_span occ hocc
            · rcases List.mem_singleton.mp hocc with rfl
              exact ⟨hlt, hat, hci⟩
          · intro occ hocc _
            rcases List.mem_append.mp hocc with hocc | hocc
            · exact inv.occs_none_names occ hocc (by assumption)
            · rcases List.mem_singleton.mp hocc with rfl
              exact validate_none hv
          · intro occ hocc
            rcases List.mem_append.mp hocc with hocc | hocc
            · exact inv.occs_names occ hocc
            · rcases List.mem_singleton.mp hocc with rfl
              exact Or.inl (validate_none hv)
          · intro occ hocc
            rcases List.mem_append.mp hocc with hocc | hocc
            · exact hgrow occ hocc
            · rcases List.mem_singleton.mp hocc with rfl
              exact Nat.lt_add_of_pos_right hsz
        | some err =>
          exact {
            occs_span := inv.occs_span
            occs_none_names := inv.occs_none_names
            occs_names := fun occ _ => Or.inr (by simp)
            occs_chain := inv.occs_chain
            occs_bound := hgrow
            opened_start := fun h => nomatch h
            ptype_name := fun h => nomatch h
            ab_inv := fun _ _ h => nomatch h
            ptype_mode := fun hp => nomatch hp
            stale := fun _ htx => absurd (not_not.mp ht) htx }
    · rw [if_neg h2]
      cases hpe : st.ptype with
      | true =>
        rw [if_pos rfl]
        exact {
          occs_span := inv.occs_span
          occs_none_names := inv.occs_none_names
          occs_names := inv.occs_names
          occs_chain := inv.occs_chain
          occs_bound := hgrow
          opened_start := fun _ =>
            ⟨Nat.lt_of_lt_of_le hlt (Nat.le_add_right i c.utf8Size), hat, hbnd⟩
          ptype_name := fun _ _ => hname_or_err hpe
          ab_inv := fun _ _ h => nomatch hm.symm.trans h
          ptype_mode := fun _ => Or.inl hm
          stale := fun hpf _ => nomatch hpf }
      | false =>
        rw [if_neg (by simp)]
        exact {
          occs_span := inv.occs_span
          occs_none_names := inv.occs_none_names
          occs_names := inv.occs_names
          occs_chain := inv.occs_chain
          occs_bound := hgrow
          opened_start := fun _ =>
            ⟨Nat.lt_of_lt_of_le hlt (Nat.le_add_right i c.utf8Size), hat, hbnd⟩
          ptype_name := fun _ hp => nomatch hp
          ab_inv := fun _ _ h => nomatch hm.symm.trans h
          ptype_mode := fun _ => Or.inl hm
          stale := fun _ ht => by
            rcases inv.stale hpe ht with he | ⟨b, o, hsk⟩ | ⟨e, hsk⟩
            · exact Or.inl he
            · exact nomatch hm.symm.trans hsk
            · exact nomatch hm.symm.trans hsk }

theorem scanInv_step {s : List Char} {i : Nat} {c : Char} {st : ScanSt}
    (inv : ScanInv s i st) (hci : charAtByte s i = some c) (hsz : 0 < c.utf8Size) :
    ScanInv s (i + c.utf8Size) (step st (i, c)) := by
  have hgrow : ∀ occ ∈ st.occs, occ.end_ < i + c.utf8Size :=
    fun occ h => Nat.lt_of_lt_of_le (inv.occs_bound occ h) (Nat.le_add_right i c.utf8Size)
  cases hm : st.mode with
  | closed =>
    have hptf : st.ptype = true → False := fun hp => by
      rcases inv.ptype_mode hp with h | ⟨b', h⟩ <;> exact nomatch hm.symm.trans h
    have hstale : st.ptype = false → st.typ ≠ [] → st.errs ≠ [] := fun hpf ht => by
      rcases inv.stale hpf ht with he | ⟨b', o', h⟩ | ⟨e', h⟩
      · exact he
      · exact nomatch hm.symm.trans h
      · exact nomatch hm.symm.trans h
    by_cases hc : c = '{'
    · have hstep : step st (i, c) = { st with mode := .afterBrace i false } := by
        simp [step, hm, hc]
      rw [hstep]
      subst hc
      exact {
        occs_span := inv.occs_span
        occs_none_names := inv.occs_none_names
        occs_names := inv.occs_names
        occs_chain := inv.occs_chain
        occs_bound := hgrow
        opened_start := fun h => nomatch h
        ptype_name := fun h => nomatch h
        ab_inv := fun b w h => by
          injection h with h1 h2
          subst h1
          subst h2
          refine ⟨by rw [show ('\x7b' : Char).utf8Size = 1 from by decide], hci,
            inv.occs_bound, fun hw => nomatch hw⟩
        ptype_mode := fun hp => (hptf hp).elim
        stale := fun hpf ht => Or.inl (hstale hpf ht) }
    · have hstep : step st (i, c) = st := by simp [step, hm, hc]
      rw [hstep]
      exact {
        occs_span := inv.occs_span
        occs_none_names := inv.occs_none_names
        occs_names := inv.occs_names
        occs_chain := inv.occs_chain
        occs_bound := hgrow
        opened_start := fun h => nomatch hm.symm.trans h
        ptype_name := fun h => nomatch hm.symm.trans h
        ab_inv := fun b w h => nomatch hm.symm.trans h
        ptype_mode := inv.ptype_mode
        stale := inv.stale }
  | opened =>
    have hstale : st.ptype = false → st.typ ≠ [] → st.errs ≠ [] := fun hpf ht => by
      rcases inv.stale hpf ht with he | ⟨b', o', h⟩ | ⟨e', h⟩
      · exact he
      · exact nomatch hm.symm.trans h
      · exact nomatch hm.symm.trans h
    by_cases hc : c = '{'
    · obtain ⟨hlt, hat, hbnd⟩ := inv.opened_start hm
      have hstep : step st (i, c) = { st with mode := .afterBrace i true } := by
        simp [step, hm, hc]
      rw [hstep]
      subst hc
      exact {
        occs_span := inv.occs_span
        occs_none_names := inv.occs_none_names
        occs_names := inv.occs_names
        occs_chain := inv.occs_chain
        occs_bound := hgrow
        opened_start := fun h => nomatch h
        ptype_name := fun h => nomatch h
        ab_inv := fun b w h => by
          injection h with h1 h2
          subst h1
          subst h2
          exact ⟨by rw [show ('\x7b' : Char).utf8Size = 1 from by decide], hci,
            inv.occs_bound,
            fun _ => ⟨Nat.le_of_lt hlt, hat, hbnd, inv.ptype_name hm⟩⟩
        ptype_mode := fun _ => Or.inr ⟨i, rfl⟩
        stale := fun hpf ht => Or.inl (hstale hpf ht) }
    · have hstep : step st (i, c) = openedStep st i c := by simp [step, hm, hc]
      rw [hstep]
      exact scanInv_openedStep inv hm hc hci hsz
  | afterBrace b w =>
    obtain ⟨hbi, hbat, hbbnd, hwpart⟩ := inv.ab_inv b w hm
    have hstale : st.ptype = false → st.typ ≠ [] → st.errs ≠ [] := fun hpf ht => by
      rcases inv.stale hpf ht with he | ⟨b', o', h⟩ | ⟨e', h⟩
      · exact he
      · exact nomatch hm.symm.trans h
      · exact nomatch hm.symm.trans h
    by_cases hc : c = '{'
    · have hstep : step st (i, c) = { st with mode := if w then .opened else .closed } := by
        simp [step, hm, hc]
      rw [hstep]
      cases w with
      | true =>
        obtain ⟨hsb, hsat, hsbnd, hptn⟩ := hwpart rfl
        exact {
          occs_span := inv.occs_span
          occs_none_names := inv.occs_none_names
          occs_names := inv.occs_names
          occs_chain := inv.occs_chain
          occs_bound := hgrow
          opened_start := fun _ =>
            ⟨show st.start < i + c.utf8Size by omega, hsat, hsbnd⟩
          ptype_name := fun _ => hptn
          ab_inv := fun b' w' h => nomatch h
          ptype_mode := fun _ => Or.inl rfl
          stale := fun hpf ht => Or.inl (hstale hpf ht) }
      | false =>
        have hptf : st.ptype = true → False := fun hp => by
          rcases inv.ptype_mode hp with h | ⟨b', h⟩ <;> exact nomatch hm.symm.trans h
        exact {
          occs_span := inv.occs_span
          occs_none_names := inv.occs_none_names
          occs_names := inv.occs_names
          occs_chain := inv.occs_chain
          occs_bound := hgrow
          opened_start := fun h => nomatch h
          ptype_name := fun h => nomatch h
          ab_inv := fun b' w' h => nomatch h
          ptype_mode := fun hp => (hptf hp).elim
          stale := fun hpf ht => Or.inl (hstale hpf ht) }
    · cases w with
      | true =>
        by_cases hc2 : c = '}'
        · have hstep : step st (i, c) = { st with
              mode := .closed, ptype := false, name := []
              errs := st.errs ++
                [.InvalidIdentifier (st.start + 1, b - (st.start + 1))] } := by
            simp [step, hm, hc, hc2]
          rw [hstep]
          exact {
            occs_span := inv.occs_span
            occs_none_names := inv.occs_none_names
            occs_names := fun occ _ => Or.inr (by simp)
            occs_chain := inv.occs_chain
            occs_bound := hgrow
            opened_start := fun h => nomatch h
            ptype_name := fun h => nomatch h
            ab_inv := fun b' w' h => nomatch h
            ptype_mode := fun hp => nomatch hp
            stale := fun _ _ => Or.inl (by simp) }
        · have hstep : step st (i, c) =
              { st with mode := .skipNest b 1, ptype := false, name := [] } := by
            simp [step, hm, hc, hc2]
          rw [hstep]
          exact {
            occs_span := inv.occs_span
            occs_none_names := inv.occs_none_names
            occs_names := inv.occs_names
            occs_chain := inv.occs_chain
            occs_bound := hgrow
            opened_start := fun h => nomatch h
            ptype_name := fun h => nomatch h
            ab_inv := fun b' w' h => nomatch h
            ptype_mode := fun hp => nomatch hp
            stale := fun _ _ => Or.inr (Or.inl ⟨b, 1, rfl⟩) }
      | false =>
        have hptf : st.ptype = true → False := fun hp => by
          rcases inv.ptype_mode hp with h | ⟨b', h⟩ <;> exact nomatch hm.symm.trans h
        have hstep : step st (i, c) =
            openedStep { st with mode := .opened, start := b } i c := by
          simp [step, hm, hc]
        rw [hstep]
        refine scanInv_openedStep ?_ rfl hc hci hsz
        exact {
          occs_span := inv.occs_span
          occs_none_names := inv.occs_none_names
          occs_names := inv.occs_names
          occs_chain := inv.occs_chain
          occs_bound := inv.occs_bound
          opened_start := fun _ => ⟨show b < i by omega, hbat, hbbnd⟩
          ptype_name := fun _ hp => (hptf hp).elim
          ab_inv := fun b' w' h => nomatch h
          ptype_mode := fun _ => Or.inl rfl
          stale := fun hpf ht => Or.inl (hstale hpf ht) }
  | skipNest b2 off =>
    have hptf : st.ptype = true → False := fun hp => by
      rcases inv.ptype_mode hp with h | ⟨b', h⟩ <;> exact nomatch hm.symm.trans h
    by_cases hc : c = '}'
    · have hstep : step st (i, c) = { st with
          mode := .closed
          errs := st.errs ++
            [.InvalidIdentifier (st.start + 1, b2 + off - (st.start + 1))] } := by
        simp [step, hm, hc]
      rw [hstep]
      exact {
        occs_span := inv.occs_span
        occs_none_names := inv.occs_none_names
        occs_names := fun occ _ => Or.inr (by simp)
        occs_chain := inv.occs_chain
        occs_bound := hgrow
        opened_start := fun h => nomatch h
        ptype_name := fun h => nomatch h
        ab_inv := fun b' w' h => nomatch h
        ptype_mode := fun hp => (hptf hp).elim
        stale := fun _ _ => Or.inl (by simp) }
    · have hstep : step st (i, c) = { st with mode := .skipNest b2 (off + 1) } := by
        simp [step, hm, hc]
      rw [hstep]
      exact {
        occs_span := inv.occs_span
        occs_none_names := inv.occs_none_names
        occs_names := inv.occs_names
        occs_chain := inv.occs_chain
        occs_bound := hgrow
        opened_start := fun h => nomatch h
        ptype_name := fun h => nomatch h
        ab_inv := fun b' w' h => nomatch h
        ptype_mode := fun hp => (hptf hp).elim
        stale := fun _ _ => Or.inr (Or.inl ⟨b2, off + 1, rfl⟩) }
  | skipColon err =>
    have hptf : st.ptype = true → False := fun hp => by
      rcases inv.ptype_mode hp with h | ⟨b', h⟩ <;> exact nomatch hm.symm.trans h
    by_cases hc : c = '}'
    · have hstep : step st (i, c) =
          { st with mode := .closed, errs := st.errs ++ [err] } := by
        simp [step, hm, hc]
      rw [hstep]
      exact {
        occs_span := inv.occs_span
        occs_none_names := inv.occs_none_names
        occs_names := fun occ _ => Or.inr (by simp)
        occs_chain := inv.occs_chain
        occs_bound := hgrow
        opened_start := fun h => nomatch h
        ptype_name := fun h => nomatch h
        ab_inv := fun b' w' h => nomatch h
        ptype_mode := fun hp => (hptf hp).elim
        stale := fun _ _ => Or.inl (by simp) }
    · have hstep : step st (i, c) = st := by simp [step, hm, hc]
      rw [hstep]
      exact {
        occs_span := inv.occs_span
        occs_none_names := inv.occs_none_names
        occs_names := inv.occs_names
        occs_chain := inv.occs_chain
        occs_bound := hgrow
        opened_start := fun h => nomatch hm.symm.trans h
        ptype_name := fun h => nomatch hm.symm.trans h
        ab_inv := fun b' w' h => nomatch hm.symm.trans h
        ptype_mode := inv.ptype_mode
        stale := inv.stale }

theorem scanInv_foldl (s : List Char) (rest : List Char) :
    ∀ (done : List Char) (st : ScanSt),
      s = done ++ rest → ScanInv s (byteLen done) st →
      ScanInv s (byteLen s) ((charIndices (byteLen done) rest).foldl step st) := by
  induction rest with
  | nil =>
    intro done st hs inv
    rw [show done = s from by rw [hs, List.append_nil]] at inv ⊢
    simpa [charIndices] using inv
  | cons c rest' ih =>
    intro done st hs inv
    have hci : charAtByte s (byteLen done) = some c := by
      rw [hs]; exact charAtByte_append_cons done c rest'
    have hinv' := scanInv_step inv hci (Char.utf8Size_pos c)
    have hb : byteLen (done ++ [c]) = byteLen done + c.utf8Size := by
      rw [byteLen_append, byteLen_cons, byteLen_nil]
      omega
    have hs' : s = (done ++ [c]) ++ rest' := by rw [hs]; simp
    have hrec := ih (done ++ [c]) (step st (byteLen done, c)) hs'
      (by rw [hb]; exact hinv')
    rw [hb] at hrec
    simpa [charIndices] using hrec

theorem scanInv_scan (s : List Char) :
    ScanInv s (byteLen s) ((charIndices 0 s).foldl step initSt) :=
  scanInv_foldl s s [] initSt rfl (scanInv_init s)

/-- **C9** (amended): every occurrence list returned by
`parse_interpolations` is span-well-formed for every input — each span has
`start < end` with both offsets character boundaries, `start` at a `\x7b`
and `end` at a `\x7d`, and occurrences appear in strictly increasing,
pairwise-disjoint span order; each occurrence's name matches
`[a-zA-Z][a-zA-Z0-9_]*` whenever the occurrence's type is `None`, and every
occurrence's name does whenever the parse reports no errors (a stale type
suffix left by the nesting-error recovery can admit an unvalidated name,
but only alongside a reported error). -/
theorem C9_occurrence_wellformedness (s : List Char) :
    (∀ occ ∈ (parse_interpolations s).interpolations, OccSpanOk s occ) ∧
    List.Chain' (fun a b => a.end_ < b.start)
      (parse_interpolations s).interpolations ∧
    (∀ occ ∈ (parse_interpolations s).interpolations, occ.type_ = .none →
      is_valid_identifier occ.name = true) ∧
    ((parse_interpolations s).errors = [] →
      ∀ occ ∈ (parse_interpolations s).interpolations,
        is_valid_identifier occ.name = true) := by
  have hinv := scanInv_scan s
  by_cases hc : ¬ (s.contains '{' = true)
  · simp only [parse_interpolations, if_pos hc]
    refine ⟨?_, ?_, ?_, ?_⟩
    · intro occ h; cases h
    · exact List.chain'_nil
    · intro occ h; cases h
    · intro _ occ h; cases h
  · simp only [parse_interpolations, if_neg hc]
    rw [scan, scanEnd_occs]
    refine ⟨hinv.occs_span, hinv.occs_chain, hinv.occs_none_names, ?_⟩
    intro herr occ hocc
    have hstfe : ((charIndices 0 s).foldl step initSt).errs = [] := by
      obtain ⟨l, hl⟩ := scanEnd_errs ((charIndices 0 s).foldl step initSt)
      by_cases hmo : (scanEnd ((charIndices 0 s).foldl step initSt)).mode = .opened
      · rw [if_pos hmo] at herr
        exact absurd herr (by simp)
      · rw [if_neg hmo] at herr
        rw [hl] at herr
        exact (List.append_eq_nil.mp herr).1
    rcases hinv.occs_names occ hocc with hv | hne
    · exact hv
    · exact (hne hstfe).elim

/-- Witness for C9 at a concrete input. -/
theorem C9_witness :
    OccSpanOk "\x7bname\x7d".data ⟨.none, "name".data, 0, 5⟩ :=
  (C9_occurrence_wellformedness "\x7bname\x7d".data).1 _ (by decide)

/-- **C5** (amended): when the scanner reaches end-of-input while an
interpolation is still open, `parse_interpolations` emits an `Unclosed`
error whose span starts one byte past that interpolation's opening brace
(`start_byte_index + 1`) and reaches the end of the string; the remembered
`start` offset does point at a genuine `\x7b` of the input. -/
theorem C5_unclosed_error (s : List Char)
    (h : (scan (charIndices 0 s) initSt).mode = .opened) :
    charAtByte s (scan (charIndices 0 s) initSt).start = some '{' ∧
    (parse_interpolations s).errors =
      (scan (charIndices 0 s) initSt).errs ++
        [.Unclosed ((scan (charIndices 0 s) initSt).start + 1,
          byteLen s - ((scan (charIndices 0 s) initSt).start + 1))] := by
  have hinv := scanInv_scan s
  have hat : charAtByte s (scan (charIndices 0 s) initSt).start = some '{' := by
    rw [scan] at h ⊢
    cases hm : ((charIndices 0 s).foldl step initSt).mode with
    | closed =>
      rw [show scanEnd ((charIndices 0 s).foldl step initSt) =
        (charIndices 0 s).foldl step initSt from by simp [scanEnd, hm]] at h
      exact nomatch hm.symm.trans h
    | opened =>
      rw [show scanEnd ((charIndices 0 s).foldl step initSt) =
        (charIndices 0 s).foldl step initSt from by simp [scanEnd, hm]]
      exact (hinv.opened_start hm).2.1
    | afterBrace b w =>
      cases w with
      | true =>
        rw [show (scanEnd ((charIndices 0 s).foldl step initSt)).mode =
          .closed from by simp [scanEnd, hm]] at h
        exact nomatch h
      | false =>
        rw [show scanEnd ((charIndices 0 s).foldl step initSt) =
          { (charIndices 0 s).foldl step initSt with
              mode := .opened, start := b } from by simp [scanEnd, hm]]
        exact (hinv.ab_inv b false hm).2.1
    | skipNest b2 off =>
      rw [show (scanEnd ((charIndices 0 s).foldl step initSt)).mode =
        .closed from by simp [scanEnd, hm]] at h
      exact nomatch h
    | skipColon err =>
      rw [show (scanEnd ((charIndices 0 s).foldl step initSt)).mode =
        .closed from by simp [scanEnd, hm]] at h
      exact nomatch h
  refine ⟨hat, ?_⟩
  have hcont : s.contains '{' = true :=
    List.elem_iff.mpr (charAtByte_mem hat)
  simp only [parse_interpolations, if_neg (not_not_intro hcont)]
  rw [if_pos h]

theorem byteLen_eq_zero {m : List Char} (h : byteLen m = 0) : m = [] := by
  cases m with
  | nil => rfl
  | cons c m' =>
    rw [byteLen_cons] at h
    have := Char.utf8Size_pos c
    omega

theorem splitAtByte_le {s pre post : List Char} {n : Nat}
    (h : splitAtByte s n = some (pre, post)) : n ≤ byteLen s := by
  rcases splitAtByte_parts h with ⟨hs, hb⟩
  rw [hs, byteLen_append, ← hb]
  exact Nat.le_add_right _ _

theorem splitAtByte_prefix_of_le {t P Q Pb Qb : List Char} {n m : Nat}
    (hn : splitAtByte t n = some (P, Q)) (hm : splitAtByte t m = some (Pb, Qb))
    (hle : m ≤ n) : ∃ mid, P = Pb ++ mid := by
  rcases splitAtByte_parts hn with ⟨ht1, hb1⟩
  rcases splitAtByte_parts hm with ⟨ht2, hb2⟩
  have hp1 : P <+: t := ⟨Q, ht1.symm⟩
  have hp2 : Pb <+: t := ⟨Qb, ht2.symm⟩
  rcases List.prefix_or_prefix_of_prefix hp2 hp1 with h | h
  · rcases h with ⟨mid, hmid⟩
    exact ⟨mid, hmid.symm⟩
  · rcases h with ⟨m2, hPb⟩
    have hlen : byteLen (P ++ m2) = byteLen P + byteLen m2 := byteLen_append _ _
    rw [hPb] at hlen
    have hz : byteLen m2 = 0 := by omega
    rw [byteLen_eq_zero hz, List.append_nil] at hPb
    exact ⟨[], by rw [← hPb, List.append_nil]⟩

theorem insertByStart_perm (x : Key × (Nat × Nat)) (l : List (Key × (Nat × Nat))) :
    List.Perm (insertByStart x l) (x :: l) := by
  induction l with
  | nil => exact List.Perm.refl _
  | cons y rest ih =>
    unfold insertByStart
    by_cases h : y.2.1 < x.2.1
    · rw [if_pos h]
      exact ((ih.cons y).trans (List.Perm.swap x y rest)).symm.symm
    · rw [if_neg h]

theorem mem_insertByStart {z x : Key × (Nat × Nat)} {l : List (Key × (Nat × Nat))}
    (h : z ∈ insertByStart x l) : z = x ∨ z ∈ l := by
  have := (insertByStart_perm x l).mem_iff.mp h
  simpa using this

theorem insertByStart_sorted (x : Key × (Nat × Nat)) :
    ∀ {l : List (Key × (Nat × Nat))},
      List.Pairwise (fun p q => p.2.1 ≤ q.2.1) l →
      List.Pairwise (fun p q => p.2.1 ≤ q.2.1) (insertByStart x l) := by
  intro l
  induction l with
  | nil => intro _; exact List.pairwise_singleton _ _
  | cons y rest ih =>
    intro hp
    rcases List.pairwise_cons.mp hp with ⟨hy, hrest⟩
    unfold insertByStart
    by_cases h : y.2.1 < x.2.1
    · rw [if_pos h]
      refine List.pairwise_cons.mpr ⟨?_, ih hrest⟩
      intro z hz
      rcases mem_insertByStart hz with rfl | hz
      · exact Nat.le_of_lt h
      · exact hy z hz
    · rw [if_neg h]
      refine List.pairwise_cons.mpr ⟨?_, hp⟩
      intro z hz
      rcases List.mem_cons.mp hz with rfl | hz
      · omega
      · exact Nat.le_trans (by omega) (hy z hz)

theorem sortByStart_perm (l : List (Key × (Nat × Nat))) :
    List.Perm (sortByStart l) l := by
  induction l with
  | nil => exact List.Perm.refl _
  | cons a l' ih =>
    have : sortByStart (a :: l') = insertByStart a (sortByStart l') := rfl
    rw [this]
    exact (insertByStart_perm a (sortByStart l')).trans (ih.cons a)

theorem sortByStart_sorted (l : List (Key × (Nat × Nat))) :
    List.Pairwise (fun p q => p.2.1 ≤ q.2.1) (sortByStart l) := by
  induction l with
  | nil => exact List.Pairwise.nil
  | cons a l' ih => exact insertByStart_sorted a ih

theorem substRanges_isSome (t : List Char) :
    ∀ (rl : List (Key × (Nat × Nat))) (n : Nat) (P Q s : List Char),
      splitAtByte t n = some (P, Q) →
      (∀ e ∈ rl, e.2.1 ≤ e.2.2 ∧ e.2.2 + 1 ≤ n ∧
        (splitAtByte t e.2.1).isSome ∧ (splitAtByte t (e.2.2 + 1)).isSome) →
      List.Pairwise (fun x y => y.2.2 + 1 ≤ x.2.1) rl →
      (substRanges rl (P ++ s)).isSome := by
  intro rl
  induction rl with
  | nil =>
    intro n P Q s _ _ _
    simp [substRanges]
  | cons e rl' ih =>
    intro n P Q s hsplit hval hpw
    obtain ⟨k, a, b⟩ := e
    obtain ⟨hab, hbn, hsa, hsb⟩ := hval _ (List.mem_cons_self _ _)
    have hab' : a ≤ b := hab
    have hbn' : b + 1 ≤ n := hbn
    clear hab hbn
    rw [Option.isSome_iff_exists] at hsa hsb
    obtain ⟨⟨Pa, Qa⟩, hsa⟩ := hsa
    obtain ⟨⟨Pb, Qb⟩, hsb⟩ := hsb
    have hsa' : splitAtByte t a = some (Pa, Qa) := hsa
    have hsb' : splitAtByte t (b + 1) = some (Pb, Qb) := hsb
    clear hsa hsb
    have hPa : byteLen Pa = a := (splitAtByte_parts hsa').2
    have hPb1 : byteLen Pb = b + 1 := (splitAtByte_parts hsb').2
    obtain ⟨midB, hmidB⟩ := splitAtByte_prefix_of_le hsplit hsb' hbn'
    obtain ⟨midA, hmidA⟩ := splitAtByte_prefix_of_le hsb' hsa' (by omega)
    have hsplitA : splitAtByte (P ++ s) a = some (Pa, midA ++ midB ++ s) := by
      rw [hmidB, hmidA, List.append_assoc, List.append_assoc, ← List.append_assoc midA,
        ← hPa]
      exact splitAtByte_append _ _
    have hsplitB : splitAtByte (P ++ s) (b + 1) = some (Pb, midB ++ s) := by
      rw [hmidB, List.append_assoc, ← hPb1]
      exact splitAtByte_append _ _
    have hrepl : replaceRangeIncl (P ++ s) a b (template_var k) =
        some (Pa ++ template_var k ++ (midB ++ s)) := by
      unfold replaceRangeIncl
      rw [if_pos (by omega : a ≤ b + 1), hsplitA, hsplitB]
    have hvals' : ∀ e ∈ rl', e.2.1 ≤ e.2.2 ∧ e.2.2 + 1 ≤ a ∧
        (splitAtByte t e.2.1).isSome ∧ (splitAtByte t (e.2.2 + 1)).isSome := by
      intro e' he'
      obtain ⟨h1, _, h3, h4⟩ := hval e' (List.mem_cons_of_mem _ he')
      exact ⟨h1, (List.pairwise_cons.mp hpw).1 e' he', h3, h4⟩
    have hrec := ih a Pa Qa (template_var k ++ (midB ++ s)) hsa' hvals'
      (List.pairwise_cons.mp hpw).2
    rw [← List.append_assoc] at hrec
    unfold substRanges
    rw [hrepl]
    exact hrec

/-- **C8** (amended): for every ASCII source key containing at least one
alphanumeric-or-underscore character, the sanitized field of the Key built
from it is a nonempty identifier: every character is an ASCII alphanumeric
or underscore, the first character is not a digit (so the result matches
`[A-Za-z_][A-Za-z0-9_]*`), and the result is not a reserved keyword.  (The
ASCII hypothesis marks the fragment on which the embedded
`char::is_alphanumeric` is faithful; the non-empty hypothesis is necessary,
as `sanitize_key "" = ""`.) -/
theorem C8_sanitize_identifier (key : List Char)
    (hasc : ∀ c ∈ key, c.toNat < 128)
    (hsome : ∃ c ∈ key, (rustAlnum c || c == '_') = true) :
    (Key.new key).sanitized ≠ [] ∧
    (∀ c ∈ (Key.new key).sanitized, isAsciiAlphanumeric c = true ∨ c = '_') ∧
    (∀ c, ((Key.new key).sanitized).head? = some c → rustNumeric c = false) ∧
    is_reserved_keyword (Key.new key).sanitized = false := by
  clear hasc
  have hkey : (Key.new key).sanitized = sanitize_key key := rfl
  rw [hkey]
  have hnokw : ∀ w ∈ KEYWORDS, w.getLast? ≠ some '_' := by decide
  have hkwapp : ∀ l : List Char, is_reserved_keyword (l ++ ['_']) = false := by
    intro l
    cases h : is_reserved_keyword (l ++ ['_']) with
    | false => rfl
    | true =>
      have hmem : l ++ ['_'] ∈ KEYWORDS := List.elem_iff.mp h
      have hlast : (l ++ ['_']).getLast? = some '_' := List.getLast?_concat _
      exact absurd hlast (hnokw _ hmem)
  rcases hcons : key.filter (fun c => rustAlnum c || c == '_') with _ | ⟨c0, cs⟩
  · obtain ⟨c, hc, hf⟩ := hsome
    have hmem : c ∈ key.filter (fun c => rustAlnum c || c == '_') :=
      List.mem_filter.mpr ⟨hc, hf⟩
    rw [hcons] at hmem
    cases hmem
  · have hall : ∀ c ∈ c0 :: cs, isAsciiAlphanumeric c = true ∨ c = '_' := by
      intro c hc
      have hmem : c ∈ key.filter (fun c => rustAlnum c || c == '_') := by
        rw [hcons]; exact hc
      have hf' : (rustAlnum c || c == '_') = true := (List.mem_filter.mp hmem).2
      rcases Bool.or_eq_true _ _ |>.mp hf' with h | h
      · exact Or.inl h
      · exact Or.inr (eq_of_beq h)
    have hsan : sanitize_key key =
        (if is_reserved_keyword
            (if rustNumeric c0 then '_' :: c0 :: cs else c0 :: cs)
         then (if rustNumeric c0 then '_' :: c0 :: cs else c0 :: cs) ++ ['_']
         else (if rustNumeric c0 then '_' :: c0 :: cs else c0 :: cs)) := by
      simp only [sanitize_key, hcons]
    rw [hsan]
    by_cases hnum : rustNumeric c0 = true
    · rw [if_pos hnum]
      have hall' : ∀ c ∈ '_' :: c0 :: cs, isAsciiAlphanumeric c = true ∨ c = '_' := by
        intro c hc
        rcases List.mem_cons.mp hc with rfl | hc
        · exact Or.inr rfl
        · exact hall c hc
      by_cases hkw : is_reserved_keyword ('_' :: c0 :: cs) = true
      · rw [if_pos hkw]
        refine ⟨by simp, ?_, ?_, hkwapp _⟩
        · intro c hc
          rcases List.mem_append.mp hc with hc | hc
          · exact hall' c hc
          · rcases List.mem_singleton.mp hc with rfl
            exact Or.inr rfl
        · intro c hc
          rw [show (('_' :: c0 :: cs) ++ ['_']).head? = some '_' from rfl] at hc
          cases hc
          decide
      · rw [if_neg hkw]
        refine ⟨by simp, hall', ?_, Bool.not_eq_true _ |>.mp hkw⟩
        intro c hc
        rw [show ('_' :: c0 :: cs).head? = some '_' from rfl] at hc
        cases hc
        decide
    · rw [if_neg hnum]
      have hnum' : rustNumeric c0 = false := Bool.not_eq_true _ |>.mp hnum
      by_cases hkw : is_reserved_keyword (c0 :: cs) = true
      · rw [if_pos hkw]
        refine ⟨by simp, ?_, ?_, hkwapp _⟩
        · intro c hc
          rcases List.mem_append.mp hc with hc | hc
          · exact hall c hc
          · rcases List.mem_singleton.mp hc with rfl
            exact Or.inr rfl
        · intro c hc
          rw [show ((c0 :: cs) ++ ['_']).head? = some c0 from rfl] at hc
          cases hc
          exact hnum'
      · rw [if_neg hkw]
        refine ⟨by simp, hall, ?_, Bool.not_eq_true _ |>.mp hkw⟩
        intro c hc
        rw [show (c0 :: cs).head? = some c0 from rfl] at hc
        cases hc
        exact hnum'

/-- Witness for C8 at a concrete input. -/
theorem C8_witness :
    (Key.new "my-key".data).sanitized ≠ [] ∧
    (∀ c ∈ (Key.new "my-key".data).sanitized,
      isAsciiAlphanumeric c = true ∨ c = '_') ∧
    (∀ c, ((Key.new "my-key".data).sanitized).head? = some c →
      rustNumeric c = false) ∧
    is_reserved_keyword (Key.new "my-key".data).sanitized = false :=
  C8_sanitize_identifier "my-key".data (by decide) (by decide)

/-- Witness for C5: `"\x7ba"` ends inside an open interpolation. -/
theorem C5_witness :
    charAtByte "\x7ba".data
      (scan (charIndices 0 "\x7ba".data) initSt).start = some '{' ∧
    (parse_interpolations "\x7ba".data).errors =
      (scan (charIndices 0 "\x7ba".data) initSt).errs ++
        [.Unclosed ((scan (charIndices 0 "\x7ba".data) initSt).start + 1,
          byteLen "\x7ba".data -
            ((scan (charIndices 0 "\x7ba".data) initSt).start + 1))] :=
  C5_unclosed_error "\x7ba".data (by decide)

/-- **C10** (amended): `template_for_locale` returns normally whenever every
range `(start, end)` stored for the locale satisfies `start ≤ end`, both
`start` and `end + 1` fall on character boundaries of that locale's stored
(escaped) translation (so `end` is the final byte of a character and
`end + 1 ≤` its byte length), and the ranges are pairwise disjoint; under
this precondition the result is `Some` of a substituted string when the
locale has a translation, and `None` exactly when it has none — the
`Option` never signals an invalid range. -/
theorem C10_template_total (m : Message) (locale : List Char)
    (hval : ∀ t, lookupAssoc lexLt locale m.translation = some t →
      (∀ e ∈ collectedRanges m locale,
        e.2.1 ≤ e.2.2 ∧ (splitAtByte t.escaped e.2.1).isSome ∧
          (splitAtByte t.escaped (e.2.2 + 1)).isSome) ∧
      List.Pairwise (fun x y => x.2.2 + 1 ≤ y.2.1 ∨ y.2.2 + 1 ≤ x.2.1)
        (collectedRanges m locale)) :
    (Message.template_for_locale m locale).isSome ∧
    (lookupAssoc lexLt locale m.translation = Option.none →
      Message.template_for_locale m locale = some Option.none) ∧
    (∀ t, lookupAssoc lexLt locale m.translation = some t →
      ∃ r, Message.template_for_locale m locale = some (some r)) := by
  cases hlk : lookupAssoc lexLt locale m.translation with
  | none =>
    have hres : Message.template_for_locale m locale = some Option.none := by
      unfold Message.template_for_locale
      rw [hlk]
    exact ⟨by rw [hres]; rfl, fun _ => hres, fun t ht => nomatch ht⟩
  | some t =>
    obtain ⟨helem, hdisj⟩ := hval t hlk
    have hmemsort : ∀ e ∈ sortByStart (collectedRanges m locale),
        e ∈ collectedRanges m locale :=
      fun e he => (sortByStart_perm _).mem_iff.mp he
    have hmem : ∀ e ∈ (sortByStart (collectedRanges m locale)).reverse,
        e ∈ collectedRanges m locale := by
      intro e he
      rw [List.mem_reverse] at he
      exact hmemsort e he
    have hsplit : splitAtByte t.escaped (byteLen t.escaped) =
        some (t.escaped, []) := by
      have h := splitAtByte_append t.escaped []
      rwa [List.append_nil] at h
    have hvals : ∀ e ∈ (sortByStart (collectedRanges m locale)).reverse,
        e.2.1 ≤ e.2.2 ∧ e.2.2 + 1 ≤ byteLen t.escaped ∧
        (splitAtByte t.escaped e.2.1).isSome ∧
        (splitAtByte t.escaped (e.2.2 + 1)).isSome := by
      intro e he
      obtain ⟨h1, h2, h3⟩ := helem e (hmem e he)
      refine ⟨h1, ?_, h2, h3⟩
      have h3' := h3
      rw [Option.isSome_iff_exists] at h3'
      obtain ⟨⟨pr, po⟩, h3'⟩ := h3'
      exact splitAtByte_le h3'
    have hpw : List.Pairwise (fun x y => y.2.2 + 1 ≤ x.2.1)
        (sortByStart (collectedRanges m locale)).reverse := by
      rw [List.pairwise_reverse]
      have hs : List.Pairwise (fun p q => p.2.1 ≤ q.2.1)
          (sortByStart (collectedRanges m locale)) := sortByStart_sorted _
      have hd : List.Pairwise
          (fun x y => x.2.2 + 1 ≤ y.2.1 ∨ y.2.2 + 1 ≤ x.2.1)
          (sortByStart (collectedRanges m locale)) := by
        refine (List.Perm.pairwise_iff ?_ (sortByStart_perm _)).mpr hdisj
        intro x y h
        exact h.symm
      refine (hs.and hd).imp_of_mem ?_
      intro x y hx hy h
      rcases h with ⟨hle, hdj⟩
      rcases hdj with h | h
      · exact h
      · have hy' := (helem y (hmemsort y hy)).1
        omega
    have hsub := substRanges_isSome t.escaped
      (sortByStart (collectedRanges m locale)).reverse
      (byteLen t.escaped) t.escaped [] [] hsplit hvals hpw
    rw [List.append_nil, Option.isSome_iff_exists] at hsub
    obtain ⟨res, hres⟩ := hsub
    have htmpl : Message.template_for_locale m locale =
        some (some (collapseEsc res)) := by
      unfold Message.template_for_locale
      rw [hlk]
      simp only [hres]
    refine ⟨by rw [htmpl]; rfl, ?_, ?_⟩
    · intro h
      exact nomatch h
    · intro t' _
      exact ⟨collapseEsc res, htmpl⟩

/-- Witness for C10 at a concrete message with one in-bounds range. -/
theorem C10_witness :
    (Message.template_for_locale
      ⟨[("en".data, ⟨"Hello \x7bname\x7d".data⟩)],
       [(Key.new "name".data, ⟨.none, [("en".data, (6, 11))]⟩)]⟩
      "en".data).isSome ∧
    (lookupAssoc lexLt "en".data
        ([("en".data, (⟨"Hello \x7bname\x7d".data⟩ : Translation))]) =
          Option.none →
      Message.template_for_locale
        ⟨[("en".data, ⟨"Hello \x7bname\x7d".data⟩)],
         [(Key.new "name".data, ⟨.none, [("en".data, (6, 11))]⟩)]⟩
        "en".data = some Option.none) ∧
    (∀ t, lookupAssoc lexLt "en".data
        ([("en".data, (⟨"Hello \x7bname\x7d".data⟩ : Translation))]) = some t →
      ∃ r, Message.template_for_locale
        ⟨[("en".data, ⟨"Hello \x7bname\x7d".data⟩)],
         [(Key.new "name".data, ⟨.none, [("en".data, (6, 11))]⟩)]⟩
        "en".data = some (some r)) :=
  C10_template_total
    ⟨[("en".data, ⟨"Hello \x7bname\x7d".data⟩)],
     [(Key.new "name".data, ⟨.none, [("en".data, (6, 11))]⟩)]⟩
    "en".data
    (fun t ht => by
      have heval : lookupAssoc lexLt "en".data
          ([("en".data, (⟨"Hello \x7bname\x7d".data⟩ : Translation))]) =
            some ⟨"Hello \x7bname\x7d".data⟩ := by decide
      injection (heval.symm.trans ht) with ht2
      subst ht2
      decide)

theorem lexLt_irrefl : ∀ a : List Char, lexLt a a = false
  | [] => rfl
  | c :: cs => by
    unfold lexLt
    rw [if_neg (Nat.lt_irrefl _), if_neg (Nat.lt_irrefl _)]
    exact lexLt_irrefl cs

theorem lexLt_asymm : ∀ a b : List Char, lexLt a b = true → lexLt b a = false
  | [], [] => fun h => nomatch h
  | [], _ :: _ => fun _ => rfl
  | _ :: _, [] => fun h => nomatch h
  | a :: as, b :: bs => by
    intro h
    unfold lexLt at h ⊢
    by_cases h1 : a.toNat < b.toNat
    · rw [if_neg (by omega : ¬ b.toNat < a.toNat), if_pos h1]
    · rw [if_neg h1] at h
      by_cases h2 : b.toNat < a.toNat
      · rw [if_pos h2] at h
        exact absurd h (by simp)
      · rw [if_neg h2] at h
        rw [if_neg h2, if_neg h1]
        exact lexLt_asymm as bs h

theorem lexLt_eq_of_not :
    ∀ a b : List Char, lexLt a b = false → lexLt b a = false → a = b
  | [], [] => fun _ _ => rfl
  | [], _ :: _ => fun h _ => nomatch h
  | _ :: _, [] => fun _ h => nomatch h
  | a :: as, b :: bs => by
    intro h1 h2
    unfold lexLt at h1 h2
    by_cases hab : a.toNat < b.toNat
    · rw [if_pos hab] at h1
      exact absurd h1 (by simp)
    · rw [if_neg hab] at h1
      by_cases hba : b.toNat < a.toNat
      · rw [if_pos hba] at h2
        exact absurd h2 (by simp)
      · rw [if_neg hba] at h1
        rw [if_neg hba, if_neg hab] at h2
        rw [char_eq_of_toNat (by omega : a.toNat = b.toNat),
          lexLt_eq_of_not as bs h1 h2]

theorem keyLt_irrefl (a : Key) : keyLt a a = false := lexLt_irrefl _

theorem keyLt_asymm {a b : Key} (h : keyLt a b = true) : keyLt b a = false :=
  lexLt_asymm _ _ h

theorem keyNew_eq_of_not {a b : List Char} (h1 : keyLt (Key.new a) (Key.new b) = false)
    (h2 : keyLt (Key.new b) (Key.new a) = false) : Key.new a = Key.new b := by
  have : a = b := lexLt_eq_of_not a b h1 h2
  rw [this]

theorem keyNew_lt_or_gt {a b : List Char} (h : Key.new a ≠ Key.new b) :
    keyLt (Key.new a) (Key.new b) = true ∨ keyLt (Key.new b) (Key.new a) = true := by
  by_cases h1 : keyLt (Key.new a) (Key.new b) = true
  · exact Or.inl h1
  · by_cases h2 : keyLt (Key.new b) (Key.new a) = true
    · exact Or.inr h2
    · exact absurd (keyNew_eq_of_not (Bool.not_eq_true _ |>.mp h1)
        (Bool.not_eq_true _ |>.mp h2)) h

theorem lexLt_lt_or_gt {a b : List Char} (h : a ≠ b) :
    lexLt a b = true ∨ lexLt b a = true := by
  by_cases h1 : lexLt a b = true
  · exact Or.inl h1
  · by_cases h2 : lexLt b a = true
    · exact Or.inr h2
    · exact absurd (lexLt_eq_of_not a b (Bool.not_eq_true _ |>.mp h1)
        (Bool.not_eq_true _ |>.mp h2)) h

theorem lexLt_trans : ∀ a b c : List Char,
    lexLt a b = true → lexLt b c = true → lexLt a c = true
  | [], [], _ => fun h _ => nomatch h
  | [], _ :: _, [] => fun _ h => nomatch h
  | [], _ :: _, _ :: _ => fun _ _ => rfl
  | _ :: _, [], _ => fun h _ => nomatch h
  | _ :: _, _ :: _, [] => fun _ h => nomatch h
  | a :: as, b :: bs, c :: cs => by
    intro h1 h2
    unfold lexLt at h1 h2 ⊢
    by_cases hab : a.toNat < b.toNat
    · by_cases hbc : b.toNat < c.toNat
      · rw [if_pos (by omega : a.toNat < c.toNat)]
      · rw [if_neg hbc] at h2
        by_cases hcb : c.toNat < b.toNat
        · rw [if_pos hcb] at h2
          exact absurd h2 (by simp)
        · rw [if_pos (by omega : a.toNat < c.toNat)]
    · rw [if_neg hab] at h1
      by_cases hba : b.toNat < a.toNat
      · rw [if_pos hba] at h1
        exact absurd h1 (by simp)
      · rw [if_neg hba] at h1
        by_cases hbc : b.toNat < c.toNat
        · rw [if_pos (by omega : a.toNat < c.toNat)]
        · rw [if_neg hbc] at h2
          by_cases hcb : c.toNat < b.toNat
          · rw [if_pos hcb] at h2
            exact absurd h2 (by simp)
          · rw [if_neg hcb] at h2
            rw [if_neg (by omega : ¬ a.toNat < c.toNat),
              if_neg (by omega : ¬ c.toNat < a.toNat)]
            exact lexLt_trans as bs cs h1 h2

theorem keyLt_trans {a b c : Key} (h1 : keyLt a b = true) (h2 : keyLt b c = true) :
    keyLt a c = true := lexLt_trans _ _ _ h1 h2

theorem lexLt_congr {a b : List Char} (h1 : lexLt a b = false)
    (h2 : lexLt b a = false) (c : List Char) :
    lexLt a c = lexLt b c ∧ lexLt c a = lexLt c b := by
  rw [lexLt_eq_of_not a b h1 h2]
  exact ⟨rfl, rfl⟩

theorem keyLt_congr {a b : Key} (h1 : keyLt a b = false) (h2 : keyLt b a = false)
    (c : Key) : keyLt a c = keyLt b c ∧ keyLt c a = keyLt c b := by
  have hlit : a.literal = b.literal := lexLt_eq_of_not _ _ h1 h2
  unfold keyLt
  rw [hlit]
  exact ⟨rfl, rfl⟩

theorem lookupAssoc_nil {κ α : Type _} (lt : κ → κ → Bool) (k : κ) :
    lookupAssoc lt k ([] : List (κ × α)) = Option.none := rfl

theorem lookupAssoc_cons {κ α : Type _} (lt : κ → κ → Bool) (k k' : κ) (v' : α)
    (l : List (κ × α)) :
    lookupAssoc lt k ((k', v') :: l) =
      if ¬ lt k k' ∧ ¬ lt k' k then some v' else lookupAssoc lt k l := rfl

theorem insertSorted_nil {κ α : Type _} (lt : κ → κ → Bool) (k : κ) (v : α) :
    insertSorted lt k v [] = [(k, v)] := rfl

theorem insertSorted_cons {κ α : Type _} (lt : κ → κ → Bool) (k k' : κ) (v v' : α)
    (l : List (κ × α)) :
    insertSorted lt k v ((k', v') :: l) =
      if lt k k' then (k, v) :: (k', v') :: l
      else if lt k' k then (k', v') :: insertSorted lt k v l
      else (k', v) :: l := rfl

theorem lookup_insert_self {κ α : Type _} (lt : κ → κ → Bool) (k : κ) (v : α)
    (hirr : lt k k = false) :
    ∀ l : List (κ × α), lookupAssoc lt k (insertSorted lt k v l) = some v
  | [] => by
    rw [insertSorted_nil, lookupAssoc_cons,
      if_pos ⟨by simp [hirr], by simp [hirr]⟩]
  | (k', v') :: rest => by
    rw [insertSorted_cons]
    by_cases h1 : lt k k' = true
    · rw [if_pos h1, lookupAssoc_cons, if_pos ⟨by simp [hirr], by simp [hirr]⟩]
    · rw [if_neg h1]
      by_cases h2 : lt k' k = true
      · rw [if_pos h2, lookupAssoc_cons, if_neg (by simp [h2])]
        exact lookup_insert_self lt k v hirr rest
      · rw [if_neg h2, lookupAssoc_cons, if_pos ⟨by simp [h1], by simp [h2]⟩]

theorem lookup_insert_other {κ α : Type _} (lt : κ → κ → Bool) (k1 k2 : κ) (v : α)
    (hd : lt k1 k2 = true ∨ lt k2 k1 = true)
    (hW : ∀ a b, lt a b = false → lt b a = false →
      ∀ c, lt a c = lt b c ∧ lt c a = lt c b) :
    ∀ l : List (κ × α),
      lookupAssoc lt k1 (insertSorted lt k2 v l) = lookupAssoc lt k1 l
  | [] => by
    rw [insertSorted_nil, lookupAssoc_cons,
      if_neg (by rcases hd with h | h <;> simp [h]), lookupAssoc_nil]
  | (k', v') :: rest => by
    rw [insertSorted_cons]
    by_cases h1 : lt k2 k' = true
    · rw [if_pos h1, lookupAssoc_cons,
        if_neg (by rcases hd with h | h <;> simp [h])]
    · rw [if_neg h1]
      by_cases h2 : lt k' k2 = true
      · rw [if_pos h2, lookupAssoc_cons, lookupAssoc_cons]
        by_cases h3 : ¬ lt k1 k' ∧ ¬ lt k' k1
        · rw [if_pos h3, if_pos h3]
        · rw [if_neg h3, if_neg h3]
          exact lookup_insert_other lt k1 k2 v hd hW rest
      · rw [if_neg h2]
        have h1f : lt k2 k' = false := Bool.not_eq_true _ |>.mp h1
        have h2f : lt k' k2 = false := Bool.not_eq_true _ |>.mp h2
        have h3 : ¬ (¬ lt k1 k' ∧ ¬ lt k' k1) := by
          intro hand
          rcases hand with ⟨ha, hb⟩
          have hcong := hW k' k2 h2f h1f k1
          rcases hd with h | h
          · rw [← hcong.2] at h
            exact ha (by simp [h])
          · rw [← hcong.1] at h
            exact hb (by simp [h])
        rw [lookupAssoc_cons, lookupAssoc_cons, if_neg h3, if_neg h3]

theorem insert_absorb {κ α : Type _} (lt : κ → κ → Bool) (k : κ) (v1 v2 : α)
    (hirr : lt k k = false)
    (hasym : ∀ a b, lt a b = true → lt b a = false) :
    ∀ l : List (κ × α),
      insertSorted lt k v2 (insertSorted lt k v1 l) = insertSorted lt k v2 l
  | [] => by
    rw [insertSorted_nil, insertSorted_cons, insertSorted_nil,
      if_neg (by simp [hirr]), if_neg (by simp [hirr])]
  | (k', v') :: rest => by
    rw [insertSorted_cons]
    by_cases h1 : lt k k' = true
    · rw [if_pos h1, insertSorted_cons, if_neg (by simp [hirr]),
        if_neg (by simp [hirr]), insertSorted_cons, if_pos h1]
    · rw [if_neg h1]
      by_cases h2 : lt k' k = true
      · rw [if_pos h2, insertSorted_cons, if_neg (by simp [hasym k' k h2]),
          if_pos h2, insert_absorb lt k v1 v2 hirr hasym rest,
          insertSorted_cons, if_neg h1, if_pos h2]
      · rw [if_neg h2, insertSorted_cons, if_neg h1, if_neg h2,
        insertSorted_cons, if_neg h1, if_neg h2]

theorem insert_comm_lt {κ α : Type _} (lt : κ → κ → Bool) (k1 k2 : κ) (v1 v2 : α)
    (h12 : lt k1 k2 = true)
    (hasym : ∀ a b, lt a b = true → lt b a = false)
    (htrans : ∀ a b c, lt a b = true → lt b c = true → lt a c = true)
    (hW : ∀ a b, lt a b = false → lt b a = false →
      ∀ c, lt a c = lt b c ∧ lt c a = lt c b) :
    ∀ l : List (κ × α),
      insertSorted lt k1 v1 (insertSorted lt k2 v2 l) =
        insertSorted lt k2 v2 (insertSorted lt k1 v1 l)
  | [] => by
    have h21 : lt k2 k1 = false := hasym _ _ h12
    rw [insertSorted_nil, insertSorted_nil, insertSorted_cons, if_pos h12,
      insertSorted_cons, if_neg (by simp [h21]), if_pos h12, insertSorted_nil]
  | (k', v') :: rest => by
    have h21 : lt k2 k1 = false := hasym _ _ h12
    rw [insertSorted_cons lt k2, insertSorted_cons lt k1]
    by_cases hA : lt k2 k' = true
    · have h1k : lt k1 k' = true := htrans _ _ _ h12 hA
      rw [if_pos hA, if_pos h1k, insertSorted_cons, if_pos h12,
        insertSorted_cons, if_neg (by simp [h21]), if_pos h12,
        insertSorted_cons, if_pos hA]
    · rw [if_neg hA]
      by_cases hB : lt k' k2 = true
      · rw [if_pos hB]
        by_cases hC : lt k1 k' = true
        · rw [if_pos hC, insertSorted_cons, if_pos hC, insertSorted_cons,
            if_neg (by simp [h21]), if_pos h12, insertSorted_cons,
            if_neg hA, if_pos hB]
        · by_cases hD : lt k' k1 = true
          · rw [if_neg hC, if_pos hD, insertSorted_cons, if_neg hC, if_pos hD,
              insert_comm_lt lt k1 k2 v1 v2 h12 hasym htrans hW rest,
              insertSorted_cons, if_neg hA, if_pos hB]
          · rw [if_neg hC, if_neg hD, insertSorted_cons, if_neg hC, if_neg hD,
              insertSorted_cons, if_neg hA, if_pos hB]
      · rw [if_neg hB]
        have hAf : lt k2 k' = false := Bool.not_eq_true _ |>.mp hA
        have hBf : lt k' k2 = false := Bool.not_eq_true _ |>.mp hB
        have h1k : lt k1 k' = true := by
          have hc := (hW k2 k' hAf hBf k1).2
          rw [← hc]
          exact h12
        rw [if_pos h1k, insertSorted_cons, if_pos h1k, insertSorted_cons,
          if_neg (by simp [h21]), if_pos h12, insertSorted_cons, if_neg hA,
          if_neg hB]

theorem insert_comm {κ α : Type _} (lt : κ → κ → Bool) (k1 k2 : κ) (v1 v2 : α)
    (hd : lt k1 k2 = true ∨ lt k2 k1 = true)
    (hasym : ∀ a b, lt a b = true → lt b a = false)
    (htrans : ∀ a b c, lt a b = true → lt b c = true → lt a c = true)
    (hW : ∀ a b, lt a b = false → lt b a = false →
      ∀ c, lt a c = lt b c ∧ lt c a = lt c b)
    (l : List (κ × α)) :
    insertSorted lt k1 v1 (insertSorted lt k2 v2 l) =
      insertSorted lt k2 v2 (insertSorted lt k1 v1 l) := by
  rcases hd with h | h
  · exact insert_comm_lt lt k1 k2 v1 v2 h hasym htrans hW l
  · exact (insert_comm_lt lt k2 k1 v2 v1 h hasym htrans hW l).symm

theorem exceptCommute_congr {σ ε : Type _} {f f2 g g2 : σ → Except ε σ}
    (hf : ∀ s, f s = f2 s) (hg : ∀ s, g s = g2 s) (h : ExceptCommute f g) :
    ExceptCommute f2 g2 := by
  intro s s1 s2 h1 h2
  obtain ⟨u, hu1, hu2⟩ := h s s1 s2 ((hf s).trans h1) ((hg s1).trans h2)
  exact ⟨u, (hg s).symm.trans hu1, (hf u).symm.trans hu2⟩

theorem exceptCommute_ok_left {σ ε : Type _} {g : σ → Except ε σ} :
    ExceptCommute (fun s => (.ok s : Except ε σ)) g := by
  intro s s1 s2 h1 h2
  cases h1
  exact ⟨s2, h2, rfl⟩

theorem exceptCommute_ok_right {σ ε : Type _} {f : σ → Except ε σ} :
    ExceptCommute f (fun s => (.ok s : Except ε σ)) := by
  intro s s1 s2 h1 h2
  cases h2
  exact ⟨s, rfl, h1⟩

theorem exceptCommute_error_left {σ ε : Type _} {g : σ → Except ε σ} (e : ε) :
    ExceptCommute (fun _ => (.error e : Except ε σ)) g := by
  intro s s1 s2 h1 _
  exact nomatch h1

theorem exceptCommute_error_right {σ ε : Type _} {f : σ → Except ε σ} (e : ε) :
    ExceptCommute f (fun _ => (.error e : Except ε σ)) := by
  intro s s1 s2 _ h2
  exact nomatch h2

theorem exceptCommute_comp_right {σ ε : Type _} {f g h : σ → Except ε σ}
    (hfg : ExceptCommute f g) (hfh : ExceptCommute f h) :
    ExceptCommute f
      (fun s => match g s with | .ok t => h t | .error e => .error e) := by
  intro s s1 s2 h1 h2
  have h2b : (match g s1 with | .ok t => h t | .error e => .error e) =
      .ok s2 := h2
  clear h2
  rcases hg : g s1 with e | u
  · rw [hg] at h2b
    exact nomatch h2b
  · rw [hg] at h2b
    obtain ⟨w, hgw, hfw⟩ := hfg s s1 u h1 hg
    obtain ⟨v, hhv, hfv⟩ := hfh w u s2 hfw h2b
    refine ⟨v, ?_, hfv⟩
    show (match g s with | .ok t => h t | .error e => .error e) = .ok v
    rw [hgw]
    exact hhv

theorem exceptCommute_comp_left {σ ε : Type _} {f g h : σ → Except ε σ}
    (hfh : ExceptCommute f h) (hgh : ExceptCommute g h) :
    ExceptCommute
      (fun s => match f s with | .ok t => g t | .error e => .error e) h := by
  intro s s1 s2 h1 h2
  have h1b : (match f s with | .ok t => g t | .error e => .error e) =
      .ok s1 := h1
  clear h1
  rcases hf : f s with e | u
  · rw [hf] at h1b
    exact nomatch h1b
  · rw [hf] at h1b
    obtain ⟨w, hhw, hgw⟩ := hgh u s1 s2 h1b h2
    obtain ⟨z, hhz, hfz⟩ := hfh s u w hf hhw
    refine ⟨z, hhz, ?_⟩
    show (match f z with | .ok t => g t | .error e => .error e) = .ok s2
    rw [hfz]
    exact hgw

theorem mergeOccs_nil (L : List Char) (m : Message) :
    mergeOccs L m [] = .ok m := rfl

theorem mergeOccs_step_eq (L : List Char) (m : Message)
    (occ : ParsedInterpolation) (rest : List ParsedInterpolation) :
    mergeOccs L m (occ :: rest) =
      if occ.type_ ≠ (occEntry m occ).type_ then .error .InterpolationTypeMismatch
      else mergeOccs L (mergeStep L m occ) rest := rfl

theorem occEntry_translation (m : Message) (X : List (List Char × Translation))
    (occ : ParsedInterpolation) :
    occEntry { m with translation := X } occ = occEntry m occ := rfl

theorem mergeStep_translation (L : List Char) (m : Message)
    (X : List (List Char × Translation)) (occ : ParsedInterpolation) :
    mergeStep L { m with translation := X } occ =
      { mergeStep L m occ with translation := X } := rfl

theorem mergeOccs_cons (L : List Char) (m : Message) (occ : ParsedInterpolation)
    (rest : List ParsedInterpolation) :
    mergeOccs L m (occ :: rest) =
      match mergeOccs L m [occ] with
      | .ok m2 => mergeOccs L m2 rest
      | .error e => .error e := by
  rw [mergeOccs_step_eq, mergeOccs_step_eq]
  by_cases h : occ.type_ ≠ (occEntry m occ).type_
  · rw [if_pos h, if_pos h]
  · rw [if_neg h, if_neg h, mergeOccs_nil]

theorem mergeOccs_translation_ok (L : List Char) :
    ∀ (occs : List ParsedInterpolation) (m m' : Message)
      (X : List (List Char × Translation)),
      mergeOccs L m occs = .ok m' →
      mergeOccs L { m with translation := X } occs = .ok { m' with translation := X }
  | [], m, m', X => by
    intro h
    rw [mergeOccs_nil] at h
    injection h with h
    subst h
    rw [mergeOccs_nil]
  | occ :: rest, m, m', X => by
    intro h
    rw [mergeOccs_step_eq] at h
    rw [mergeOccs_step_eq, occEntry_translation, mergeStep_translation]
    by_cases hc : occ.type_ ≠ (occEntry m occ).type_
    · rw [if_pos hc] at h
      exact nomatch h
    · rw [if_neg hc] at h
      rw [if_neg hc]
      exact mergeOccs_translation_ok L rest (mergeStep L m occ) m' X h

theorem mergeOccs_translation_err (L : List Char) :
    ∀ (occs : List ParsedInterpolation) (m : Message)
      (X : List (List Char × Translation)) (e : WoofError),
      mergeOccs L m occs = .error e →
      mergeOccs L { m with translation := X } occs = .error e
  | [], m, X, e => by
    intro h
    rw [mergeOccs_nil] at h
    exact nomatch h
  | occ :: rest, m, X, e => by
    intro h
    rw [mergeOccs_step_eq] at h
    rw [mergeOccs_step_eq, occEntry_translation, mergeStep_translation]
    by_cases hc : occ.type_ ≠ (occEntry m occ).type_
    · rw [if_pos hc] at h
      rw [if_pos hc]
      exact h
    · rw [if_neg hc] at h
      rw [if_neg hc]
      exact mergeOccs_translation_err L rest (mergeStep L m occ) X e h

theorem mergeOccs_ok_translation (L : List Char) :
    ∀ (occs : List ParsedInterpolation) (m m' : Message),
      mergeOccs L m occs = .ok m' → m'.translation = m.translation
  | [], m, m' => by
    intro h
    rw [mergeOccs_nil] at h
    injection h with h
    subst h
    rfl
  | occ :: rest, m, m' => by
    intro h
    rw [mergeOccs_step_eq] at h
    by_cases hc : occ.type_ ≠ (occEntry m occ).type_
    · rw [if_pos hc] at h
      exact nomatch h
    · rw [if_neg hc] at h
      exact mergeOccs_ok_translation L rest (mergeStep L m occ) m' h

theorem message_eq_of {m1 m2 : Message} (h1 : m1.translation = m2.translation)
    (h2 : m1.interpolations = m2.interpolations) : m1 = m2 := by
  cases m1
  cases m2
  cases h1
  cases h2
  rfl

theorem mergeStep_interpolations (L : List Char) (m : Message)
    (occ : ParsedInterpolation) :
    (mergeStep L m occ).interpolations =
      insertSorted keyLt (Key.new occ.name)
        { occEntry m occ with
            ranges := insertSorted lexLt L (occ.start, occ.end_)
              (occEntry m occ).ranges }
        m.interpolations := rfl

theorem mergeStep_translation_self (L : List Char) (m : Message)
    (occ : ParsedInterpolation) :
    (mergeStep L m occ).translation = m.translation := rfl

theorem occEntry_eq (m : Message) (occ : ParsedInterpolation) :
    occEntry m occ =
      (lookupAssoc keyLt (Key.new occ.name) m.interpolations).getD
        ⟨occ.type_, []⟩ := rfl

theorem mergeOccs_single_ok {L : List Char} {m u : Message}
    {occ : ParsedInterpolation}
    (hc : ¬ occ.type_ ≠ (occEntry m occ).type_)
    (hu : u = mergeStep L m occ) :
    mergeOccs L m [occ] = .ok u := by
  rw [mergeOccs_step_eq, if_neg hc, mergeOccs_nil, hu]

theorem mergeOne_commute (L1 L2 : List Char) (hne : L1 ≠ L2)
    (occ1 occ2 : ParsedInterpolation) :
    ExceptCommute (fun m => mergeOccs L1 m [occ1])
      (fun m => mergeOccs L2 m [occ2]) := by
  have hLd : lexLt L1 L2 = true ∨ lexLt L2 L1 = true := lexLt_lt_or_gt hne
  have hKW : ∀ a b : Key, keyLt a b = false → keyLt b a = false →
      ∀ c, keyLt a c = keyLt b c ∧ keyLt c a = keyLt c b :=
    fun a b h1 h2 c => keyLt_congr h1 h2 c
  have hKasym : ∀ a b : Key, keyLt a b = true → keyLt b a = false :=
    fun a b h => keyLt_asymm h
  have hKtrans : ∀ a b c : Key, keyLt a b = true → keyLt b c = true →
      keyLt a c = true := fun a b c h1 h2 => keyLt_trans h1 h2
  have hLasym : ∀ a b : List Char, lexLt a b = true → lexLt b a = false :=
    lexLt_asymm
  have hLW : ∀ a b : List Char, lexLt a b = false → lexLt b a = false →
      ∀ c, lexLt a c = lexLt b c ∧ lexLt c a = lexLt c b :=
    fun a b h1 h2 c => lexLt_congr h1 h2 c
  intro m m1 m2 h1 h2
  have h1b : mergeOccs L1 m [occ1] = .ok m1 := h1
  have h2b : mergeOccs L2 m1 [occ2] = .ok m2 := h2
  clear h1 h2
  rw [mergeOccs_step_eq] at h1b h2b
  by_cases hc1 : occ1.type_ ≠ (occEntry m occ1).type_
  · rw [if_pos hc1] at h1b
    exact nomatch h1b
  rw [if_neg hc1, mergeOccs_nil] at h1b
  injection h1b with h1b
  by_cases hc2 : occ2.type_ ≠ (occEntry m1 occ2).type_
  · rw [if_pos hc2] at h2b
    exact nomatch h2b
  rw [if_neg hc2, mergeOccs_nil] at h2b
  injection h2b with h2b
  subst h1b
  subst h2b
  by_cases hk : Key.new occ1.name = Key.new occ2.name
  · -- same placeholder key: the two locales touch the same entry
    have hname : occ1.name = occ2.name := congrArg Key.literal hk
    rcases hlook : lookupAssoc keyLt (Key.new occ1.name) m.interpolations with
      _ | E0
    · -- entry absent: first locale seeds the type
      have hE1 : occEntry m occ1 = ⟨occ1.type_, []⟩ := by
        rw [occEntry_eq, hlook]
        rfl
      have hE2 : occEntry m occ2 = ⟨occ2.type_, []⟩ := by
        rw [occEntry_eq, ← hname, hlook]
        rfl
      have hE12 : occEntry (mergeStep L1 m occ1) occ2 =
          ⟨occ1.type_, insertSorted lexLt L1 (occ1.start, occ1.end_) []⟩ := by
        rw [occEntry_eq, ← hname, mergeStep_interpolations,
          lookup_insert_self keyLt _ _ (keyLt_irrefl _), hE1]
        rfl
      have htype : occ2.type_ = occ1.type_ := by
        have := not_not.mp hc2
        rw [hE12] at this
        exact this
      refine ⟨mergeStep L2 m occ2, ?_, ?_⟩
      · exact mergeOccs_single_ok (by rw [hE2]; simp) rfl
      · have hE21 : occEntry (mergeStep L2 m occ2) occ1 =
            ⟨occ2.type_, insertSorted lexLt L2 (occ2.start, occ2.end_) []⟩ := by
          rw [occEntry_eq, hname, mergeStep_interpolations,
            lookup_insert_self keyLt _ _ (keyLt_irrefl _), hE2]
          rfl
        refine mergeOccs_single_ok (by rw [hE21]; simp [htype]) ?_
        refine message_eq_of rfl ?_
        rw [mergeStep_interpolations, mergeStep_interpolations,
          mergeStep_interpolations, mergeStep_interpolations,
          hE21, hE12, hE1, hE2, hname,
          insert_absorb keyLt _ _ _ (keyLt_irrefl _) hKasym,
          insert_absorb keyLt _ _ _ (keyLt_irrefl _) hKasym]
        have hr : insertSorted lexLt L1 (occ1.start, occ1.end_)
            (insertSorted lexLt L2 (occ2.start, occ2.end_) []) =
            insertSorted lexLt L2 (occ2.start, occ2.end_)
              (insertSorted lexLt L1 (occ1.start, occ1.end_) []) :=
          insert_comm lexLt L1 L2 _ _ hLd hLasym lexLt_trans hLW []
        show insertSorted keyLt (Key.new occ2.name)
            ⟨occ1.type_, insertSorted lexLt L2 (occ2.start, occ2.end_)
              (insertSorted lexLt L1 (occ1.start, occ1.end_) [])⟩
            m.interpolations =
          insertSorted keyLt (Key.new occ2.name)
            ⟨occ2.type_, insertSorted lexLt L1 (occ1.start, occ1.end_)
              (insertSorted lexLt L2 (occ2.start, occ2.end_) [])⟩
            m.interpolations
        rw [htype, hr]
    · -- entry present with a stored type both locales must match
      have hE1 : occEntry m occ1 = E0 := by
        rw [occEntry_eq, hlook]
        rfl
      have hE2 : occEntry m occ2 = E0 := by
        rw [occEntry_eq, ← hname, hlook]
        rfl
      have ht1 : occ1.type_ = E0.type_ := by
        have := not_not.mp hc1
        rw [hE1] at this
        exact this
      have hE12 : occEntry (mergeStep L1 m occ1) occ2 =
          { E0 with
              ranges :=
                insertSorted lexLt L1 (occ1.start, occ1.end_) E0.ranges } := by
        rw [occEntry_eq, ← hname, mergeStep_interpolations,
          lookup_insert_self keyLt _ _ (keyLt_irrefl _), hE1]
        rfl
      have ht2 : occ2.type_ = E0.type_ := by
        have := not_not.mp hc2
        rw [hE12] at this
        exact this
      refine ⟨mergeStep L2 m occ2, ?_, ?_⟩
      · exact mergeOccs_single_ok (by rw [hE2]; simp [ht2]) rfl
      · have hE21 : occEntry (mergeStep L2 m occ2) occ1 =
            { E0 with
                ranges :=
                  insertSorted lexLt L2 (occ2.start, occ2.end_) E0.ranges } := by
          rw [occEntry_eq, hname, mergeStep_interpolations,
            lookup_insert_self keyLt _ _ (keyLt_irrefl _), hE2]
          rfl
        refine mergeOccs_single_ok (by rw [hE21]; simp [ht1]) ?_
        refine message_eq_of rfl ?_
        rw [mergeStep_interpolations, mergeStep_interpolations,
          mergeStep_interpolations, mergeStep_interpolations,
          hE21, hE12, hE1, hE2, hname,
          insert_absorb keyLt _ _ _ (keyLt_irrefl _) hKasym,
          insert_absorb keyLt _ _ _ (keyLt_irrefl _) hKasym]
        have hr : insertSorted lexLt L1 (occ1.start, occ1.end_)
            (insertSorted lexLt L2 (occ2.start, occ2.end_) E0.ranges) =
            insertSorted lexLt L2 (occ2.start, occ2.end_)
              (insertSorted lexLt L1 (occ1.start, occ1.end_) E0.ranges) :=
          insert_comm lexLt L1 L2 _ _ hLd hLasym lexLt_trans hLW E0.ranges
        show insertSorted keyLt (Key.new occ2.name)
            ⟨E0.type_, insertSorted lexLt L2 (occ2.start, occ2.end_)
              (insertSorted lexLt L1 (occ1.start, occ1.end_) E0.ranges)⟩
            m.interpolations =
          insertSorted keyLt (Key.new occ2.name)
            ⟨E0.type_, insertSorted lexLt L1 (occ1.start, occ1.end_)
              (insertSorted lexLt L2 (occ2.start, occ2.end_) E0.ranges)⟩
            m.interpolations
        rw [hr]
  · -- distinct placeholder keys: independent entries
    have hkd : keyLt (Key.new occ1.name) (Key.new occ2.name) = true ∨
        keyLt (Key.new occ2.name) (Key.new occ1.name) = true :=
      keyNew_lt_or_gt hk
    have hE12 : occEntry (mergeStep L1 m occ1) occ2 = occEntry m occ2 := by
      rw [occEntry_eq, occEntry_eq, mergeStep_interpolations,
        lookup_insert_other keyLt _ _ _ hkd.symm hKW]
    refine ⟨mergeStep L2 m occ2, ?_, ?_⟩
    · refine mergeOccs_single_ok ?_ rfl
      rw [← hE12]
      exact hc2
    · have hE21 : occEntry (mergeStep L2 m occ2) occ1 = occEntry m occ1 := by
        rw [occEntry_eq, occEntry_eq, mergeStep_interpolations,
          lookup_insert_other keyLt _ _ _ hkd hKW]
      refine mergeOccs_single_ok (by rw [hE21]; exact hc1) ?_
      refine message_eq_of rfl ?_
      rw [mergeStep_interpolations, mergeStep_interpolations,
        mergeStep_interpolations, mergeStep_interpolations, hE21, hE12]
      exact (insert_comm keyLt _ _ _ _ hkd hKasym hKtrans hKW
        m.interpolations).symm

theorem mergeOne_list_commute (L1 L2 : List Char) (hne : L1 ≠ L2)
    (occ1 : ParsedInterpolation) :
    ∀ occs2, ExceptCommute (fun m => mergeOccs L1 m [occ1])
      (fun m => mergeOccs L2 m occs2)
  | [] => by
    intro s s1 s2 h1 h2
    have h2b : mergeOccs L2 s1 [] = .ok s2 := h2
    rw [mergeOccs_nil] at h2b
    injection h2b with h2b
    subst h2b
    exact ⟨s, mergeOccs_nil L2 s, h1⟩
  | occ2 :: rest => by
    intro s s1 s2 h1 h2
    have h2b : mergeOccs L2 s1 (occ2 :: rest) = .ok s2 := h2
    rw [mergeOccs_cons] at h2b
    rcases hg : mergeOccs L2 s1 [occ2] with e | u
    · rw [hg] at h2b
      exact nomatch h2b
    · rw [hg] at h2b
      have h2c : mergeOccs L2 u rest = .ok s2 := h2b
      obtain ⟨w, hgw, hfw⟩ := mergeOne_commute L1 L2 hne occ1 occ2 s s1 u h1 hg
      obtain ⟨v, hhv, hfv⟩ :=
        mergeOne_list_commute L1 L2 hne occ1 rest w u s2 hfw h2c
      refine ⟨v, ?_, hfv⟩
      have hgw2 : mergeOccs L2 s [occ2] = .ok w := hgw
      show mergeOccs L2 s (occ2 :: rest) = .ok v
      rw [mergeOccs_cons, hgw2]
      exact hhv

theorem mergeOccs_commute (L1 L2 : List Char) (hne : L1 ≠ L2) :
    ∀ occs1 occs2, ExceptCommute (fun m => mergeOccs L1 m occs1)
      (fun m => mergeOccs L2 m occs2)
  | [], occs2 => by
    intro s s1 s2 h1 h2
    have h1b : mergeOccs L1 s [] = .ok s1 := h1
    rw [mergeOccs_nil] at h1b
    injection h1b with h1b
    subst h1b
    exact ⟨s2, h2, mergeOccs_nil L1 s2⟩
  | occ1 :: rest, occs2 => by
    intro s s1 s2 h1 h2
    have h1b : mergeOccs L1 s (occ1 :: rest) = .ok s1 := h1
    rw [mergeOccs_cons] at h1b
    rcases hf : mergeOccs L1 s [occ1] with e | u
    · rw [hf] at h1b
      exact nomatch h1b
    · rw [hf] at h1b
      have h1c : mergeOccs L1 u rest = .ok s1 := h1b
      obtain ⟨w, hhw, hgw⟩ :=
        mergeOccs_commute L1 L2 hne rest occs2 u s1 s2 h1c h2
      obtain ⟨z, hhz, hfz⟩ :=
        mergeOne_list_commute L1 L2 hne occ1 occs2 s u w hf hhw
      refine ⟨z, hhz, ?_⟩
      have hfz2 : mergeOccs L1 z [occ1] = .ok w := hfz
      show mergeOccs L1 z (occ1 :: rest) = .ok s2
      rw [mergeOccs_cons, hfz2]
      exact hgw

theorem liftAt_ok {κ α ε : Type _} {lt : κ → κ → Bool} {K : κ} {d : α}
    {f : α → Except ε α} {mp res : List (κ × α)}
    (h : liftAt lt K d f mp = .ok res) :
    ∃ v, f ((lookupAssoc lt K mp).getD d) = .ok v ∧
      res = insertSorted lt K v mp := by
  unfold liftAt at h
  rcases hf : f ((lookupAssoc lt K mp).getD d) with e | v
  · rw [hf] at h
    exact nomatch h
  · rw [hf] at h
    have h2 : Except.ok (insertSorted lt K v mp) =
        (Except.ok res : Except ε (List (κ × α))) := h
    injection h2 with h2
    exact ⟨v, rfl, h2.symm⟩

theorem liftAt_ok_intro {κ α ε : Type _} {lt : κ → κ → Bool} {K : κ} {d : α}
    {f : α → Except ε α} {mp : List (κ × α)} {v : α}
    (hf : f ((lookupAssoc lt K mp).getD d) = .ok v) :
    liftAt lt K d f mp = .ok (insertSorted lt K v mp) := by
  unfold liftAt
  rw [hf]

theorem liftFst_ok {α β ε : Type _} {f : α → Except ε α} {p q : α × β}
    (h : liftFst f p = .ok q) : ∃ a, f p.1 = .ok a ∧ q = (a, p.2) := by
  unfold liftFst at h
  rcases hf : f p.1 with e | a
  · rw [hf] at h
    exact nomatch h
  · rw [hf] at h
    have h2 : Except.ok (a, p.2) = (Except.ok q : Except ε (α × β)) := h
    injection h2 with h2
    exact ⟨a, rfl, h2.symm⟩

theorem liftFst_ok_intro {α β ε : Type _} {f : α → Except ε α} {p : α × β}
    {a : α} (hf : f p.1 = .ok a) : liftFst f p = .ok (a, p.2) := by
  unfold liftFst
  rw [hf]

theorem liftSnd_ok {α β ε : Type _} {g : β → Except ε β} {p q : α × β}
    (h : liftSnd g p = .ok q) : ∃ b, g p.2 = .ok b ∧ q = (p.1, b) := by
  unfold liftSnd at h
  rcases hg : g p.2 with e | b
  · rw [hg] at h
    exact nomatch h
  · rw [hg] at h
    have h2 : Except.ok (p.1, b) = (Except.ok q : Except ε (α × β)) := h
    injection h2 with h2
    exact ⟨b, rfl, h2.symm⟩

theorem liftSnd_ok_intro {α β ε : Type _} {g : β → Except ε β} {p : α × β}
    {b : β} (hg : g p.2 = .ok b) : liftSnd g p = .ok (p.1, b) := by
  unfold liftSnd
  rw [hg]

theorem liftAt_commute_same {κ α ε : Type _} (lt : κ → κ → Bool) (K : κ) (d : α)
    (f g : α → Except ε α) (hirr : lt K K = false)
    (hasym : ∀ a b, lt a b = true → lt b a = false)
    (hC : ExceptCommute f g) :
    ExceptCommute (liftAt lt K d f) (liftAt lt K d g) := by
  intro s s1 s2 h1 h2
  obtain ⟨v, hf, rfl⟩ := liftAt_ok h1
  obtain ⟨w, hg, rfl⟩ := liftAt_ok h2
  rw [lookup_insert_self lt K v hirr s, Option.getD_some] at hg
  obtain ⟨u, hgu, hfu⟩ := hC ((lookupAssoc lt K s).getD d) v w hf hg
  refine ⟨insertSorted lt K u s, liftAt_ok_intro hgu, ?_⟩
  rw [show liftAt lt K d f (insertSorted lt K u s) =
      .ok (insertSorted lt K w (insertSorted lt K u s)) from
    liftAt_ok_intro (by
      rw [lookup_insert_self lt K u hirr s, Option.getD_some]
      exact hfu)]
  rw [insert_absorb lt K u w hirr hasym s, insert_absorb lt K v w hirr hasym s]

theorem liftAt_commute_other {κ α ε : Type _} (lt : κ → κ → Bool) (K1 K2 : κ)
    (d1 d2 : α) (f g : α → Except ε α)
    (hd : lt K1 K2 = true ∨ lt K2 K1 = true)
    (hasym : ∀ a b, lt a b = true → lt b a = false)
    (htrans : ∀ a b c, lt a b = true → lt b c = true → lt a c = true)
    (hW : ∀ a b, lt a b = false → lt b a = false →
      ∀ c, lt a c = lt b c ∧ lt c a = lt c b) :
    ExceptCommute (liftAt lt K1 d1 f) (liftAt lt K2 d2 g) := by
  intro s s1 s2 h1 h2
  obtain ⟨v, hf, rfl⟩ := liftAt_ok h1
  obtain ⟨w, hg, rfl⟩ := liftAt_ok h2
  rw [lookup_insert_other lt K2 K1 v (Or.symm hd) hW s] at hg
  refine ⟨insertSorted lt K2 w s, liftAt_ok_intro hg, ?_⟩
  rw [show liftAt lt K1 d1 f (insertSorted lt K2 w s) =
      .ok (insertSorted lt K1 v (insertSorted lt K2 w s)) from
    liftAt_ok_intro (by
      rw [lookup_insert_other lt K1 K2 w hd hW s]
      exact hf)]
  rw [insert_comm lt K1 K2 v w hd hasym htrans hW s]

theorem liftFst_liftSnd_commute {α β ε : Type _} (f : α → Except ε α)
    (g : β → Except ε β) : ExceptCommute (liftFst f) (liftSnd g) := by
  intro s s1 s2 h1 h2
  obtain ⟨a, hf, rfl⟩ := liftFst_ok h1
  obtain ⟨b, hg, rfl⟩ := liftSnd_ok h2
  refine ⟨(s.1, b), liftSnd_ok_intro hg, ?_⟩
  exact liftFst_ok_intro hf

theorem liftSnd_liftFst_commute {α β ε : Type _} (g : β → Except ε β)
    (f : α → Except ε α) : ExceptCommute (liftSnd g) (liftFst f) := by
  intro s s1 s2 h1 h2
  obtain ⟨b, hg, rfl⟩ := liftSnd_ok h1
  obtain ⟨a, hf, rfl⟩ := liftFst_ok h2
  refine ⟨(a, s.2), liftFst_ok_intro hf, ?_⟩
  exact liftSnd_ok_intro hg

theorem liftFst_congrC {α β ε : Type _} {f g : α → Except ε α}
    (hC : ExceptCommute f g) :
    ExceptCommute (liftFst (β := β) f) (liftFst g) := by
  intro s s1 s2 h1 h2
  obtain ⟨a, hf, rfl⟩ := liftFst_ok h1
  obtain ⟨b, hg, rfl⟩ := liftFst_ok h2
  obtain ⟨u, hgu, hfu⟩ := hC s.1 a b hf hg
  exact ⟨(u, s.2), liftFst_ok_intro hgu, liftFst_ok_intro hfu⟩

theorem liftSnd_congrC {α β ε : Type _} {f g : β → Except ε β}
    (hC : ExceptCommute f g) :
    ExceptCommute (liftSnd (α := α) f) (liftSnd g) := by
  intro s s1 s2 h1 h2
  obtain ⟨b, hf, rfl⟩ := liftSnd_ok h1
  obtain ⟨c, hg, rfl⟩ := liftSnd_ok h2
  obtain ⟨u, hgu, hfu⟩ := hC s.2 b c hf hg
  exact ⟨(s.1, u), liftSnd_ok_intro hgu, liftSnd_ok_intro hfu⟩

theorem msgUpd_commute (L1 L2 : List Char) (hne : L1 ≠ L2)
    (tr1 tr2 : Translation) (occs1 occs2 : List ParsedInterpolation) :
    ExceptCommute
      (fun msg => mergeOccs L1
        { msg with translation := insertSorted lexLt L1 tr1 msg.translation }
        occs1)
      (fun msg => mergeOccs L2
        { msg with translation := insertSorted lexLt L2 tr2 msg.translation }
        occs2) := by
  have hLd := lexLt_lt_or_gt hne
  intro msg m1 m2 h1 h2
  have h1b : mergeOccs L1
      { msg with translation := insertSorted lexLt L1 tr1 msg.translation }
      occs1 = .ok m1 := h1
  have h2b : mergeOccs L2
      { m1 with translation := insertSorted lexLt L2 tr2 m1.translation }
      occs2 = .ok m2 := h2
  clear h1 h2
  have htr1 : m1.translation = insertSorted lexLt L1 tr1 msg.translation :=
    mergeOccs_ok_translation L1 occs1 _ m1 h1b
  have htr2 : m2.translation = insertSorted lexLt L2 tr2 m1.translation :=
    mergeOccs_ok_translation L2 occs2 _ m2 h2b
  have hA : mergeOccs L1 msg occs1 =
      .ok { m1 with translation := msg.translation } :=
    mergeOccs_translation_ok L1 occs1
      { msg with translation := insertSorted lexLt L1 tr1 msg.translation }
      m1 msg.translation h1b
  have hB : mergeOccs L2 { m1 with translation := msg.translation } occs2 =
      .ok { m2 with translation := msg.translation } :=
    mergeOccs_translation_ok L2 occs2
      { m1 with translation := insertSorted lexLt L2 tr2 m1.translation }
      m2 msg.translation h2b
  obtain ⟨u0, hBu, hAu⟩ := mergeOccs_commute L1 L2 hne occs1 occs2 msg
    { m1 with translation := msg.translation }
    { m2 with translation := msg.translation } hA hB
  have hBu2 : mergeOccs L2 msg occs2 = .ok u0 := hBu
  have hAu2 : mergeOccs L1 u0 occs1 =
      .ok { m2 with translation := msg.translation } := hAu
  have hcomm : insertSorted lexLt L1 tr1
      (insertSorted lexLt L2 tr2 msg.translation) =
      insertSorted lexLt L2 tr2
        (insertSorted lexLt L1 tr1 msg.translation) :=
    insert_comm lexLt L1 L2 tr1 tr2 hLd lexLt_asymm lexLt_trans
      (fun a b hx hy c => lexLt_congr hx hy c) msg.translation
  have hm2 : ({ m2 with
      translation :=
        insertSorted lexLt L1 tr1
          (insertSorted lexLt L2 tr2 msg.translation) } : Message) = m2 := by
    refine message_eq_of ?_ rfl
    show insertSorted lexLt L1 tr1 (insertSorted lexLt L2 tr2 msg.translation) =
      m2.translation
    rw [htr2, htr1, hcomm]
  refine ⟨{ u0 with
    translation := insertSorted lexLt L2 tr2 msg.translation }, ?_, ?_⟩
  · show mergeOccs L2
      { msg with translation := insertSorted lexLt L2 tr2 msg.translation }
      occs2 = _
    exact mergeOccs_translation_ok L2 occs2 msg u0
      (insertSorted lexLt L2 tr2 msg.translation) hBu2
  · show mergeOccs L1
      { u0 with
          translation :=
            insertSorted lexLt L1 tr1
              (insertSorted lexLt L2 tr2 msg.translation) } occs1 = .ok m2
    have hfin := mergeOccs_translation_ok L1 occs1 u0
      { m2 with translation := msg.translation }
      (insertSorted lexLt L1 tr1 (insertSorted lexLt L2 tr2 msg.translation))
      hAu2
    exact hfin.trans (congrArg Except.ok
      (show ({ { m2 with translation := msg.translation } with
          translation := insertSorted lexLt L1 tr1
            (insertSorted lexLt L2 tr2 msg.translation) } : Message) = m2 from
        hm2))

theorem build_module_single_str (L : List Char) (k s : List Char)
    (p : List (Key × Message) × List (Key × Module)) :
    build_module L (.cons k (.vstr s) .nil) p.1 p.2 =
      match (Translation.new s).parse_interpolations with
      | .error e => .error e
      | .ok occs =>
        liftFst (liftAt keyLt (Key.new k) ⟨[], []⟩ (fun msg =>
          mergeOccs L
            { msg with
                translation :=
                  insertSorted lexLt L (Translation.new s) msg.translation }
            occs)) p := by
  show (match (Translation.new s).parse_interpolations with
    | .error e => (.error e : Except WoofError _)
    | .ok occs =>
      match mergeOccs L
          { (lookupAssoc keyLt (Key.new k) p.1).getD ⟨[], []⟩ with
              translation := insertSorted lexLt L (Translation.new s)
                ((lookupAssoc keyLt (Key.new k) p.1).getD
                  ⟨[], []⟩).translation }
          occs with
      | .error e => .error e
      | .ok m3 =>
        build_module L .nil (insertSorted keyLt (Key.new k) m3 p.1) p.2) = _
  rcases hp : (Translation.new s).parse_interpolations with e | occs
  · rfl
  · show (match mergeOccs L
        { (lookupAssoc keyLt (Key.new k) p.1).getD ⟨[], []⟩ with
            translation := insertSorted lexLt L (Translation.new s)
              ((lookupAssoc keyLt (Key.new k) p.1).getD
                ⟨[], []⟩).translation }
        occs with
      | .error e => (.error e : Except WoofError _)
      | .ok m3 =>
        build_module L .nil (insertSorted keyLt (Key.new k) m3 p.1) p.2) =
      liftFst (liftAt keyLt (Key.new k) ⟨[], []⟩ (fun msg =>
        mergeOccs L
          { msg with
              translation :=
                insertSorted lexLt L (Translation.new s) msg.translation }
          occs)) p
    rcases hm : mergeOccs L
        { (lookupAssoc keyLt (Key.new k) p.1).getD ⟨[], []⟩ with
            translation := insertSorted lexLt L (Translation.new s)
              ((lookupAssoc keyLt (Key.new k) p.1).getD
                ⟨[], []⟩).translation }
        occs with e | m3
    · unfold liftFst liftAt
      simp only [hm]
    · unfold liftFst liftAt
      simp only [hm]
      rfl

theorem build_module_single_table (L : List Char) (k : List Char)
    (t : TomlTable) (p : List (Key × Message) × List (Key × Module)) :
    build_module L (.cons k (.vtable t) .nil) p.1 p.2 =
      liftSnd (liftAt keyLt (Key.new k) (Module.mk [] []) (fun c =>
        match build_module L t c.messages c.modules with
        | .ok q => .ok (Module.mk q.1 q.2)
        | .error e => .error e)) p := by
  show (match build_module L t
      ((lookupAssoc keyLt (Key.new k) p.2).getD (.mk [] [])).messages
      ((lookupAssoc keyLt (Key.new k) p.2).getD (.mk [] [])).modules with
    | .error e => (.error e : Except WoofError _)
    | .ok (ms2, md2) =>
      build_module L .nil p.1
        (insertSorted keyLt (Key.new k) (.mk ms2 md2) p.2)) = _
  rcases hb : build_module L t
      ((lookupAssoc keyLt (Key.new k) p.2).getD (.mk [] [])).messages
      ((lookupAssoc keyLt (Key.new k) p.2).getD (.mk [] [])).modules with
    e | ⟨ms2, md2⟩
  · unfold liftSnd liftAt
    simp only [hb]
  · unfold liftSnd liftAt
    simp only [hb]
    rfl

theorem moduleLift_commute {L1 L2 : List Char} {t1 t2 : TomlTable}
    (hC : ExceptCommute
      (fun p : List (Key × Message) × List (Key × Module) =>
        build_module L1 t1 p.1 p.2)
      (fun p => build_module L2 t2 p.1 p.2)) :
    ExceptCommute
      (fun c : Module => match build_module L1 t1 c.messages c.modules with
        | .ok q => .ok (Module.mk q.1 q.2)
        | .error e => .error e)
      (fun c : Module => match build_module L2 t2 c.messages c.modules with
        | .ok q => .ok (Module.mk q.1 q.2)
        | .error e => .error e) := by
  intro c c1 c2 h1 h2
  have h1b : (match build_module L1 t1 c.messages c.modules with
      | Except.ok q => Except.ok (Module.mk q.1 q.2)
      | Except.error e => (Except.error e : Except WoofError Module)) =
      Except.ok c1 := h1
  clear h1
  rcases hb1 : build_module L1 t1 c.messages c.modules with e | q
  · rw [hb1] at h1b
    exact nomatch h1b
  rw [hb1] at h1b
  have h1c : Except.ok (Module.mk q.1 q.2) =
      (Except.ok c1 : Except WoofError Module) := h1b
  injection h1c with h1c
  have h2b : (match build_module L2 t2 c1.messages c1.modules with
      | Except.ok q => Except.ok (Module.mk q.1 q.2)
      | Except.error e => (Except.error e : Except WoofError Module)) =
      Except.ok c2 := h2
  clear h2
  rw [← h1c] at h2b
  rcases hb2 : build_module L2 t2 q.1 q.2 with e | r
  · rw [show build_module L2 t2 (Module.mk q.1 q.2).messages
        (Module.mk q.1 q.2).modules = Except.error e from hb2] at h2b
    exact nomatch h2b
  rw [show build_module L2 t2 (Module.mk q.1 q.2).messages
      (Module.mk q.1 q.2).modules = Except.ok r from hb2] at h2b
  have h2c : Except.ok (Module.mk r.1 r.2) =
      (Except.ok c2 : Except WoofError Module) := h2b
  injection h2c with h2c
  have hq : build_module L1 t1 c.messages c.modules = .ok q := hb1
  have hq2 : build_module L2 t2 q.1 q.2 = .ok r := hb2
  obtain ⟨u, hu1, hu2⟩ := hC (c.messages, c.modules) q r hq hq2
  have hu1b : build_module L2 t2 c.messages c.modules = .ok u := hu1
  have hu2b : build_module L1 t1 u.1 u.2 = .ok r := hu2
  refine ⟨Module.mk u.1 u.2, ?_, ?_⟩
  · show (match build_module L2 t2 c.messages c.modules with
      | Except.ok q => Except.ok (Module.mk q.1 q.2)
      | Except.error e => (Except.error e : Except WoofError Module)) = _
    rw [hu1b]
  · show (match build_module L1 t1 (Module.mk u.1 u.2).messages
        (Module.mk u.1 u.2).modules with
      | Except.ok q => Except.ok (Module.mk q.1 q.2)
      | Except.error e => (Except.error e : Except WoofError Module)) = _
    rw [show build_module L1 t1 (Module.mk u.1 u.2).messages
        (Module.mk u.1 u.2).modules = Except.ok r from hu2b, ← h2c]

theorem exceptSeq_ok {σ ε : Type _} {f g : σ → Except ε σ} {s r : σ}
    (h : exceptSeq f g s = .ok r) : ∃ t, f s = .ok t ∧ g t = .ok r := by
  unfold exceptSeq at h
  rcases hf : f s with e | t
  · rw [hf] at h
    exact nomatch h
  · rw [hf] at h
    exact ⟨t, rfl, h⟩

theorem exceptSeq_ok_intro {σ ε : Type _} {f g : σ → Except ε σ} {s t r : σ}
    (hf : f s = .ok t) (hg : g t = .ok r) : exceptSeq f g s = .ok r := by
  unfold exceptSeq
  rw [hf]
  exact hg

theorem exceptCommute_left_extend {σ ε : Type _} {f1 f2 g F : σ → Except ε σ}
    (hdec : ∀ s, F s = exceptSeq f1 f2 s)
    (h1 : ExceptCommute f1 g) (h2 : ExceptCommute f2 g) :
    ExceptCommute F g := by
  intro s s1 s2 hF hg
  have hF2 : exceptSeq f1 f2 s = .ok s1 := (hdec s).symm.trans hF
  obtain ⟨u, hf1, hf2⟩ := exceptSeq_ok hF2
  obtain ⟨w, hgw, hf2w⟩ := h2 u s1 s2 hf2 hg
  obtain ⟨z, hgz, hf1z⟩ := h1 s u w hf1 hgw
  exact ⟨z, hgz, (hdec z).trans (exceptSeq_ok_intro hf1z hf2w)⟩

theorem exceptCommute_right_extend {σ ε : Type _} {g1 g2 f G : σ → Except ε σ}
    (hdec : ∀ s, G s = exceptSeq g1 g2 s)
    (h1 : ExceptCommute f g1) (h2 : ExceptCommute f g2) :
    ExceptCommute f G := by
  intro s s1 s2 hf hG
  have hG2 : exceptSeq g1 g2 s1 = .ok s2 := (hdec s1).symm.trans hG
  obtain ⟨u, hg1, hg2⟩ := exceptSeq_ok hG2
  obtain ⟨w, hg1w, hfw⟩ := h1 s s1 u hf hg1
  obtain ⟨v, hg2v, hfv⟩ := h2 w u s2 hfw hg2
  exact ⟨v, (hdec s).trans (exceptSeq_ok_intro hg1w hg2v), hfv⟩

theorem build_module_cons_str (L : List Char) (k s : List Char)
    (rest : TomlTable) (p : List (Key × Message) × List (Key × Module)) :
    build_module L (.cons k (.vstr s) rest) p.1 p.2 =
      exceptSeq (fun q => build_module L (.cons k (.vstr s) .nil) q.1 q.2)
        (fun q => build_module L rest q.1 q.2) p := by
  show (match (Translation.new s).parse_interpolations with
    | .error e => (.error e : Except WoofError _)
    | .ok occs =>
      match mergeOccs L
          { (lookupAssoc keyLt (Key.new k) p.1).getD ⟨[], []⟩ with
              translation := insertSorted lexLt L (Translation.new s)
                ((lookupAssoc keyLt (Key.new k) p.1).getD
                  ⟨[], []⟩).translation }
          occs with
      | .error e => .error e
      | .ok m3 =>
        build_module L rest (insertSorted keyLt (Key.new k) m3 p.1) p.2) = _
  unfold exceptSeq
  beta_reduce
  rw [build_module_single_str]
  rcases hp : (Translation.new s).parse_interpolations with e | occs
  · rfl
  · rcases hm : mergeOccs L
        { (lookupAssoc keyLt (Key.new k) p.1).getD ⟨[], []⟩ with
            translation := insertSorted lexLt L (Translation.new s)
              ((lookupAssoc keyLt (Key.new k) p.1).getD
                ⟨[], []⟩).translation }
        occs with e | m3
    · unfold liftFst liftAt
      simp only [hm]
    · unfold liftFst liftAt
      simp only [hm]

theorem build_module_cons_table (L : List Char) (k : List Char)
    (t rest : TomlTable) (p : List (Key × Message) × List (Key × Module)) :
    build_module L (.cons k (.vtable t) rest) p.1 p.2 =
      exceptSeq (fun q => build_module L (.cons k (.vtable t) .nil) q.1 q.2)
        (fun q => build_module L rest q.1 q.2) p := by
  show (match build_module L t
      ((lookupAssoc keyLt (Key.new k) p.2).getD (.mk [] [])).messages
      ((lookupAssoc keyLt (Key.new k) p.2).getD (.mk [] [])).modules with
    | .error e => (.error e : Except WoofError _)
    | .ok (ms2, md2) =>
      build_module L rest p.1
        (insertSorted keyLt (Key.new k) (.mk ms2 md2) p.2)) = _
  unfold exceptSeq
  beta_reduce
  rw [build_module_single_table]
  rcases hb : build_module L t
      ((lookupAssoc keyLt (Key.new k) p.2).getD (.mk [] [])).messages
      ((lookupAssoc keyLt (Key.new k) p.2).getD (.mk [] [])).modules with
    e | ⟨ms2, md2⟩
  · unfold liftSnd liftAt
    simp only [hb]
  · unfold liftSnd liftAt
    simp only [hb]

theorem tomlValue_sizeOf_pos (v : TomlValue) : 1 ≤ sizeOf v := by
  cases v <;> simp_arith

theorem build_module_commute (L1 L2 : List Char) (hne : L1 ≠ L2) :
    ∀ n (t1 t2 : TomlTable), sizeOf t1 + sizeOf t2 ≤ n →
      ExceptCommute
        (fun p : List (Key × Message) × List (Key × Module) =>
          build_module L1 t1 p.1 p.2)
        (fun p => build_module L2 t2 p.1 p.2) := by
  have hKasym : ∀ a b : Key, keyLt a b = true → keyLt b a = false :=
    fun a b h => keyLt_asymm h
  have hKtrans : ∀ a b c : Key, keyLt a b = true → keyLt b c = true →
      keyLt a c = true := fun a b c h1 h2 => keyLt_trans h1 h2
  have hKW : ∀ a b : Key, keyLt a b = false → keyLt b a = false →
      ∀ c, keyLt a c = keyLt b c ∧ keyLt c a = keyLt c b :=
    fun a b h1 h2 c => keyLt_congr h1 h2 c
  intro n
  induction n with
  | zero =>
    intro t1 t2 hsz
    exfalso
    cases t1 <;> simp_arith at hsz
  | succ n ih =>
    intro t1 t2 hsz
    cases t1 with
    | nil =>
      intro s s1 s2 h1 h2
      have h1b : Except.ok (s.1, s.2) =
          (Except.ok s1 : Except WoofError _) := h1
      injection h1b with h1b
      refine ⟨s2, ?_, ?_⟩
      · have h2b : build_module L2 t2 s1.1 s1.2 = .ok s2 := h2
        rw [← h1b] at h2b
        exact h2b
      · show Except.ok (s2.1, s2.2) = Except.ok s2
        rfl
    | cons k1 v1 r1 =>
      cases v1 with
      | vint i =>
        intro s s1 s2 h1 _
        have h1b : (Except.error
            (.UnsupportedValueType (TomlValue.vint i).type_str k1) :
            Except WoofError _) = .ok s1 := h1
        exact nomatch h1b
      | vfloat =>
        intro s s1 s2 h1 _
        have h1b : (Except.error
            (.UnsupportedValueType TomlValue.vfloat.type_str k1) :
            Except WoofError _) = .ok s1 := h1
        exact nomatch h1b
      | vbool b =>
        intro s s1 s2 h1 _
        have h1b : (Except.error
            (.UnsupportedValueType (TomlValue.vbool b).type_str k1) :
            Except WoofError _) = .ok s1 := h1
        exact nomatch h1b
      | vdatetime =>
        intro s s1 s2 h1 _
        have h1b : (Except.error
            (.UnsupportedValueType TomlValue.vdatetime.type_str k1) :
            Except WoofError _) = .ok s1 := h1
        exact nomatch h1b
      | varray a =>
        intro s s1 s2 h1 _
        have h1b : (Except.error
            (.UnsupportedValueType (TomlValue.varray a).type_str k1) :
            Except WoofError _) = .ok s1 := h1
        exact nomatch h1b
      | vstr sv1 =>
        cases r1 with
        | cons k1t v1t r1t =>
          refine exceptCommute_left_extend
            (fun p => build_module_cons_str L1 k1 sv1 _ p) ?_ ?_
          · exact ih (.cons k1 (.vstr sv1) .nil) t2
              (by first
                      | (simp_arith at hsz ⊢; omega)
                      | (have hvp := tomlValue_sizeOf_pos v1t;
                         simp_arith at hsz ⊢; omega)
                      | (have hvp := tomlValue_sizeOf_pos v2t;
                         simp_arith at hsz ⊢; omega))
          · exact ih (.cons k1t v1t r1t) t2
              (by first
                      | (simp_arith at hsz ⊢; omega)
                      | (have hvp := tomlValue_sizeOf_pos v1t;
                         simp_arith at hsz ⊢; omega)
                      | (have hvp := tomlValue_sizeOf_pos v2t;
                         simp_arith at hsz ⊢; omega))
        | nil =>
          cases t2 with
          | nil =>
            intro s s1 s2 h1 h2
            have h2b : Except.ok (s1.1, s1.2) =
                (Except.ok s2 : Except WoofError _) := h2
            injection h2b with h2b
            refine ⟨s, rfl, ?_⟩
            have h1b : build_module L1 (.cons k1 (.vstr sv1) .nil) s.1 s.2 =
                .ok s1 := h1
            show build_module L1 (.cons k1 (.vstr sv1) .nil) s.1 s.2 = .ok s2
            rw [← h2b]
            exact h1b
          | cons k2 v2 r2 =>
            cases v2 with
            | vint i =>
              intro s s1 s2 _ h2
              have h2b : (Except.error
                  (.UnsupportedValueType (TomlValue.vint i).type_str k2) :
                  Except WoofError _) = .ok s2 := h2
              exact nomatch h2b
            | vfloat =>
              intro s s1 s2 _ h2
              have h2b : (Except.error
                  (.UnsupportedValueType TomlValue.vfloat.type_str k2) :
                  Except WoofError _) = .ok s2 := h2
              exact nomatch h2b
            | vbool b =>
              intro s s1 s2 _ h2
              have h2b : (Except.error
                  (.UnsupportedValueType (TomlValue.vbool b).type_str k2) :
                  Except WoofError _) = .ok s2 := h2
              exact nomatch h2b
            | vdatetime =>
              intro s s1 s2 _ h2
              have h2b : (Except.error
                  (.UnsupportedValueType TomlValue.vdatetime.type_str k2) :
                  Except WoofError _) = .ok s2 := h2
              exact nomatch h2b
            | varray a =>
              intro s s1 s2 _ h2
              have h2b : (Except.error
                  (.UnsupportedValueType (TomlValue.varray a).type_str k2) :
                  Except WoofError _) = .ok s2 := h2
              exact nomatch h2b
            | vstr sv2 =>
              cases r2 with
              | cons k2t v2t r2t =>
                refine exceptCommute_right_extend
                  (fun p => build_module_cons_str L2 k2 sv2 _ p) ?_ ?_
                · exact ih (.cons k1 (.vstr sv1) .nil)
                    (.cons k2 (.vstr sv2) .nil)
                    (by first
                      | (simp_arith at hsz ⊢; omega)
                      | (have hvp := tomlValue_sizeOf_pos v1t;
                         simp_arith at hsz ⊢; omega)
                      | (have hvp := tomlValue_sizeOf_pos v2t;
                         simp_arith at hsz ⊢; omega))
                · exact ih (.cons k1 (.vstr sv1) .nil) (.cons k2t v2t r2t)
                    (by first
                      | (simp_arith at hsz ⊢; omega)
                      | (have hvp := tomlValue_sizeOf_pos v1t;
                         simp_arith at hsz ⊢; omega)
                      | (have hvp := tomlValue_sizeOf_pos v2t;
                         simp_arith at hsz ⊢; omega))
              | nil =>
                intro s s1 s2 h1 h2
                have h1b := (build_module_single_str L1 k1 sv1 s).symm.trans h1
                have h2b := (build_module_single_str L2 k2 sv2 s1).symm.trans h2
                rcases hp1 : (Translation.new sv1).parse_interpolations with
                  e | occs1
                · rw [hp1] at h1b
                  exact nomatch h1b
                rcases hp2 : (Translation.new sv2).parse_interpolations with
                  e | occs2
                · rw [hp2] at h2b
                  exact nomatch h2b
                rw [hp1] at h1b
                rw [hp2] at h2b
                have h1c : liftFst (liftAt keyLt (Key.new k1) ⟨[], []⟩
                    (fun msg => mergeOccs L1
                      { msg with
                          translation := insertSorted lexLt L1
                            (Translation.new sv1) msg.translation }
                      occs1)) s = .ok s1 := h1b
                have h2c : liftFst (liftAt keyLt (Key.new k2) ⟨[], []⟩
                    (fun msg => mergeOccs L2
                      { msg with
                          translation := insertSorted lexLt L2
                            (Translation.new sv2) msg.translation }
                      occs2)) s1 = .ok s2 := h2b
                have hcomm : @ExceptCommute
                    (List (Key × Message) × List (Key × Module)) WoofError
                    (liftFst (liftAt keyLt (Key.new k1) ⟨[], []⟩
                      (fun msg => mergeOccs L1
                        { msg with
                            translation := insertSorted lexLt L1
                              (Translation.new sv1) msg.translation }
                        occs1)))
                    (liftFst (liftAt keyLt (Key.new k2) ⟨[], []⟩
                      (fun msg => mergeOccs L2
                        { msg with
                            translation := insertSorted lexLt L2
                              (Translation.new sv2) msg.translation }
                        occs2))) := by
                  by_cases hk : Key.new k1 = Key.new k2
                  · rw [hk]
                    exact liftFst_congrC (liftAt_commute_same keyLt
                      (Key.new k2) ⟨[], []⟩ _ _ (keyLt_irrefl _) hKasym
                      (msgUpd_commute L1 L2 hne (Translation.new sv1)
                        (Translation.new sv2) occs1 occs2))
                  · exact liftFst_congrC (liftAt_commute_other keyLt
                      (Key.new k1) (Key.new k2) (Message.mk [] [])
                      (Message.mk [] []) _ _
                      (keyNew_lt_or_gt hk) hKasym hKtrans hKW)
                obtain ⟨u, hu1, hu2⟩ := hcomm s s1 s2 h1c h2c
                refine ⟨u, ?_, ?_⟩
                · exact (build_module_single_str L2 k2 sv2 s).trans
                    (by rw [hp2]; exact hu1)
                · exact (build_module_single_str L1 k1 sv1 u).trans
                    (by rw [hp1]; exact hu2)
            | vtable tt2 =>
              cases r2 with
              | cons k2t v2t r2t =>
                refine exceptCommute_right_extend
                  (fun p => build_module_cons_table L2 k2 tt2 _ p) ?_ ?_
                · exact ih (.cons k1 (.vstr sv1) .nil)
                    (.cons k2 (.vtable tt2) .nil)
                    (by first
                      | (simp_arith at hsz ⊢; omega)
                      | (have hvp := tomlValue_sizeOf_pos v1t;
                         simp_arith at hsz ⊢; omega)
                      | (have hvp := tomlValue_sizeOf_pos v2t;
                         simp_arith at hsz ⊢; omega))
                · exact ih (.cons k1 (.vstr sv1) .nil) (.cons k2t v2t r2t)
                    (by first
                      | (simp_arith at hsz ⊢; omega)
                      | (have hvp := tomlValue_sizeOf_pos v1t;
                         simp_arith at hsz ⊢; omega)
                      | (have hvp := tomlValue_sizeOf_pos v2t;
                         simp_arith at hsz ⊢; omega))
              | nil =>
                intro s s1 s2 h1 h2
                have h1b := (build_module_single_str L1 k1 sv1 s).symm.trans h1
                have h2b := (build_module_single_table L2 k2 tt2 s1).symm.trans h2
                rcases hp1 : (Translation.new sv1).parse_interpolations with
                  e | occs1
                · rw [hp1] at h1b
                  exact nomatch h1b
                rw [hp1] at h1b
                have h1c : liftFst (liftAt keyLt (Key.new k1) ⟨[], []⟩
                    (fun msg => mergeOccs L1
                      { msg with
                          translation := insertSorted lexLt L1
                            (Translation.new sv1) msg.translation }
                      occs1)) s = .ok s1 := h1b
                have h2c : liftSnd (liftAt keyLt (Key.new k2) (Module.mk [] [])
                    (fun c => match build_module L2 tt2 c.messages c.modules with
                      | .ok q => .ok (Module.mk q.1 q.2)
                      | .error e => .error e)) s1 = .ok s2 := h2b
                obtain ⟨u, hu1, hu2⟩ := liftFst_liftSnd_commute _ _ s s1 s2 h1c h2c
                refine ⟨u, ?_, ?_⟩
                · exact (build_module_single_table L2 k2 tt2 s).trans hu1
                · exact (build_module_single_str L1 k1 sv1 u).trans
                    (by rw [hp1]; exact hu2)
      | vtable tt1 =>
        cases r1 with
        | cons k1t v1t r1t =>
          refine exceptCommute_left_extend
            (fun p => build_module_cons_table L1 k1 tt1 _ p) ?_ ?_
          · exact ih (.cons k1 (.vtable tt1) .nil) t2
              (by first
                      | (simp_arith at hsz ⊢; omega)
                      | (have hvp := tomlValue_sizeOf_pos v1t;
                         simp_arith at hsz ⊢; omega)
                      | (have hvp := tomlValue_sizeOf_pos v2t;
                         simp_arith at hsz ⊢; omega))
          · exact ih (.cons k1t v1t r1t) t2
              (by first
                      | (simp_arith at hsz ⊢; omega)
                      | (have hvp := tomlValue_sizeOf_pos v1t;
                         simp_arith at hsz ⊢; omega)
                      | (have hvp := tomlValue_sizeOf_pos v2t;
                         simp_arith at hsz ⊢; omega))
        | nil =>
          cases t2 with
          | nil =>
            intro s s1 s2 h1 h2
            have h2b : Except.ok (s1.1, s1.2) =
                (Except.ok s2 : Except WoofError _) := h2
            injection h2b with h2b
            refine ⟨s, rfl, ?_⟩
            have h1b : build_module L1 (.cons k1 (.vtable tt1) .nil) s.1 s.2 =
                .ok s1 := h1
            show build_module L1 (.cons k1 (.vtable tt1) .nil) s.1 s.2 = .ok s2
            rw [← h2b]
            exact h1b
          | cons k2 v2 r2 =>
            cases v2 with
            | vint i =>
              intro s s1 s2 _ h2
              have h2b : (Except.error
                  (.UnsupportedValueType (TomlValue.vint i).type_str k2) :
                  Except WoofError _) = .ok s2 := h2
              exact nomatch h2b
            | vfloat =>
              intro s s1 s2 _ h2
              have h2b : (Except.error
                  (.UnsupportedValueType TomlValue.vfloat.type_str k2) :
                  Except WoofError _) = .ok s2 := h2
              exact nomatch h2b
            | vbool b =>
              intro s s1 s2 _ h2
              have h2b : (Except.error
                  (.UnsupportedValueType (TomlValue.vbool b).type_str k2) :
                  Except WoofError _) = .ok s2 := h2
              exact nomatch h2b
            | vdatetime =>
              intro s s1 s2 _ h2
              have h2b : (Except.error
                  (.UnsupportedValueType TomlValue.vdatetime.type_str k2) :
                  Except WoofError _) = .ok s2 := h2
              exact nomatch h2b
            | varray a =>
              intro s s1 s2 _ h2
              have h2b : (Except.error
                  (.UnsupportedValueType (TomlValue.varray a).type_str k2) :
                  Except WoofError _) = .ok s2 := h2
              exact nomatch h2b
            | vstr sv2 =>
              cases r2 with
              | cons k2t v2t r2t =>
                refine exceptCommute_right_extend
                  (fun p => build_module_cons_str L2 k2 sv2 _ p) ?_ ?_
                · exact ih (.cons k1 (.vtable tt1) .nil)
                    (.cons k2 (.vstr sv2) .nil)
                    (by first
                      | (simp_arith at hsz ⊢; omega)
                      | (have hvp := tomlValue_sizeOf_pos v1t;
                         simp_arith at hsz ⊢; omega)
                      | (have hvp := tomlValue_sizeOf_pos v2t;
                         simp_arith at hsz ⊢; omega))
                · exact ih (.cons k1 (.vtable tt1) .nil) (.cons k2t v2t r2t)
                    (by first
                      | (simp_arith at hsz ⊢; omega)
                      | (have hvp := tomlValue_sizeOf_pos v1t;
                         simp_arith at hsz ⊢; omega)
                      | (have hvp := tomlValue_sizeOf_pos v2t;
                         simp_arith at hsz ⊢; omega))
              | nil =>
                intro s s1 s2 h1 h2
                have h1b := (build_module_single_table L1 k1 tt1 s).symm.trans h1
                have h2b := (build_module_single_str L2 k2 sv2 s1).symm.trans h2
                rcases hp2 : (Translation.new sv2).parse_interpolations with
                  e | occs2
                · rw [hp2] at h2b
                  exact nomatch h2b
                rw [hp2] at h2b
                have h1c : liftSnd (liftAt keyLt (Key.new k1) (Module.mk [] [])
                    (fun c => match build_module L1 tt1 c.messages c.modules with
                      | .ok q => .ok (Module.mk q.1 q.2)
                      | .error e => .error e)) s = .ok s1 := h1b
                have h2c : liftFst (liftAt keyLt (Key.new k2) ⟨[], []⟩
                    (fun msg => mergeOccs L2
                      { msg with
                          translation := insertSorted lexLt L2
                            (Translation.new sv2) msg.translation }
                      occs2)) s1 = .ok s2 := h2b
                obtain ⟨u, hu1, hu2⟩ := liftSnd_liftFst_commute _ _ s s1 s2 h1c h2c
                refine ⟨u, ?_, ?_⟩
                · exact (build_module_single_str L2 k2 sv2 s).trans
                    (by rw [hp2]; exact hu1)
                · exact (build_module_single_table L1 k1 tt1 u).trans hu2
            | vtable tt2 =>
              cases r2 with
              | cons k2t v2t r2t =>
                refine exceptCommute_right_extend
                  (fun p => build_module_cons_table L2 k2 tt2 _ p) ?_ ?_
                · exact ih (.cons k1 (.vtable tt1) .nil)
                    (.cons k2 (.vtable tt2) .nil)
                    (by first
                      | (simp_arith at hsz ⊢; omega)
                      | (have hvp := tomlValue_sizeOf_pos v1t;
                         simp_arith at hsz ⊢; omega)
                      | (have hvp := tomlValue_sizeOf_pos v2t;
                         simp_arith at hsz ⊢; omega))
                · exact ih (.cons k1 (.vtable tt1) .nil) (.cons k2t v2t r2t)
                    (by first
                      | (simp_arith at hsz ⊢; omega)
                      | (have hvp := tomlValue_sizeOf_pos v1t;
                         simp_arith at hsz ⊢; omega)
                      | (have hvp := tomlValue_sizeOf_pos v2t;
                         simp_arith at hsz ⊢; omega))
              | nil =>
                intro s s1 s2 h1 h2
                have h1b := (build_module_single_table L1 k1 tt1 s).symm.trans h1
                have h2b := (build_module_single_table L2 k2 tt2 s1).symm.trans h2
                have h1c : liftSnd (liftAt keyLt (Key.new k1) (Module.mk [] [])
                    (fun c => match build_module L1 tt1 c.messages c.modules with
                      | .ok q => .ok (Module.mk q.1 q.2)
                      | .error e => .error e)) s = .ok s1 := h1b
                have h2c : liftSnd (liftAt keyLt (Key.new k2) (Module.mk [] [])
                    (fun c => match build_module L2 tt2 c.messages c.modules with
                      | .ok q => .ok (Module.mk q.1 q.2)
                      | .error e => .error e)) s1 = .ok s2 := h2b
                have hcomm : @ExceptCommute
                    (List (Key × Message) × List (Key × Module)) WoofError
                    (liftSnd (liftAt keyLt (Key.new k1) (Module.mk [] [])
                      (fun c => match build_module L1 tt1 c.messages c.modules with
                        | .ok q => .ok (Module.mk q.1 q.2)
                        | .error e => .error e)))
                    (liftSnd (liftAt keyLt (Key.new k2) (Module.mk [] [])
                      (fun c => match build_module L2 tt2 c.messages c.modules with
                        | .ok q => .ok (Module.mk q.1 q.2)
                        | .error e => .error e))) := by
                  by_cases hk : Key.new k1 = Key.new k2
                  · rw [hk]
                    exact liftSnd_congrC (liftAt_commute_same keyLt
                      (Key.new k2) (Module.mk [] []) _ _ (keyLt_irrefl _) hKasym
                      (moduleLift_commute (ih tt1 tt2
                        (by first
                      | (simp_arith at hsz ⊢; omega)
                      | (have hvp := tomlValue_sizeOf_pos v1t;
                         simp_arith at hsz ⊢; omega)
                      | (have hvp := tomlValue_sizeOf_pos v2t;
                         simp_arith at hsz ⊢; omega)))))
                  · exact liftSnd_congrC (liftAt_commute_other keyLt
                      (Key.new k1) (Key.new k2) (Module.mk [] [])
                      (Module.mk [] []) _ _
                      (keyNew_lt_or_gt hk) hKasym hKtrans hKW)
                obtain ⟨u, hu1, hu2⟩ := hcomm s s1 s2 h1c h2c
                refine ⟨u, ?_, ?_⟩
                · exact (build_module_single_table L2 k2 tt2 s).trans hu1
                · exact (build_module_single_table L1 k1 tt1 u).trans hu2

theorem buildLocales_nil (ms : List (Key × Message)) (md : List (Key × Module)) :
    buildLocales [] ms md = .ok (ms, md) := rfl

theorem buildLocales_cons_table (L : List Char) (root : TomlTable)
    (rest : List (List Char × TomlValue)) (ms : List (Key × Message))
    (md : List (Key × Module)) :
    buildLocales ((L, TomlValue.vtable root) :: rest) ms md =
      match build_module L root ms md with
      | .error e => .error e
      | .ok (ms2, md2) => buildLocales rest ms2 md2 := rfl

theorem buildLocales_cons_table_ok (L : List Char) (root : TomlTable)
    (rest : List (List Char × TomlValue)) (ms : List (Key × Message))
    (md : List (Key × Module)) (ms2 : List (Key × Message))
    (md2 : List (Key × Module))
    (hb : build_module L root ms md = .ok (ms2, md2)) :
    buildLocales ((L, TomlValue.vtable root) :: rest) ms md =
      buildLocales rest ms2 md2 := by
  rw [buildLocales_cons_table, hb]

theorem buildLocales_perm_ok {l1 l2 : List (List Char × TomlValue)}
    (hperm : l1.Perm l2) :
    ∀ ms md r, (l1.map Prod.fst).Nodup →
      buildLocales l1 ms md = .ok r → buildLocales l2 ms md = .ok r := by
  induction hperm with
  | nil =>
    intro ms md r _ h
    exact h
  | cons x p ih =>
    intro ms md r hnd h
    obtain ⟨L, v⟩ := x
    have hndt : ((_ : List (List Char × TomlValue)).map Prod.fst).Nodup :=
      (List.nodup_cons.mp hnd).2
    cases v with
    | vtable root =>
      rw [buildLocales_cons_table] at h
      rcases hb : build_module L root ms md with e | q
      · rw [hb] at h
        exact nomatch h
      · obtain ⟨ms2, md2⟩ := q
        rw [hb] at h
        rw [buildLocales_cons_table_ok L root _ ms md ms2 md2 hb]
        exact ih ms2 md2 r hndt h
    | vstr s =>
      have hh : (Except.error WoofError.RootNotTable :
          Except WoofError (List (Key × Message) × List (Key × Module))) =
          .ok r := h
      exact nomatch hh
    | vint i =>
      have hh : (Except.error WoofError.RootNotTable :
          Except WoofError (List (Key × Message) × List (Key × Module))) =
          .ok r := h
      exact nomatch hh
    | vfloat =>
      have hh : (Except.error WoofError.RootNotTable :
          Except WoofError (List (Key × Message) × List (Key × Module))) =
          .ok r := h
      exact nomatch hh
    | vbool b =>
      have hh : (Except.error WoofError.RootNotTable :
          Except WoofError (List (Key × Message) × List (Key × Module))) =
          .ok r := h
      exact nomatch hh
    | vdatetime =>
      have hh : (Except.error WoofError.RootNotTable :
          Except WoofError (List (Key × Message) × List (Key × Module))) =
          .ok r := h
      exact nomatch hh
    | varray a =>
      have hh : (Except.error WoofError.RootNotTable :
          Except WoofError (List (Key × Message) × List (Key × Module))) =
          .ok r := h
      exact nomatch hh
  | swap x y t =>
    intro ms md r hnd h
    obtain ⟨Ly, vy⟩ := y
    obtain ⟨Lx, vx⟩ := x
    have hnd' : (Ly :: Lx :: t.map Prod.fst).Nodup := hnd
    have hne : Ly ≠ Lx := by
      intro he
      exact (List.nodup_cons.mp hnd').1 (by rw [he]; exact List.mem_cons_self _ _)
    cases vy with
    | vtable rooty =>
      rw [buildLocales_cons_table] at h
      rcases hby : build_module Ly rooty ms md with e | q
      · rw [hby] at h
        exact nomatch h
      obtain ⟨ms2, md2⟩ := q
      rw [hby] at h
      cases vx with
      | vtable rootx =>
        have h2 : buildLocales ((Lx, TomlValue.vtable rootx) :: t) ms2 md2 =
            .ok r := h
        rw [buildLocales_cons_table] at h2
        rcases hbx : build_module Lx rootx ms2 md2 with e | q2
        · rw [hbx] at h2
          exact nomatch h2
        obtain ⟨ms3, md3⟩ := q2
        rw [hbx] at h2
        have h3 : buildLocales t ms3 md3 = .ok r := h2
        have hby' : (fun p : List (Key × Message) × List (Key × Module) =>
            build_module Ly rooty p.1 p.2) (ms, md) = .ok (ms2, md2) := hby
        have hbx' : (fun p : List (Key × Message) × List (Key × Module) =>
            build_module Lx rootx p.1 p.2) (ms2, md2) = .ok (ms3, md3) := hbx
        obtain ⟨u, hu1, hu2⟩ := build_module_commute Ly Lx hne
          (sizeOf rooty + sizeOf rootx) rooty rootx le_rfl
          (ms, md) (ms2, md2) (ms3, md3) hby' hbx'
        obtain ⟨u1, u2⟩ := u
        have hu1c : build_module Lx rootx ms md = .ok (u1, u2) := hu1
        have hu2c : build_module Ly rooty u1 u2 = .ok (ms3, md3) := hu2
        rw [buildLocales_cons_table_ok Lx rootx _ ms md u1 u2 hu1c,
          buildLocales_cons_table_ok Ly rooty _ u1 u2 ms3 md3 hu2c]
        exact h3
      | vstr s =>
        have hh : (Except.error WoofError.RootNotTable :
            Except WoofError (List (Key × Message) × List (Key × Module))) =
            .ok r := h
        exact nomatch hh
      | vint i =>
        have hh : (Except.error WoofError.RootNotTable :
            Except WoofError (List (Key × Message) × List (Key × Module))) =
            .ok r := h
        exact nomatch hh
      | vfloat =>
        have hh : (Except.error WoofError.RootNotTable :
            Except WoofError (List (Key × Message) × List (Key × Module))) =
            .ok r := h
        exact nomatch hh
      | vbool b =>
        have hh : (Except.error WoofError.RootNotTable :
            Except WoofError (List (Key × Message) × List (Key × Module))) =
            .ok r := h
        exact nomatch hh
      | vdatetime =>
        have hh : (Except.error WoofError.RootNotTable :
            Except WoofError (List (Key × Message) × List (Key × Module))) =
            .ok r := h
        exact nomatch hh
      | varray a =>
        have hh : (Except.error WoofError.RootNotTable :
            Except WoofError (List (Key × Message) × List (Key × Module))) =
            .ok r := h
        exact nomatch hh
    | vstr s =>
      have hh : (Except.error WoofError.RootNotTable :
          Except WoofError (List (Key × Message) × List (Key × Module))) =
          .ok r := h
      exact nomatch hh
    | vint i =>
      have hh : (Except.error WoofError.RootNotTable :
          Except WoofError (List (Key × Message) × List (Key × Module))) =
          .ok r := h
      exact nomatch hh
    | vfloat =>
      have hh : (Except.error WoofError.RootNotTable :
          Except WoofError (List (Key × Message) × List (Key × Module))) =
          .ok r := h
      exact nomatch hh
    | vbool b =>
      have hh : (Except.error WoofError.RootNotTable :
          Except WoofError (List (Key × Message) × List (Key × Module))) =
          .ok r := h
      exact nomatch hh
    | vdatetime =>
      have hh : (Except.error WoofError.RootNotTable :
          Except WoofError (List (Key × Message) × List (Key × Module))) =
          .ok r := h
      exact nomatch hh
    | varray a =>
      have hh : (Except.error WoofError.RootNotTable :
          Except WoofError (List (Key × Message) × List (Key × Module))) =
          .ok r := h
      exact nomatch hh
  | trans p1 p2 ih1 ih2 =>
    intro ms md r hnd h
    exact ih2 ms md r ((p1.map Prod.fst).nodup_iff.mp hnd) (ih1 ms md r hnd h)

theorem lookupAssoc_mem {κ α : Type _} (lt : κ → κ → Bool) (k : κ) :
    ∀ (l : List (κ × α)) (v : α), lookupAssoc lt k l = some v →
      ∃ k0, (k0, v) ∈ l
  | [], v, h => nomatch h
  | (k', v') :: rest, v, h => by
    rw [lookupAssoc_cons] at h
    by_cases hc : ¬ lt k k' ∧ ¬ lt k' k
    · rw [if_pos hc] at h
      injection h with h
      exact ⟨k', by rw [← h]; exact List.mem_cons_self _ _⟩
    · rw [if_neg hc] at h
      obtain ⟨k0, hm⟩ := lookupAssoc_mem lt k rest v h
      exact ⟨k0, List.mem_cons_of_mem _ hm⟩

theorem insertSorted_snd_mem {κ α : Type _} (lt : κ → κ → Bool) (k : κ) (v : α) :
    ∀ (l : List (κ × α)) (p : κ × α), p ∈ insertSorted lt k v l →
      p.2 = v ∨ p ∈ l
  | [], p, h => by
    rw [insertSorted_nil] at h
    rw [List.mem_singleton.mp h]
    exact Or.inl rfl
  | (k', v') :: rest, p, h => by
    rw [insertSorted_cons] at h
    by_cases h1 : lt k k' = true
    · rw [if_pos h1] at h
      rcases List.mem_cons.mp h with he | hm
      · rw [he]; exact Or.inl rfl
      · exact Or.inr hm
    · rw [if_neg h1] at h
      by_cases h2 : lt k' k = true
      · rw [if_pos h2] at h
        rcases List.mem_cons.mp h with he | hm
        · rw [he]; exact Or.inr (List.mem_cons_self _ _)
        · rcases insertSorted_snd_mem lt k v rest p hm with hv | hm2
          · exact Or.inl hv
          · exact Or.inr (List.mem_cons_of_mem _ hm2)
      · rw [if_neg h2] at h
        rcases List.mem_cons.mp h with he | hm
        · rw [he]; exact Or.inl rfl
        · exact Or.inr (List.mem_cons_of_mem _ hm)

theorem insertSorted_head_key {κ α : Type _} (lt : κ → κ → Bool) (k : κ) (v : α) :
    ∀ (l : List (κ × α)) (b : κ × α), (insertSorted lt k v l).head? = some b →
      b.1 = k ∨ ∃ w, l.head? = some w ∧ b.1 = w.1
  | [], b, h => by
    rw [insertSorted_nil] at h
    have hh : some ((k, v) : κ × α) = some b := h
    injection hh with hh
    exact Or.inl (by rw [← hh])
  | (k', v') :: rest, b, h => by
    rw [insertSorted_cons] at h
    by_cases h1 : lt k k' = true
    · rw [if_pos h1] at h
      have hh : some ((k, v) : κ × α) = some b := h
      injection hh with hh
      exact Or.inl (by rw [← hh])
    · rw [if_neg h1] at h
      by_cases h2 : lt k' k = true
      · rw [if_pos h2] at h
        have hh : some ((k', v') : κ × α) = some b := h
        injection hh with hh
        exact Or.inr ⟨(k', v'), rfl, by rw [← hh]⟩
      · rw [if_neg h2] at h
        have hh : some ((k', v) : κ × α) = some b := h
        injection hh with hh
        exact Or.inr ⟨(k', v'), rfl, by rw [← hh]⟩

theorem keysOrdered_insertSorted {κ α : Type _} (lt : κ → κ → Bool) (k : κ)
    (v : α) :
    ∀ l : List (κ × α), KeysOrdered lt l → KeysOrdered lt (insertSorted lt k v l)
  | [], _ => by
    rw [insertSorted_nil]
    exact List.chain'_singleton _
  | (k', v') :: rest, h => by
    rw [insertSorted_cons]
    by_cases h1 : lt k k' = true
    · rw [if_pos h1]
      exact List.chain'_cons.mpr ⟨h1, h⟩
    · rw [if_neg h1]
      have hrest : KeysOrdered lt rest := (List.chain'_cons'.mp h).2
      by_cases h2 : lt k' k = true
      · rw [if_pos h2]
        refine List.chain'_cons'.mpr
          ⟨?_, keysOrdered_insertSorted lt k v rest hrest⟩
        intro b hb
        rcases insertSorted_head_key lt k v rest b hb with hbk | ⟨w, hw, hbk⟩
        · rw [hbk]; exact h2
        · rw [hbk]
          exact (List.chain'_cons'.mp h).1 w hw
      · rw [if_neg h2]
        exact List.chain'_cons'.mpr ⟨(List.chain'_cons'.mp h).1, hrest⟩

theorem moduleSorted_maps {m : Module} (h : ModuleSorted m) :
    SortedMaps m.messages m.modules := by
  cases h with
  | mk ms md h1 h2 h3 h4 => exact ⟨h1, h2, h3, h4⟩

theorem mergeStep_sorted (L : List Char) (m : Message)
    (occ : ParsedInterpolation) (hs : MessageSorted m) :
    MessageSorted (mergeStep L m occ) := by
  refine ⟨hs.1, keysOrdered_insertSorted keyLt _ _ _ hs.2.1, ?_⟩
  intro p hp
  rcases insertSorted_snd_mem keyLt _ _ _ p hp with hv | hm
  · rw [hv]
    show KeysOrdered lexLt
      (insertSorted lexLt L (occ.start, occ.end_) (occEntry m occ).ranges)
    refine keysOrdered_insertSorted lexLt _ _ _ ?_
    show KeysOrdered lexLt
      ((lookupAssoc keyLt (Key.new occ.name) m.interpolations).getD
        ⟨occ.type_, []⟩).ranges
    rcases hlk : lookupAssoc keyLt (Key.new occ.name) m.interpolations with
      _ | e0
    · exact List.chain'_nil
    · obtain ⟨k0, hmem⟩ := lookupAssoc_mem keyLt _ _ _ hlk
      exact hs.2.2 (k0, e0) hmem
  · exact hs.2.2 p hm

theorem mergeOccs_sorted (L : List Char) :
    ∀ (occs : List ParsedInterpolation) (m m' : Message),
      MessageSorted m → mergeOccs L m occs = .ok m' → MessageSorted m'
  | [], m, m', hs, h => by
    have hh : Except.ok m = Except.ok m' := h
    injection hh with hh
    rw [← hh]
    exact hs
  | occ :: rest, m, m', hs, h => by
    rw [mergeOccs_step_eq] at h
    by_cases hty : occ.type_ ≠ (occEntry m occ).type_
    · rw [if_pos hty] at h
      exact nomatch h
    · rw [if_neg hty] at h
      exact mergeOccs_sorted L rest (mergeStep L m occ) m'
        (mergeStep_sorted L m occ hs) h

theorem build_module_single_str_sorted (L k s : List Char)
    (ms ms' : List (Key × Message)) (md md' : List (Key × Module))
    (hs : SortedMaps ms md)
    (h : build_module L (.cons k (.vstr s) .nil) ms md = .ok (ms', md')) :
    SortedMaps ms' md' := by
  have h0 := (build_module_single_str L k s (ms, md)).symm.trans h
  rcases hp : (Translation.new s).parse_interpolations with e | occs
  · rw [hp] at h0
    exact nomatch h0
  rw [hp] at h0
  obtain ⟨a, hf, heq⟩ := liftFst_ok h0
  obtain ⟨v, hv, hins⟩ := liftAt_ok hf
  have hmsg : MessageSorted
      ((lookupAssoc keyLt (Key.new k) ms).getD ⟨[], []⟩) := by
    rcases hlk : lookupAssoc keyLt (Key.new k) ms with _ | m0
    · exact ⟨List.chain'_nil, List.chain'_nil, fun p hp => nomatch hp⟩
    · obtain ⟨k0, hmem⟩ := lookupAssoc_mem keyLt _ _ _ hlk
      exact hs.2.2.1 (k0, m0) hmem
  have hvr : mergeOccs L
      { (lookupAssoc keyLt (Key.new k) ms).getD ⟨[], []⟩ with
          translation := insertSorted lexLt L (Translation.new s)
            ((lookupAssoc keyLt (Key.new k) ms).getD ⟨[], []⟩).translation }
      occs = .ok v := hv
  have hmsg2 : MessageSorted
      { (lookupAssoc keyLt (Key.new k) ms).getD ⟨[], []⟩ with
          translation := insertSorted lexLt L (Translation.new s)
            ((lookupAssoc keyLt (Key.new k) ms).getD ⟨[], []⟩).translation } :=
    ⟨keysOrdered_insertSorted lexLt _ _ _ hmsg.1, hmsg.2.1, hmsg.2.2⟩
  have hvS : MessageSorted v := mergeOccs_sorted L occs _ v hmsg2 hvr
  have heq2 : (ms', md') = (a, md) := heq
  injection heq2 with h1 h2
  refine ⟨?_, ?_, ?_, ?_⟩
  · rw [h1, hins]
    exact keysOrdered_insertSorted keyLt _ _ _ hs.1
  · rw [h2]
    exact hs.2.1
  · rw [h1, hins]
    intro p hp
    rcases insertSorted_snd_mem keyLt _ _ _ p hp with hpv | hpm
    · rw [hpv]
      exact hvS
    · exact hs.2.2.1 p hpm
  · rw [h2]
    exact hs.2.2.2

theorem build_module_single_table_sorted (L k : List Char) (tt : TomlTable)
    (ms ms' : List (Key × Message)) (md md' : List (Key × Module))
    (hs : SortedMaps ms md)
    (hrec : ∀ cms cmd cms' cmd', SortedMaps cms cmd →
      build_module L tt cms cmd = .ok (cms', cmd') → SortedMaps cms' cmd')
    (h : build_module L (.cons k (.vtable tt) .nil) ms md = .ok (ms', md')) :
    SortedMaps ms' md' := by
  have h0 := (build_module_single_table L k tt (ms, md)).symm.trans h
  obtain ⟨b, hg, heq⟩ := liftSnd_ok h0
  obtain ⟨v, hv, hins⟩ := liftAt_ok hg
  have hchild : ModuleSorted
      ((lookupAssoc keyLt (Key.new k) md).getD (.mk [] [])) := by
    rcases hlk : lookupAssoc keyLt (Key.new k) md with _ | m0
    · exact ModuleSorted.mk [] [] List.chain'_nil List.chain'_nil
        (fun p hp => nomatch hp) (fun p hp => nomatch hp)
    · obtain ⟨k0, hmem⟩ := lookupAssoc_mem keyLt _ _ _ hlk
      exact hs.2.2.2 (k0, m0) hmem
  have hvr : (match build_module L tt
      ((lookupAssoc keyLt (Key.new k) md).getD (.mk [] [])).messages
      ((lookupAssoc keyLt (Key.new k) md).getD (.mk [] [])).modules with
    | .ok q => (.ok (Module.mk q.1 q.2) : Except WoofError Module)
    | .error e => .error e) = .ok v := hv
  rcases hb : build_module L tt
      ((lookupAssoc keyLt (Key.new k) md).getD (.mk [] [])).messages
      ((lookupAssoc keyLt (Key.new k) md).getD (.mk [] [])).modules with
    e | q2
  · rw [hb] at hvr
    exact nomatch hvr
  obtain ⟨cms', cmd'⟩ := q2
  rw [hb] at hvr
  have hvr2 : Except.ok (Module.mk cms' cmd') =
      (Except.ok v : Except WoofError Module) := hvr
  injection hvr2 with hvv
  have hsc := hrec _ _ cms' cmd' (moduleSorted_maps hchild) hb
  have hvS : ModuleSorted v := by
    rw [← hvv]
    exact ModuleSorted.mk cms' cmd' hsc.1 hsc.2.1 hsc.2.2.1 hsc.2.2.2
  have heq2 : (ms', md') = (ms, b) := heq
  injection heq2 with h1 h2
  refine ⟨?_, ?_, ?_, ?_⟩
  · rw [h1]
    exact hs.1
  · rw [h2, hins]
    exact keysOrdered_insertSorted keyLt _ _ _ hs.2.1
  · rw [h1]
    exact hs.2.2.1
  · rw [h2, hins]
    intro p hp
    rcases insertSorted_snd_mem keyLt _ _ _ p hp with hpv | hpm
    · rw [hpv]
      exact hvS
    · exact hs.2.2.2 p hpm

theorem build_module_sorted (L : List Char) :
    ∀ n (t : TomlTable) (ms : List (Key × Message)) (md : List (Key × Module))
      (ms' : List (Key × Message)) (md' : List (Key × Module)),
      sizeOf t ≤ n → SortedMaps ms md →
      build_module L t ms md = .ok (ms', md') → SortedMaps ms' md' := by
  intro n
  induction n with
  | zero =>
    intro t ms md ms' md' hsz
    exfalso
    cases t <;> simp_arith at hsz
  | succ n ih =>
    intro t ms md ms' md' hsz hs h
    cases t with
    | nil =>
      have hh : Except.ok ((ms, md) :
          List (Key × Message) × List (Key × Module)) = .ok (ms', md') := h
      injection hh with hh
      injection hh with h1 h2
      rw [← h1, ← h2]
      exact hs
    | cons k v rest =>
      cases v with
      | vstr s =>
        have hdec := (build_module_cons_str L k s rest (ms, md)).symm.trans h
        obtain ⟨u, hu1, hu2⟩ := exceptSeq_ok hdec
        obtain ⟨ms2, md2⟩ := u
        have h1 : build_module L (.cons k (.vstr s) .nil) ms md =
            .ok (ms2, md2) := hu1
        have h2 : build_module L rest ms2 md2 = .ok (ms', md') := hu2
        exact ih rest ms2 md2 ms' md' (by simp_arith at hsz; omega)
          (build_module_single_str_sorted L k s ms ms2 md md2 hs h1) h2
      | vtable tt =>
        have hdec := (build_module_cons_table L k tt rest (ms, md)).symm.trans h
        obtain ⟨u, hu1, hu2⟩ := exceptSeq_ok hdec
        obtain ⟨ms2, md2⟩ := u
        have h1 : build_module L (.cons k (.vtable tt) .nil) ms md =
            .ok (ms2, md2) := hu1
        have h2 : build_module L rest ms2 md2 = .ok (ms', md') := hu2
        have hrec : ∀ cms cmd cms' cmd', SortedMaps cms cmd →
            build_module L tt cms cmd = .ok (cms', cmd') →
            SortedMaps cms' cmd' :=
          fun cms cmd cms' cmd' hsc hbc =>
            ih tt cms cmd cms' cmd' (by simp_arith at hsz; omega) hsc hbc
        exact ih rest ms2 md2 ms' md' (by simp_arith at hsz; omega)
          (build_module_single_table_sorted L k tt ms ms2 md md2 hs hrec h1) h2
      | vint i =>
        have hh : (Except.error
            (.UnsupportedValueType (TomlValue.vint i).type_str k) :
            Except WoofError _) = .ok (ms', md') := h
        exact nomatch hh
      | vfloat =>
        have hh : (Except.error
            (.UnsupportedValueType TomlValue.vfloat.type_str k) :
            Except WoofError _) = .ok (ms', md') := h
        exact nomatch hh
      | vbool b =>
        have hh : (Except.error
            (.UnsupportedValueType (TomlValue.vbool b).type_str k) :
            Except WoofError _) = .ok (ms', md') := h
        exact nomatch hh
      | vdatetime =>
        have hh : (Except.error
            (.UnsupportedValueType TomlValue.vdatetime.type_str k) :
            Except WoofError _) = .ok (ms', md') := h
        exact nomatch hh
      | varray a =>
        have hh : (Except.error
            (.UnsupportedValueType (TomlValue.varray a).type_str k) :
            Except WoofError _) = .ok (ms', md') := h
        exact nomatch hh

theorem buildLocales_sorted :
    ∀ (locs : List (List Char × TomlValue)) (ms : List (Key × Message))
      (md : List (Key × Module)) (ms' : List (Key × Message))
      (md' : List (Key × Module)), SortedMaps ms md →
      buildLocales locs ms md = .ok (ms', md') → SortedMaps ms' md'
  | [], ms, md, ms', md', hs, h => by
    have hh : Except.ok ((ms, md) :
        List (Key × Message) × List (Key × Module)) = .ok (ms', md') := h
    injection hh with hh
    injection hh with h1 h2
    rw [← h1, ← h2]
    exact hs
  | (L, v) :: rest, ms, md, ms', md', hs, h => by
    cases v with
    | vtable root =>
      rw [buildLocales_cons_table] at h
      rcases hb : build_module L root ms md with e | q
      · rw [hb] at h
        exact nomatch h
      obtain ⟨ms2, md2⟩ := q
      rw [hb] at h
      have h2 : buildLocales rest ms2 md2 = .ok (ms', md') := h
      exact buildLocales_sorted rest ms2 md2 ms' md'
        (build_module_sorted L (sizeOf root) root ms md ms2 md2 le_rfl hs hb)
        h2
    | vstr s =>
      have hh : (Except.error WoofError.RootNotTable :
          Except WoofError (List (Key × Message) × List (Key × Module))) =
          .ok (ms', md') := h
      exact nomatch hh
    | vint i =>
      have hh : (Except.error WoofError.RootNotTable :
          Except WoofError (List (Key × Message) × List (Key × Module))) =
          .ok (ms', md') := h
      exact nomatch hh
    | vfloat =>
      have hh : (Except.error WoofError.RootNotTable :
          Except WoofError (List (Key × Message) × List (Key × Module))) =
          .ok (ms', md') := h
      exact nomatch hh
    | vbool b =>
      have hh : (Except.error WoofError.RootNotTable :
          Except WoofError (List (Key × Message) × List (Key × Module))) =
          .ok (ms', md') := h
      exact nomatch hh
    | vdatetime =>
      have hh : (Except.error WoofError.RootNotTable :
          Except WoofError (List (Key × Message) × List (Key × Module))) =
          .ok (ms', md') := h
      exact nomatch hh
    | varray a =>
      have hh : (Except.error WoofError.RootNotTable :
          Except WoofError (List (Key × Message) × List (Key × Module))) =
          .ok (ms', md') := h
      exact nomatch hh

theorem build_flat_module_sorted (locs : List (List Char × TomlValue))
    (M : Module) (h : build_flat_module locs = .ok M) : ModuleSorted M := by
  unfold build_flat_module at h
  rcases hbl : buildLocales locs [] [] with e | p
  · rw [hbl] at h
    exact nomatch h
  obtain ⟨ms, md⟩ := p
  rw [hbl] at h
  have hh : Except.ok (Module.mk ms md) = (Except.ok M : Except WoofError _) := h
  injection hh with hh
  have hempty : SortedMaps ([] : List (Key × Message))
      ([] : List (Key × Module)) := by
    refine ⟨List.chain'_nil, List.chain'_nil, ?_, ?_⟩
    · intro p hp
      exact nomatch hp
    · intro p hp
      exact nomatch hp
  have hsm := buildLocales_sorted locs [] [] ms md hempty hbl
  rw [← hh]
  exact ModuleSorted.mk ms md hsm.1 hsm.2.1 hsm.2.2.1 hsm.2.2.2

/-- C7: building the module tree is deterministic and order-independent.
For locale lists with pairwise-distinct locale names (the Rust input is a
`HashMap<String, Value>`, whose keys are unique) that are permutations of
one another — i.e. the same set of locale tables handed over in any
iteration order — a successful `build_flat_module` run in one order
succeeds in every other order with the structurally identical module tree,
and that tree stores messages and submodules ordered by literal key text,
recursively, with every message's translation map, interpolation map and
per-interpolation range map key-sorted as well. -/
theorem C7_build_deterministic (l1 l2 : List (List Char × TomlValue))
    (M : Module) (hperm : l1.Perm l2) (hnd : (l1.map Prod.fst).Nodup)
    (h : build_flat_module l1 = .ok M) :
    build_flat_module l2 = .ok M ∧ ModuleSorted M := by
  refine ⟨?_, build_flat_module_sorted l1 M h⟩
  unfold build_flat_module at h ⊢
  rcases hbl : buildLocales l1 [] [] with e | p
  · rw [hbl] at h
    exact nomatch h
  rw [hbl] at h
  rw [buildLocales_perm_ok hperm [] [] p hnd hbl]
  exact h

/-- Witness for C7 at a concrete input: the two-locale set
`en = \x7bgreet = "hi"\x7d`, `fr = \x7bgreet = "yo"\x7d` builds to the
same key-sorted module in both processing orders. -/
theorem C7_witness :
    build_flat_module
        [("fr".data, .vtable (.cons "greet".data (.vstr "yo".data) .nil)),
         ("en".data, .vtable (.cons "greet".data (.vstr "hi".data) .nil))] =
      .ok (Module.mk
        [(⟨"greet".data, "greet".data⟩,
          ⟨[("en".data, ⟨"hi".data⟩), ("fr".data, ⟨"yo".data⟩)], []⟩)] []) ∧
      ModuleSorted (Module.mk
        [(⟨"greet".data, "greet".data⟩,
          ⟨[("en".data, ⟨"hi".data⟩), ("fr".data, ⟨"yo".data⟩)], []⟩)] []) :=
  C7_build_deterministic
    [("en".data, .vtable (.cons "greet".data (.vstr "hi".data) .nil)),
     ("fr".data, .vtable (.cons "greet".data (.vstr "yo".data) .nil))]
    [("fr".data, .vtable (.cons "greet".data (.vstr "yo".data) .nil)),
     ("en".data, .vtable (.cons "greet".data (.vstr "hi".data) .nil))]
    (Module.mk
      [(⟨"greet".data, "greet".data⟩,
        ⟨[("en".data, ⟨"hi".data⟩), ("fr".data, ⟨"yo".data⟩)], []⟩)] [])
    (List.Perm.swap _ _ [])
    (by decide)
    (by rfl)

end Woof
